import Mathlib

/-!
# jsoniter: codec compilation, caching and the freezing protocol

A shallow embedding of `config.go`, `reflect.go` and `adapter.go`.

* Objects reached through Go pointers (`*frozenConfig`, `*placeholderDecoder`,
  `*placeholderEncoder`) live in a store indexed by address; the functions that mutate them
  take and return the store (`World`).
* `ctx.decoders` / `ctx.encoders` are Go maps shared by every `ctx` copy made with
  `ctx.append`; they are threaded as `CompileState`.
* Everything declared outside the three files (the scanner, the writer, `reflect2`, the
  recognisers and the structural synthesizers, the extension implementations) is a field of
  `Env`; the theorems hold for every `Env`.
-/

set_option autoImplicit false

namespace jsoniter

/-! ## Values shared by the three files -/

/-- Go `error` values that the three files create or compare against. -/
inductive GoError where
  | EOF
  | errorf (text : String)
  | reported (operation : String) (msg : String)
  deriving DecidableEq, Repr

/-- The kinds of `reflect.Kind`. -/
inductive Kind where
  | Invalid | Bool | Int | Int8 | Int16 | Int32 | Int64
  | Uint | Uint8 | Uint16 | Uint32 | Uint64 | Uintptr
  | Float32 | Float64 | Complex64 | Complex128
  | Array | Chan | Func | Interface | Map | Ptr | Slice | String | Struct | UnsafePointer
  deriving DecidableEq, Repr

/-- What a `reflect2.Type` descriptor answers to the calls made in `reflect.go`:
`RType()`, `String()`, `Kind()`, `LikePtr()`, and whether its dynamic type is
`*reflect2.UnsafePtrType` or `*reflect2.UnsafeIFaceType` (the two type assertions). -/
structure Type2 where
  rtype : Nat
  name : String
  kind : Kind
  isUnsafePtrType : Bool
  isUnsafeIFaceType : Bool
  likePtr : Bool
  deriving DecidableEq, Repr

/-- An `unsafe.Pointer`: nil, a location of program memory, or `&ptr`, the address of a
local variable that holds the pointer `ptr` (what `onePtrEncoder` passes on). -/
inductive Pointer where
  | nil
  | addr (a : Nat)
  | ref (ptr : Pointer)
  deriving DecidableEq, Repr

/-- A non-nil `ValDecoder`. Codecs whose type is declared outside the three files are
`other`, told apart by an identity. A placeholder is named by the address of its cell. -/
inductive ValDecoder where
  | lazyErrorDecoder (err : GoError)
  | placeholderDecoder (cell : Nat)
  | ifaceDecoder (valType : Type2)
  | efaceDecoder
  | funcDecoder (owner : Nat)
  | other (id : Nat)
  deriving DecidableEq, Repr

/-- A non-nil `ValEncoder`. -/
inductive ValEncoder where
  | lazyErrorEncoder (err : GoError)
  | placeholderEncoder (cell : Nat)
  | onePtrEncoder (encoder : ValEncoder)
  | dynamicEncoder (valType : Type2)
  | lossyFloat32Encoder
  | lossyFloat64Encoder
  | htmlEscapedStringEncoder
  | funcEncoder (owner : Nat)
  | other (id : Nat)
  deriving DecidableEq, Repr

/-- An `Extension` value: the two map-backed implementations built by `Froze`, or any other
implementation, told apart by an identity. -/
inductive Extension where
  | EncoderExtension (entries : List (Type2 × ValEncoder))
  | DecoderExtension (entries : List (Type2 × ValDecoder))
  | other (id : Nat)
  deriving DecidableEq, Repr

/-- Config customize how the API should behave. -/
structure Config where
  IndentionStep : Int
  MarshalFloatWith6Digits : Bool
  EscapeHTML : Bool
  SortMapKeys : Bool
  UseNumber : Bool
  DisallowUnknownFields : Bool
  TagKey : String
  OnlyTaggedField : Bool
  ValidateJsonRawMessage : Bool
  ObjectFieldMustBeSimpleString : Bool
  CaseSensitive : Bool
  deriving DecidableEq, Repr

/-- A `concurrent.Map` (single-threaded view): `Load` finds the latest `Store` of a key. -/
def Map.Load {κ ν : Type} [DecidableEq κ] (m : List (κ × ν)) (key : κ) : Option ν :=
  m.lookup key

/-- `Store` on a `concurrent.Map`, and assignment `m[key] = value` on a Go map. -/
def Map.Store {κ ν : Type} (m : List (κ × ν)) (key : κ) (value : ν) : List (κ × ν) :=
  (key, value) :: m

/-- The pointee of a `*frozenConfig` (the two pools are left out: nothing here reads them). -/
structure frozenConfig where
  configBeforeFrozen : Config
  sortMapKeys : Bool
  indentionStep : Int
  objectFieldMustBeSimpleString : Bool
  onlyTaggedField : Bool
  disallowUnknownFields : Bool
  decoderCache : List (Nat × ValDecoder)
  encoderCache : List (Nat × ValEncoder)
  encoderExtension : Extension
  decoderExtension : Extension
  extraExtensions : List Extension
  caseSensitive : Bool
  deriving DecidableEq, Repr

/-- The placeholder objects allocated so far: `decoder a` is the field
`placeholderDecoder.decoder` of the object at address `a` (`none` is Go nil). -/
structure Placeholders where
  decoder : Nat → Option ValDecoder
  decoderNext : Nat
  encoder : Nat → Option ValEncoder
  encoderNext : Nat

/-- Process state: the allocated `frozenConfig` objects, the package variable `cfgCache`,
and the placeholder objects. A `*frozenConfig` is an address into `heap`. -/
structure World where
  heap : Nat → frozenConfig
  heapNext : Nat
  cfgCache : List (Config × Nat)
  cells : Placeholders

/-- The part of a `ctx` that is private to each copy: the configuration it compiles for (as
it stands during this compilation) and the message prefix (Go field `prefix`). -/
structure ctx where
  frozenConfig : frozenConfig
  pfx : String

/-- The part of a `ctx` shared by reference between all copies of one compilation: the two
maps, and the placeholder objects they point to. -/
structure CompileState where
  encoders : List (Type2 × ValEncoder)
  decoders : List (Type2 × ValDecoder)
  cells : Placeholders

/-- The result values of `Iterator.WhatIsNext`. -/
inductive ValueType where
  | InvalidValue | StringValue | NumberValue | NilValue | BoolValue | ArrayValue | ObjectValue
  deriving DecidableEq, Repr

/-- The fields of `Iterator` that the three files read or write. -/
structure Iterator where
  cfg : Nat
  buf : List Nat
  head : Nat
  tail : Nat
  Error : Option GoError
  deriving DecidableEq, Repr

/-- The fields of `Stream` that the three files read or write, and its output so far. -/
structure Stream where
  cfg : Nat
  out : String
  Error : Option GoError
  deriving DecidableEq, Repr

/-- Program memory that decoders write into. -/
abbrev Memory := List Nat

/-- A non-nil `interface{}` value: its dynamic type and its data word. -/
structure EFace where
  typ : Type2
  data : Pointer
  deriving DecidableEq, Repr

/-- A failed run: a Go panic, or the evaluation bound of the model was reached. -/
inductive Fault where
  | panic (msg : String)
  | outOfFuel
  deriving DecidableEq, Repr

/-- Everything the three files call that is declared elsewhere. -/
structure Env where
  /-- Package variable `extensions`: the global extensions. -/
  extensions : List Extension
  DecorateDecoder : Extension → Type2 → ValDecoder → ValDecoder
  DecorateEncoder : Extension → Type2 → ValEncoder → ValEncoder
  getTypeDecoderFromExtension : ctx → Type2 → Option ValDecoder
  getTypeEncoderFromExtension : ctx → Type2 → Option ValEncoder
  createDecoderOfJsonRawMessage : ctx → Type2 → CompileState → Option ValDecoder × CompileState
  createDecoderOfJsonNumber : ctx → Type2 → CompileState → Option ValDecoder × CompileState
  createDecoderOfMarshaler : ctx → Type2 → CompileState → Option ValDecoder × CompileState
  createDecoderOfAny : ctx → Type2 → CompileState → Option ValDecoder × CompileState
  createDecoderOfNative : ctx → Type2 → CompileState → Option ValDecoder × CompileState
  decoderOfStruct : ctx → Type2 → CompileState → ValDecoder × CompileState
  decoderOfArray : ctx → Type2 → CompileState → ValDecoder × CompileState
  decoderOfSlice : ctx → Type2 → CompileState → ValDecoder × CompileState
  decoderOfMap : ctx → Type2 → CompileState → ValDecoder × CompileState
  decoderOfOptional : ctx → Type2 → CompileState → ValDecoder × CompileState
  createEncoderOfJsonRawMessage : ctx → Type2 → CompileState → Option ValEncoder × CompileState
  createEncoderOfJsonNumber : ctx → Type2 → CompileState → Option ValEncoder × CompileState
  createEncoderOfMarshaler : ctx → Type2 → CompileState → Option ValEncoder × CompileState
  createEncoderOfAny : ctx → Type2 → CompileState → Option ValEncoder × CompileState
  createEncoderOfNative : ctx → Type2 → CompileState → Option ValEncoder × CompileState
  encoderOfStruct : ctx → Type2 → CompileState → ValEncoder × CompileState
  encoderOfArray : ctx → Type2 → CompileState → ValEncoder × CompileState
  encoderOfSlice : ctx → Type2 → CompileState → ValEncoder × CompileState
  encoderOfMap : ctx → Type2 → CompileState → ValEncoder × CompileState
  encoderOfOptional : ctx → Type2 → CompileState → ValEncoder × CompileState
  /-- The method `Elem()` of a `*reflect2.UnsafePtrType`, where it returns: on the kinds
  that have an element type, see `hasElem`. -/
  Elem : Type2 → Type2
  /-- The descriptors `reflect2.TypeOfPtr((*X)(nil)).Elem()` used as map keys by `Froze`. -/
  float32Type : Type2
  float64Type : Type2
  stringType : Type2
  jsonRawMessageType : Type2
  rawMessageType : Type2
  emptyInterfaceType : Type2
  /-- The scanner. -/
  BorrowIterator : Nat → List Nat → Iterator
  nextToken : Iterator → Nat × Iterator
  WhatIsNext : Iterator → ValueType × Iterator
  Skip : Iterator → Iterator
  /-- The writer. -/
  BorrowStream : Nat → Stream
  /-- The methods of the codecs whose types are declared elsewhere. -/
  decodeOther : ValDecoder → Pointer → Iterator → Memory → Iterator × Memory
  encodeOther : ValEncoder → Pointer → Stream → Stream
  isEmptyOther : ValEncoder → Pointer → Bool

/-! ## config.go -/

/-- Go: `func (cfg *frozenConfig) initCache()`. -/
def frozenConfig.initCache (cfg : frozenConfig) : frozenConfig :=
  { cfg with decoderCache := [], encoderCache := [] }

/-- Go: `func (cfg *frozenConfig) addDecoderToCache(cacheKey uintptr, decoder ValDecoder)`. -/
def frozenConfig.addDecoderToCache (w : World) (cfg : Nat) (cacheKey : Nat)
    (decoder : ValDecoder) : World :=
  let obj : frozenConfig :=
    { (w.heap cfg) with decoderCache := Map.Store (w.heap cfg).decoderCache cacheKey decoder }
  { w with heap := Function.update w.heap cfg obj }

/-- Go: `func (cfg *frozenConfig) addEncoderToCache(cacheKey uintptr, encoder ValEncoder)`. -/
def frozenConfig.addEncoderToCache (w : World) (cfg : Nat) (cacheKey : Nat)
    (encoder : ValEncoder) : World :=
  let obj : frozenConfig :=
    { (w.heap cfg) with encoderCache := Map.Store (w.heap cfg).encoderCache cacheKey encoder }
  { w with heap := Function.update w.heap cfg obj }

/-- Go: `func (cfg *frozenConfig) getDecoderFromCache(cacheKey uintptr) ValDecoder`;
`none` is the nil result. -/
def frozenConfig.getDecoderFromCache (w : World) (cfg : Nat) (cacheKey : Nat) :
    Option ValDecoder :=
  Map.Load (w.heap cfg).decoderCache cacheKey

/-- Go: `func (cfg *frozenConfig) getEncoderFromCache(cacheKey uintptr) ValEncoder`. -/
def frozenConfig.getEncoderFromCache (w : World) (cfg : Nat) (cacheKey : Nat) :
    Option ValEncoder :=
  Map.Load (w.heap cfg).encoderCache cacheKey

/-- Go: `func getFrozenConfigFromCache(cfg Config) *frozenConfig`. -/
def getFrozenConfigFromCache (w : World) (cfg : Config) : Option Nat :=
  Map.Load w.cfgCache cfg

/-- Go: `func addFrozenConfigToCache(cfg Config, frozenConfig *frozenConfig)`. -/
def addFrozenConfigToCache (w : World) (cfg : Config) (api : Nat) : World :=
  { w with cfgCache := Map.Store w.cfgCache cfg api }

/-- Go: `func (cfg *frozenConfig) marshalFloatWith6Digits(extension EncoderExtension)`. -/
def frozenConfig.marshalFloatWith6Digits (E : Env) (extension : List (Type2 × ValEncoder)) :
    List (Type2 × ValEncoder) :=
  Map.Store (Map.Store extension E.float32Type .lossyFloat32Encoder)
    E.float64Type .lossyFloat64Encoder

/-- Go: `func (cfg *frozenConfig) escapeHTML(encoderExtension EncoderExtension)`. -/
def frozenConfig.escapeHTML (E : Env) (encoderExtension : List (Type2 × ValEncoder)) :
    List (Type2 × ValEncoder) :=
  Map.Store encoderExtension E.stringType .htmlEscapedStringEncoder

/-- Go: `func (cfg *frozenConfig) useNumber(extension DecoderExtension)`. -/
def frozenConfig.useNumber (E : Env) (cfg : Nat) (extension : List (Type2 × ValDecoder)) :
    List (Type2 × ValDecoder) :=
  Map.Store extension E.emptyInterfaceType (.funcDecoder cfg)

/-- Go: `func (cfg *frozenConfig) validateJsonRawMessage(extension EncoderExtension)`; one
`funcEncoder` closure over `cfg` is stored under both raw-message types. -/
def frozenConfig.validateJsonRawMessage (E : Env) (cfg : Nat)
    (extension : List (Type2 × ValEncoder)) : List (Type2 × ValEncoder) :=
  Map.Store (Map.Store extension E.jsonRawMessageType (.funcEncoder cfg))
    E.rawMessageType (.funcEncoder cfg)

/-- Go: `func (cfg Config) Froze() API`. Allocates the new `frozenConfig` at the next free
address and returns that address. -/
def Config.Froze (E : Env) (cfg : Config) (w : World) : Nat × World :=
  let api := w.heapNext
  let encoderExtension : List (Type2 × ValEncoder) := []
  let decoderExtension : List (Type2 × ValDecoder) := []
  let encoderExtension :=
    if cfg.MarshalFloatWith6Digits then frozenConfig.marshalFloatWith6Digits E encoderExtension
    else encoderExtension
  let encoderExtension :=
    if cfg.EscapeHTML then frozenConfig.escapeHTML E encoderExtension else encoderExtension
  let decoderExtension :=
    if cfg.UseNumber then frozenConfig.useNumber E api decoderExtension else decoderExtension
  let encoderExtension :=
    if cfg.ValidateJsonRawMessage then frozenConfig.validateJsonRawMessage E api encoderExtension
    else encoderExtension
  let obj : frozenConfig := frozenConfig.initCache
    { configBeforeFrozen := cfg
      sortMapKeys := cfg.SortMapKeys
      indentionStep := cfg.IndentionStep
      objectFieldMustBeSimpleString := cfg.ObjectFieldMustBeSimpleString
      onlyTaggedField := cfg.OnlyTaggedField
      disallowUnknownFields := cfg.DisallowUnknownFields
      decoderCache := []
      encoderCache := []
      encoderExtension := .EncoderExtension encoderExtension
      decoderExtension := .DecoderExtension decoderExtension
      extraExtensions := []
      caseSensitive := cfg.CaseSensitive }
  (api, { w with heap := Function.update w.heap api obj, heapNext := api + 1 })

/-- Go: `func (cfg *frozenConfig) RegisterExtension(extension Extension)`. -/
def frozenConfig.RegisterExtension (w : World) (cfg : Nat) (extension : Extension) : World :=
  let extraExtensions := (w.heap cfg).extraExtensions ++ [extension]
  let copied := (w.heap cfg).configBeforeFrozen
  let obj : frozenConfig :=
    { (w.heap cfg) with extraExtensions := extraExtensions, configBeforeFrozen := copied }
  { w with heap := Function.update w.heap cfg obj }

/-- Go: `func (cfg Config) frozeWithCacheReuse(extraExtensions []Extension) *frozenConfig`. -/
def Config.frozeWithCacheReuse (E : Env) (cfg : Config) (extraExtensions : List Extension)
    (w : World) : Nat × World :=
  match getFrozenConfigFromCache w cfg with
  | some api => (api, w)
  | none =>
    let r := cfg.Froze E w
    let api := r.1
    let w := extraExtensions.foldl
      (fun w extension => frozenConfig.RegisterExtension w api extension) r.2
    (api, addFrozenConfigToCache w cfg api)

/-! ## The writer and the scanner, where the three files rely on what they do -/

/-- Modelled from the spec: `Stream.WriteNil`, declared outside the three files; it "writes
the null representation" and records no error. -/
def Stream.WriteNil (stream : Stream) : Stream :=
  { stream with out := stream.out ++ "null" }

/-- Modelled from the spec: `Stream.WriteRaw`, declared outside the three files; it appends
the given text to the output and records no error. -/
def Stream.WriteRaw (stream : Stream) (text : String) : Stream :=
  { stream with out := stream.out ++ text }

/-- Modelled from the spec: `Iterator.ReportError`, declared outside the three files. Errors
on the input stream are sticky: "once set, further decode calls preserve the first error
(never overwritten by a later secondary failure)"; with no error set, the new one is
recorded. -/
def Iterator.ReportError (iter : Iterator) (operation : String) (msg : String) : Iterator :=
  match iter.Error with
  | some _ => iter
  | none => { iter with Error := some (.reported operation msg) }

/-- `reflect2.RTypeOf(obj)`: the type word of the interface value, 0 for a nil interface. -/
def RTypeOf (obj : Option EFace) : Nat :=
  match obj with
  | some v => v.typ.rtype
  | none => 0

/-- `reflect2.TypeOf(obj)`: the descriptor of the dynamic type, nil for a nil interface. -/
def TypeOf (obj : Option EFace) : Option Type2 :=
  obj.map (fun v => v.typ)

/-- `reflect2.PtrOf(obj)`: the data word of the interface value, nil for a nil interface. -/
def PtrOf (obj : Option EFace) : Pointer :=
  match obj with
  | some v => v.data
  | none => .nil

/-- The kinds on which `Elem()` of a type descriptor is defined (`reflect.Type.Elem`): array,
channel, map, pointer, slice. On a descriptor of any other kind, a func type among them,
`Elem()` panics. -/
def hasElem (k : Kind) : Bool :=
  k = .Array || k = .Chan || k = .Map || k = .Ptr || k = .Slice

/-! ## reflect.go -/

/-- Go: `func (b *ctx) append(prefix string) *ctx`; the two maps are shared, see
`CompileState`. -/
def ctx.append (b : ctx) (pfx : String) : ctx :=
  { frozenConfig := b.frozenConfig, pfx := b.pfx ++ " " ++ pfx }

/-- Go: `func _createDecoderOfType(ctx *ctx, typ reflect2.Type) ValDecoder`. -/
def _createDecoderOfType (E : Env) (c : ctx) (typ : Type2) (s : CompileState) :
    ValDecoder × CompileState :=
  match E.createDecoderOfJsonRawMessage c typ s with
  | (some decoder, s) => (decoder, s)
  | (none, s) =>
  match E.createDecoderOfJsonNumber c typ s with
  | (some decoder, s) => (decoder, s)
  | (none, s) =>
  match E.createDecoderOfMarshaler c typ s with
  | (some decoder, s) => (decoder, s)
  | (none, s) =>
  match E.createDecoderOfAny c typ s with
  | (some decoder, s) => (decoder, s)
  | (none, s) =>
  match E.createDecoderOfNative c typ s with
  | (some decoder, s) => (decoder, s)
  | (none, s) =>
  match typ.kind with
  | .Interface =>
    if typ.isUnsafeIFaceType then (.ifaceDecoder typ, s) else (.efaceDecoder, s)
  | .Struct => E.decoderOfStruct c typ s
  | .Array => E.decoderOfArray c typ s
  | .Slice => E.decoderOfSlice c typ s
  | .Map => E.decoderOfMap c typ s
  | .Ptr => E.decoderOfOptional c typ s
  | _ => (.lazyErrorDecoder (.errorf (c.pfx ++ typ.name ++ " is unsupported type")), s)

/-- Go: `func createDecoderOfType(ctx *ctx, typ reflect2.Type) ValDecoder`. The placeholder
object is allocated at the next free address with a nil `decoder` field. -/
def createDecoderOfType (E : Env) (c : ctx) (typ : Type2) (s : CompileState) :
    ValDecoder × CompileState :=
  match Map.Load s.decoders typ with
  | some decoder => (decoder, s)
  | none =>
    let placeholder := s.cells.decoderNext
    let cells : Placeholders :=
      { s.cells with decoder := Function.update s.cells.decoder placeholder none,
                     decoderNext := placeholder + 1 }
    let s : CompileState :=
      { s with cells := cells,
               decoders := Map.Store s.decoders typ (.placeholderDecoder placeholder) }
    let r := _createDecoderOfType E c typ s
    let decoder := r.1
    let cells : Placeholders :=
      { r.2.cells with decoder := Function.update r.2.cells.decoder placeholder (some decoder) }
    (decoder, { r.2 with cells := cells })

/-- Go: `func decoderOfType(ctx *ctx, typ reflect2.Type) ValDecoder`. -/
def decoderOfType (E : Env) (c : ctx) (typ : Type2) (s : CompileState) :
    ValDecoder × CompileState :=
  match E.getTypeDecoderFromExtension c typ with
  | some decoder => (decoder, s)
  | none =>
    let r := createDecoderOfType E c typ s
    let decoder := r.1
    let decoder := E.extensions.foldl
      (fun decoder extension => E.DecorateDecoder extension typ decoder) decoder
    let decoder := E.DecorateDecoder c.frozenConfig.decoderExtension typ decoder
    let decoder := c.frozenConfig.extraExtensions.foldl
      (fun decoder extension => E.DecorateDecoder extension typ decoder) decoder
    (decoder, r.2)

/-- Go: `func (cfg *frozenConfig) DecoderOf(typ reflect2.Type) ValDecoder`. The single-value
type assertion `typ.(*reflect2.UnsafePtrType)` panics on any other descriptor, and
`ptrType.Elem()` panics on a descriptor that passes the assertion and has no element type
(reflect2 wraps pointer, channel and func types in `UnsafePtrType`). -/
def frozenConfig.DecoderOf (E : Env) (w : World) (cfg : Nat) (typ : Type2) :
    Except Fault (ValDecoder × World) :=
  let cacheKey := typ.rtype
  match frozenConfig.getDecoderFromCache w cfg cacheKey with
  | some decoder => .ok (decoder, w)
  | none =>
    let c : ctx := { frozenConfig := w.heap cfg, pfx := "" }
    let s : CompileState := { decoders := [], encoders := [], cells := w.cells }
    if typ.isUnsafePtrType then
      let ptrType := typ
      if hasElem ptrType.kind then
        let r := decoderOfType E c (E.Elem ptrType) s
        let decoder := r.1
        .ok (decoder, frozenConfig.addDecoderToCache { w with cells := r.2.cells } cfg cacheKey
          decoder)
      else
        .error (.panic ("reflect: Elem of invalid type " ++ ptrType.name))
    else
      .error (.panic "interface conversion: reflect2.Type is not *reflect2.UnsafePtrType")

/-- Go: `func _createEncoderOfType(ctx *ctx, typ reflect2.Type) ValEncoder`. -/
def _createEncoderOfType (E : Env) (c : ctx) (typ : Type2) (s : CompileState) :
    ValEncoder × CompileState :=
  match E.createEncoderOfJsonRawMessage c typ s with
  | (some encoder, s) => (encoder, s)
  | (none, s) =>
  match E.createEncoderOfJsonNumber c typ s with
  | (some encoder, s) => (encoder, s)
  | (none, s) =>
  match E.createEncoderOfMarshaler c typ s with
  | (some encoder, s) => (encoder, s)
  | (none, s) =>
  match E.createEncoderOfAny c typ s with
  | (some encoder, s) => (encoder, s)
  | (none, s) =>
  match E.createEncoderOfNative c typ s with
  | (some encoder, s) => (encoder, s)
  | (none, s) =>
  let kind := typ.kind
  match kind with
  | .Interface => (.dynamicEncoder typ, s)
  | .Struct => E.encoderOfStruct c typ s
  | .Array => E.encoderOfArray c typ s
  | .Slice => E.encoderOfSlice c typ s
  | .Map => E.encoderOfMap c typ s
  | .Ptr => E.encoderOfOptional c typ s
  | _ => (.lazyErrorEncoder (.errorf (c.pfx ++ typ.name ++ " is unsupported type")), s)

/-- Go: `func createEncoderOfType(ctx *ctx, typ reflect2.Type) ValEncoder`. -/
def createEncoderOfType (E : Env) (c : ctx) (typ : Type2) (s : CompileState) :
    ValEncoder × CompileState :=
  match Map.Load s.encoders typ with
  | some encoder => (encoder, s)
  | none =>
    let placeholder := s.cells.encoderNext
    let cells : Placeholders :=
      { s.cells with encoder := Function.update s.cells.encoder placeholder none,
                     encoderNext := placeholder + 1 }
    let s : CompileState :=
      { s with cells := cells,
               encoders := Map.Store s.encoders typ (.placeholderEncoder placeholder) }
    let r := _createEncoderOfType E c typ s
    let encoder := r.1
    let cells : Placeholders :=
      { r.2.cells with encoder := Function.update r.2.cells.encoder placeholder (some encoder) }
    (encoder, { r.2 with cells := cells })

/-- Go: `func encoderOfType(ctx *ctx, typ reflect2.Type) ValEncoder`. -/
def encoderOfType (E : Env) (c : ctx) (typ : Type2) (s : CompileState) :
    ValEncoder × CompileState :=
  match E.getTypeEncoderFromExtension c typ with
  | some encoder => (encoder, s)
  | none =>
    let r := createEncoderOfType E c typ s
    let encoder := r.1
    let encoder := E.extensions.foldl
      (fun encoder extension => E.DecorateEncoder extension typ encoder) encoder
    let encoder := E.DecorateEncoder c.frozenConfig.encoderExtension typ encoder
    let encoder := c.frozenConfig.extraExtensions.foldl
      (fun encoder extension => E.DecorateEncoder extension typ encoder) encoder
    (encoder, r.2)

/-- Go: `func (cfg *frozenConfig) EncoderOf(typ reflect2.Type) ValEncoder`. -/
def frozenConfig.EncoderOf (E : Env) (w : World) (cfg : Nat) (typ : Type2) :
    ValEncoder × World :=
  let cacheKey := typ.rtype
  match frozenConfig.getEncoderFromCache w cfg cacheKey with
  | some encoder => (encoder, w)
  | none =>
    let c : ctx := { frozenConfig := w.heap cfg, pfx := "" }
    let s : CompileState := { decoders := [], encoders := [], cells := w.cells }
    let r := encoderOfType E c typ s
    let encoder := r.1
    let encoder := if typ.likePtr then ValEncoder.onePtrEncoder encoder else encoder
    (encoder, frozenConfig.addEncoderToCache { w with cells := r.2.cells } cfg cacheKey encoder)

/-- The `Decode` methods. `lazyErrorDecoder.Decode` and `placeholderDecoder.Decode` are in
`reflect.go`; every other codec answers through `Env.decodeOther`. A placeholder forwards to
the decoder its cell holds, which costs one unit of `fuel`; a nil cell is a nil
dereference. -/
def ValDecoder.Decode (E : Env) (cells : Placeholders) :
    Nat → ValDecoder → Pointer → Iterator → Memory → Except Fault (Iterator × Memory)
  | _, .lazyErrorDecoder err, _, iter, mem =>
    let r := E.WhatIsNext iter
    let iter := r.2
    if r.1 ≠ ValueType.NilValue then
      if iter.Error = none then .ok ({ iter with Error := some err }, mem)
      else .ok (iter, mem)
    else .ok (E.Skip iter, mem)
  | 0, .placeholderDecoder _, _, _, _ => .error .outOfFuel
  | fuel + 1, .placeholderDecoder cell, ptr, iter, mem =>
    match cells.decoder cell with
    | some decoder => ValDecoder.Decode E cells fuel decoder ptr iter mem
    | none => .error (.panic "invalid memory address or nil pointer dereference")
  | _, .ifaceDecoder valType, ptr, iter, mem =>
    .ok (E.decodeOther (.ifaceDecoder valType) ptr iter mem)
  | _, .efaceDecoder, ptr, iter, mem => .ok (E.decodeOther .efaceDecoder ptr iter mem)
  | _, .funcDecoder owner, ptr, iter, mem => .ok (E.decodeOther (.funcDecoder owner) ptr iter mem)
  | _, .other id, ptr, iter, mem => .ok (E.decodeOther (.other id) ptr iter mem)

/-- The `Encode` methods. Those of `lazyErrorEncoder`, `onePtrEncoder` and
`placeholderEncoder` are in `reflect.go`; every other codec answers through
`Env.encodeOther`. -/
def ValEncoder.Encode (E : Env) (cells : Placeholders) :
    Nat → ValEncoder → Pointer → Stream → Except Fault Stream
  | _, .lazyErrorEncoder err, ptr, stream =>
    if ptr = Pointer.nil then .ok stream.WriteNil
    else if stream.Error = none then .ok { stream with Error := some err }
    else .ok stream
  | fuel, .onePtrEncoder encoder, ptr, stream =>
    ValEncoder.Encode E cells fuel encoder (.ref ptr) stream
  | 0, .placeholderEncoder _, _, _ => .error .outOfFuel
  | fuel + 1, .placeholderEncoder cell, ptr, stream =>
    match cells.encoder cell with
    | some encoder => ValEncoder.Encode E cells fuel encoder ptr stream
    | none => .error (.panic "invalid memory address or nil pointer dereference")
  | _, .dynamicEncoder valType, ptr, stream =>
    .ok (E.encodeOther (.dynamicEncoder valType) ptr stream)
  | _, .lossyFloat32Encoder, ptr, stream => .ok (E.encodeOther .lossyFloat32Encoder ptr stream)
  | _, .lossyFloat64Encoder, ptr, stream => .ok (E.encodeOther .lossyFloat64Encoder ptr stream)
  | _, .htmlEscapedStringEncoder, ptr, stream =>
    .ok (E.encodeOther .htmlEscapedStringEncoder ptr stream)
  | _, .funcEncoder owner, ptr, stream => .ok (E.encodeOther (.funcEncoder owner) ptr stream)
  | _, .other id, ptr, stream => .ok (E.encodeOther (.other id) ptr stream)
termination_by fuel encoder => (fuel, sizeOf encoder)

/-- The `IsEmpty` methods, laid out as `ValEncoder.Encode`. -/
def ValEncoder.IsEmpty (E : Env) (cells : Placeholders) :
    Nat → ValEncoder → Pointer → Except Fault Bool
  | _, .lazyErrorEncoder _, _ => .ok false
  | fuel, .onePtrEncoder encoder, ptr => ValEncoder.IsEmpty E cells fuel encoder (.ref ptr)
  | 0, .placeholderEncoder _, _ => .error .outOfFuel
  | fuel + 1, .placeholderEncoder cell, ptr =>
    match cells.encoder cell with
    | some encoder => ValEncoder.IsEmpty E cells fuel encoder ptr
    | none => .error (.panic "invalid memory address or nil pointer dereference")
  | _, .dynamicEncoder valType, ptr => .ok (E.isEmptyOther (.dynamicEncoder valType) ptr)
  | _, .lossyFloat32Encoder, ptr => .ok (E.isEmptyOther .lossyFloat32Encoder ptr)
  | _, .lossyFloat64Encoder, ptr => .ok (E.isEmptyOther .lossyFloat64Encoder ptr)
  | _, .htmlEscapedStringEncoder, ptr => .ok (E.isEmptyOther .htmlEscapedStringEncoder ptr)
  | _, .funcEncoder owner, ptr => .ok (E.isEmptyOther (.funcEncoder owner) ptr)
  | _, .other id, ptr => .ok (E.isEmptyOther (.other id) ptr)
termination_by fuel encoder => (fuel, sizeOf encoder)

/-- Go: `func (iter *Iterator) ReadVal(obj interface{})`. `typ.Kind()` on the nil
descriptor of a nil interface is a nil dereference. -/
def Iterator.ReadVal (E : Env) (fuel : Nat) (w : World) (iter : Iterator) (mem : Memory)
    (obj : Option EFace) : Except Fault (Iterator × Memory × World) :=
  let cacheKey := RTypeOf obj
  let found : Except Fault (Option ValDecoder × World) :=
    match frozenConfig.getDecoderFromCache w iter.cfg cacheKey with
    | some decoder => .ok (some decoder, w)
    | none =>
      match TypeOf obj with
      | none => .error (.panic "invalid memory address or nil pointer dereference")
      | some typ =>
        if typ.kind ≠ Kind.Ptr then .ok (none, w)
        else
          match frozenConfig.DecoderOf E w iter.cfg typ with
          | .ok (decoder, w) => .ok (some decoder, w)
          | .error f => .error f
  match found with
  | .error f => .error f
  | .ok (none, w) => .ok (iter.ReportError "ReadVal" "can only unmarshal into pointer", mem, w)
  | .ok (some decoder, w) =>
    let ptr := PtrOf obj
    if ptr = Pointer.nil then
      .ok (iter.ReportError "ReadVal" "can not read into nil pointer", mem, w)
    else
      match decoder.Decode E w.cells fuel ptr iter mem with
      | .ok (iter, mem) => .ok (iter, mem, w)
      | .error f => .error f

/-- Go: `func (stream *Stream) WriteVal(val interface{})`. -/
def Stream.WriteVal (E : Env) (fuel : Nat) (w : World) (stream : Stream)
    (val : Option EFace) : Except Fault (Stream × World) :=
  match val with
  | none => .ok (stream.WriteNil, w)
  | some v =>
    let cacheKey := RTypeOf (some v)
    let r : ValEncoder × World :=
      match frozenConfig.getEncoderFromCache w stream.cfg cacheKey with
      | some encoder => (encoder, w)
      | none => frozenConfig.EncoderOf E w stream.cfg v.typ
    match r.1.Encode E r.2.cells fuel (PtrOf (some v)) stream with
    | .ok stream => .ok (stream, r.2)
    | .error f => .error f

/-- Go: `func (cfg *frozenConfig) Unmarshal(data []byte, v interface{}) error`. The result
is the returned `error` (`none` is nil); the deferred `ReturnIterator` runs after the result
has been read and is left out. -/
def frozenConfig.Unmarshal (E : Env) (fuel : Nat) (w : World) (cfg : Nat) (mem : Memory)
    (data : List Nat) (v : Option EFace) : Except Fault (Option GoError × Memory × World) :=
  let iter := E.BorrowIterator cfg data
  match Iterator.ReadVal E fuel w iter mem v with
  | .error f => .error f
  | .ok (iter, mem, w) =>
    let r := E.nextToken iter
    let c := r.1
    let iter := r.2
    if c = 0 then
      if iter.Error = some GoError.EOF then .ok (none, mem, w)
      else .ok (iter.Error, mem, w)
    else
      let iter := iter.ReportError "Unmarshal" "there are bytes left after unmarshal"
      .ok (iter.Error, mem, w)

/-- The conversion `[]byte(str)`: the UTF-8 encoding of the string. -/
def bytesOfString (str : String) : List Nat :=
  (str.toList.flatMap String.utf8EncodeChar).map (fun b => b.toNat)

/-- Go: `func (cfg *frozenConfig) UnmarshalFromString(str string, v interface{}) error`. -/
def frozenConfig.UnmarshalFromString (E : Env) (fuel : Nat) (w : World) (cfg : Nat)
    (mem : Memory) (str : String) (v : Option EFace) :
    Except Fault (Option GoError × Memory × World) :=
  let data := bytesOfString str
  let iter := E.BorrowIterator cfg data
  match Iterator.ReadVal E fuel w iter mem v with
  | .error f => .error f
  | .ok (iter, mem, w) =>
    let r := E.nextToken iter
    let c := r.1
    let iter := r.2
    if c = 0 then
      if iter.Error = some GoError.EOF then .ok (none, mem, w)
      else .ok (iter.Error, mem, w)
    else
      let iter := iter.ReportError "Unmarshal" "there are bytes left after unmarshal"
      .ok (iter.Error, mem, w)

/-- Go: `func (cfg *frozenConfig) Marshal(v interface{}) ([]byte, error)`. The result is
the returned pair (`none` is nil); `stream.Buffer()` is the output written so far, and the
deferred `ReturnStream` is left out. -/
def frozenConfig.Marshal (E : Env) (fuel : Nat) (w : World) (cfg : Nat) (v : Option EFace) :
    Except Fault ((Option String × Option GoError) × World) :=
  let stream := E.BorrowStream cfg
  match Stream.WriteVal E fuel w stream v with
  | .error f => .error f
  | .ok (stream, w) =>
    if stream.Error ≠ none then .ok ((none, stream.Error), w)
    else
      let result := stream.out
      let copied := result
      .ok ((some copied, none), w)

/-- The loop `for _, r := range indent` of `MarshalIndent`: whether some rune of `indent`
is not a space. -/
def hasNonSpace : List Char → Bool
  | [] => false
  | r :: rest => if r ≠ ' ' then true else hasNonSpace rest

/-- Go: `func (cfg *frozenConfig) MarshalIndent(v interface{}, prefix, indent string)
([]byte, error)`; `len(indent)` is the length in bytes. -/
def frozenConfig.MarshalIndent (E : Env) (fuel : Nat) (w : World) (cfg : Nat)
    (v : Option EFace) (pfx : String) (indent : String) :
    Except Fault ((Option String × Option GoError) × World) :=
  if pfx ≠ "" then .error (.panic "prefix is not supported")
  else if hasNonSpace indent.toList then .error (.panic "indent can only be space")
  else
    let newCfg := (w.heap cfg).configBeforeFrozen
    let newCfg : Config := { newCfg with IndentionStep := (indent.utf8ByteSize : Int) }
    let r := newCfg.frozeWithCacheReuse E (w.heap cfg).extraExtensions w
    frozenConfig.Marshal E fuel r.2 r.1 v

/-- Go: `func (cfg *frozenConfig) Valid(data []byte) bool`. -/
def frozenConfig.Valid (E : Env) (cfg : Nat) (data : List Nat) : Bool :=
  let iter := E.BorrowIterator cfg data
  let iter := E.Skip iter
  iter.Error = none

/-! ## adapter.go -/

/-- Go: `func MarshalIndent(v interface{}, prefix, indent string) ([]byte, error)`;
`ConfigDefault` is the address held by the package variable of that name. -/
def MarshalIndent (E : Env) (fuel : Nat) (w : World) (ConfigDefault : Nat)
    (v : Option EFace) (pfx : String) (indent : String) :
    Except Fault ((Option String × Option GoError) × World) :=
  frozenConfig.MarshalIndent E fuel w ConfigDefault v pfx indent

/-- Go: `func Unmarshal(data []byte, v interface{}) error`. -/
def Unmarshal (E : Env) (fuel : Nat) (w : World) (ConfigDefault : Nat) (mem : Memory)
    (data : List Nat) (v : Option EFace) : Except Fault (Option GoError × Memory × World) :=
  frozenConfig.Unmarshal E fuel w ConfigDefault mem data v

/-- Go: `func Valid(data []byte) bool`. -/
def Valid (E : Env) (ConfigDefault : Nat) (data : List Nat) : Bool :=
  frozenConfig.Valid E ConfigDefault data

/-- Go: `type Encoder struct { stream *Stream }`; the stream is owned by the encoder. -/
structure Encoder where
  stream : Stream
  deriving DecidableEq, Repr

/-- Go: `func (adapter *Encoder) SetIndent(prefix, indent string)`. -/
def Encoder.SetIndent (E : Env) (w : World) (adapter : Encoder) (_pfx : String)
    (indent : String) : Encoder × World :=
  let config := (w.heap adapter.stream.cfg).configBeforeFrozen
  let config : Config := { config with IndentionStep := (indent.utf8ByteSize : Int) }
  let r := config.frozeWithCacheReuse E (w.heap adapter.stream.cfg).extraExtensions w
  ({ stream := { adapter.stream with cfg := r.1 } }, r.2)

/-! ## The properties as the specification words them -/

/-- The compilation context that `DecoderOf` and `EncoderOf` start from. -/
def rootCtx (w : World) (cfg : Nat) : ctx := { frozenConfig := w.heap cfg, pfx := "" }

/-- The compilation state that `DecoderOf` and `EncoderOf` start from. -/
def rootState (w : World) : CompileState := { decoders := [], encoders := [], cells := w.cells }

/-- The decoration order of the specification: each extension of `chain`, first to last, is
handed the decoder the previous one returned. -/
def decorateDecoderInOrder (E : Env) (typ : Type2) : List Extension → ValDecoder → ValDecoder
  | [], decoder => decoder
  | extension :: rest, decoder =>
    decorateDecoderInOrder E typ rest (E.DecorateDecoder extension typ decoder)

/-- The decoration order of the specification, for encoders. -/
def decorateEncoderInOrder (E : Env) (typ : Type2) : List Extension → ValEncoder → ValEncoder
  | [], encoder => encoder
  | extension :: rest, encoder =>
    decorateEncoderInOrder E typ rest (E.DecorateEncoder extension typ encoder)

/-- The three tiers for decoders: global, then configuration-level, then extras. -/
def decoderChain (E : Env) (c : ctx) : List Extension :=
  E.extensions ++ c.frozenConfig.decoderExtension :: c.frozenConfig.extraExtensions

/-- The three tiers for encoders: global, then configuration-level, then extras. -/
def encoderChain (E : Env) (c : ctx) : List Extension :=
  E.extensions ++ c.frozenConfig.encoderExtension :: c.frozenConfig.extraExtensions

/-- The specification's "ordered list of special-case recognizers, each returning either a
Codec or not applicable": the first one that applies decides, later ones are not tried. -/
def firstApplicable {α : Type} :
    List (CompileState → Option α × CompileState) → CompileState → Option α × CompileState
  | [], s => (none, s)
  | recogniser :: rest, s =>
    match recogniser s with
    | (some codec, s) => (some codec, s)
    | (none, s) => firstApplicable rest s

/-- The decoder recognisers in the order of the specification. -/
def decoderRecognisers (E : Env) (c : ctx) (typ : Type2) :
    List (CompileState → Option ValDecoder × CompileState) :=
  [E.createDecoderOfJsonRawMessage c typ, E.createDecoderOfJsonNumber c typ,
   E.createDecoderOfMarshaler c typ, E.createDecoderOfAny c typ, E.createDecoderOfNative c typ]

/-- The encoder recognisers in the order of the specification. -/
def encoderRecognisers (E : Env) (c : ctx) (typ : Type2) :
    List (CompileState → Option ValEncoder × CompileState) :=
  [E.createEncoderOfJsonRawMessage c typ, E.createEncoderOfJsonNumber c typ,
   E.createEncoderOfMarshaler c typ, E.createEncoderOfAny c typ, E.createEncoderOfNative c typ]

/-- The six kinds that structural synthesis covers. -/
def structuralKind (k : Kind) : Bool :=
  k = .Interface || k = .Struct || k = .Array || k = .Slice || k = .Map || k = .Ptr

/-- The message of the error codec: the context prefix, the type name, and the fixed text. -/
def unsupportedTypeError (c : ctx) (typ : Type2) : GoError :=
  .errorf (c.pfx ++ typ.name ++ " is unsupported type")

/-- The specification's "dispatch purely on structural kind", for decoders; any kind not
covered gets the error codec. -/
def decoderOfKind (E : Env) (c : ctx) (typ : Type2) (s : CompileState) :
    ValDecoder × CompileState :=
  if typ.kind = .Interface then
    (if typ.isUnsafeIFaceType then (.ifaceDecoder typ, s) else (.efaceDecoder, s))
  else if typ.kind = .Struct then E.decoderOfStruct c typ s
  else if typ.kind = .Array then E.decoderOfArray c typ s
  else if typ.kind = .Slice then E.decoderOfSlice c typ s
  else if typ.kind = .Map then E.decoderOfMap c typ s
  else if typ.kind = .Ptr then E.decoderOfOptional c typ s
  else (.lazyErrorDecoder (unsupportedTypeError c typ), s)

/-- The specification's "dispatch purely on structural kind", for encoders. -/
def encoderOfKind (E : Env) (c : ctx) (typ : Type2) (s : CompileState) :
    ValEncoder × CompileState :=
  if typ.kind = .Interface then (.dynamicEncoder typ, s)
  else if typ.kind = .Struct then E.encoderOfStruct c typ s
  else if typ.kind = .Array then E.encoderOfArray c typ s
  else if typ.kind = .Slice then E.encoderOfSlice c typ s
  else if typ.kind = .Map then E.encoderOfMap c typ s
  else if typ.kind = .Ptr then E.encoderOfOptional c typ s
  else (.lazyErrorEncoder (unsupportedTypeError c typ), s)

/-- No decoder recogniser applies to `typ`, whatever the compilation state. -/
def noDecoderRecogniser (E : Env) (c : ctx) (typ : Type2) : Prop :=
  ∀ r ∈ decoderRecognisers E c typ, ∀ s, r s = (none, s)

/-- No encoder recogniser applies to `typ`, whatever the compilation state. -/
def noEncoderRecogniser (E : Env) (c : ctx) (typ : Type2) : Prop :=
  ∀ r ∈ encoderRecognisers E c typ, ∀ s, r s = (none, s)

/-- No extension supplies or changes a decoder for `typ`: no type-level extension codec,
and every extension of the chain hands back the decoder it is given. -/
def noDecoderExtension (E : Env) (c : ctx) (typ : Type2) : Prop :=
  E.getTypeDecoderFromExtension c typ = none ∧
  ∀ x ∈ decoderChain E c, ∀ d, E.DecorateDecoder x typ d = d

/-- No extension supplies or changes an encoder for `typ`. -/
def noEncoderExtension (E : Env) (c : ctx) (typ : Type2) : Prop :=
  E.getTypeEncoderFromExtension c typ = none ∧
  ∀ x ∈ encoderChain E c, ∀ e, E.DecorateEncoder x typ e = e

/-- The frozen configuration `f` carries the flags of the record `c`: it was frozen from
`c` and its flag fields are the ones `Froze` copies. -/
def frozenFor (c : Config) (f : frozenConfig) : Prop :=
  f.configBeforeFrozen = c ∧ f.indentionStep = c.IndentionStep ∧
  f.sortMapKeys = c.SortMapKeys ∧
  f.objectFieldMustBeSimpleString = c.ObjectFieldMustBeSimpleString ∧
  f.onlyTaggedField = c.OnlyTaggedField ∧
  f.disallowUnknownFields = c.DisallowUnknownFields ∧ f.caseSensitive = c.CaseSensitive

/-- The registry `cfgCache` is sound: every entry leads to an allocated object that carries
the flags it is filed under. It holds of the empty registry and `frozeWithCacheReuse`, the
only writer, keeps it. -/
def RegistryOk (w : World) : Prop :=
  ∀ c a, Map.Load w.cfgCache c = some a → a < w.heapNext ∧ frozenFor c (w.heap a)

/-- The record `newCfg` of `MarshalIndent` and `SetIndent`: the flags of `c` with
`IndentionStep` replaced. -/
def withIndentionStep (c : Config) (step : Int) : Config :=
  { c with IndentionStep := step }

/-! ## Structural synthesis, modelled from the spec

`decoderOfStruct`, `decoderOfArray`, `decoderOfSlice`, `decoderOfMap`, `decoderOfOptional` and
their encoder twins are declared outside the three files. What follows models how they
recurse, from §4.2 of the specification, on top of the embedded `createDecoderOfType` /
`createEncoderOfType`. -/

/-- Modelled from the spec: the structural synthesizers, missing from the three files, are
driven by the type descriptors' graph. `types` lists the types reachable from the roots of
interest; `nested typ` lists the types whose codecs the synthesizer of `typ` resolves, in
order, each with the label it appends to the context ("field-by-field ... its
recursively-resolved codec", "element codec", "key codec and value codec", "wraps an inner
codec"); `assembleDecoder` / `assembleEncoder` build the codec of `typ` from the resolved
ones. -/
structure TypeGraph where
  types : List Type2
  nested : Type2 → List (String × Type2)
  assembleDecoder : Type2 → List ValDecoder → ValDecoder
  assembleEncoder : Type2 → List ValEncoder → ValEncoder

/-- The kinds whose synthesizer resolves nested types: struct, array, slice, map, pointer. -/
def recursiveKind (k : Kind) : Bool :=
  k = .Struct || k = .Array || k = .Slice || k = .Map || k = .Ptr

/-- The graph is closed: what a listed type nests is listed. -/
def TypeGraph.closed (G : TypeGraph) : Prop :=
  ∀ t ∈ G.types, ∀ p ∈ G.nested t, p.2 ∈ G.types

/-- The special-case recognisers report without touching the compilation state. -/
def recognisersKeepState (E : Env) : Prop :=
  (∀ c typ, ∀ r ∈ decoderRecognisers E c typ, ∀ s, (r s).2 = s) ∧
  (∀ c typ, ∀ r ∈ encoderRecognisers E c typ, ∀ s, (r s).2 = s)

/-- The first half of `createDecoderOfType` on a miss: allocate the placeholder with a nil
`decoder` field and register it under `typ` (`ctx.decoders[typ] = placeholder`). -/
def registerDecoderPlaceholder (s : CompileState) (typ : Type2) : CompileState :=
  { s with
    cells := { s.cells with
      decoder := Function.update s.cells.decoder s.cells.decoderNext none,
      decoderNext := s.cells.decoderNext + 1 },
    decoders := Map.Store s.decoders typ (.placeholderDecoder s.cells.decoderNext) }

/-- The last step of `createDecoderOfType` on a miss: `placeholder.decoder = decoder`. -/
def bindDecoderPlaceholder (s : CompileState) (placeholder : Nat) (decoder : ValDecoder) :
    CompileState :=
  { s with cells := { s.cells with
      decoder := Function.update s.cells.decoder placeholder (some decoder) } }

/-- Modelled from the spec: a structural synthesizer resolves the codec of each nested
type, in order, through the pipeline entry `resolve` (that is `decoderOfType`), in the
context `ctx.append(label)`. -/
def resolveDecoders
    (resolve : ctx → Type2 → CompileState → Except Fault (ValDecoder × CompileState))
    (c : ctx) : List (String × Type2) → CompileState →
    Except Fault (List ValDecoder × CompileState)
  | [], s => .ok ([], s)
  | (label, typ) :: rest, s =>
    match resolve (c.append label) typ s with
    | .error f => .error f
    | .ok (decoder, s) =>
      match resolveDecoders resolve c rest s with
      | .error f => .error f
      | .ok (decoders, s) => .ok (decoder :: decoders, s)

/-- Modelled from the spec: `decoderOfStruct`, `decoderOfArray`, `decoderOfSlice`,
`decoderOfMap` and `decoderOfOptional`, missing from the three files: the codec of `typ` is
assembled from the recursively resolved codecs of the types it nests. -/
def synthesizeDecoder (G : TypeGraph)
    (resolve : ctx → Type2 → CompileState → Except Fault (ValDecoder × CompileState))
    (c : ctx) (typ : Type2) (s : CompileState) : Except Fault (ValDecoder × CompileState) :=
  match resolveDecoders resolve c (G.nested typ) s with
  | .error f => .error f
  | .ok (decoders, s) => .ok (G.assembleDecoder typ decoders, s)

/-- Go: `_createDecoderOfType`, with the synthesizers of the recursive kinds modelled by
`synthesizeDecoder`. -/
def _createDecoderOfTypeWith (G : TypeGraph) (E : Env)
    (resolve : ctx → Type2 → CompileState → Except Fault (ValDecoder × CompileState))
    (c : ctx) (typ : Type2) (s : CompileState) : Except Fault (ValDecoder × CompileState) :=
  match firstApplicable (decoderRecognisers E c typ) s with
  | (some decoder, s) => .ok (decoder, s)
  | (none, s) =>
    if recursiveKind typ.kind then synthesizeDecoder G resolve c typ s
    else .ok (decoderOfKind E c typ s)

/-- Go: `createDecoderOfType`, over `_createDecoderOfTypeWith`. -/
def createDecoderOfTypeWith (G : TypeGraph) (E : Env)
    (resolve : ctx → Type2 → CompileState → Except Fault (ValDecoder × CompileState))
    (c : ctx) (typ : Type2) (s : CompileState) : Except Fault (ValDecoder × CompileState) :=
  match Map.Load s.decoders typ with
  | some decoder => .ok (decoder, s)
  | none =>
    let placeholder := s.cells.decoderNext
    match _createDecoderOfTypeWith G E resolve c typ (registerDecoderPlaceholder s typ) with
    | .error f => .error f
    | .ok (decoder, s) => .ok (decoder, bindDecoderPlaceholder s placeholder decoder)

/-- Go: `decoderOfType`, over `createDecoderOfTypeWith`. -/
def decoderOfTypeWith (G : TypeGraph) (E : Env)
    (resolve : ctx → Type2 → CompileState → Except Fault (ValDecoder × CompileState))
    (c : ctx) (typ : Type2) (s : CompileState) : Except Fault (ValDecoder × CompileState) :=
  match E.getTypeDecoderFromExtension c typ with
  | some decoder => .ok (decoder, s)
  | none =>
    match createDecoderOfTypeWith G E resolve c typ s with
    | .error f => .error f
    | .ok (decoder, s) => .ok (decorateDecoderInOrder E typ (decoderChain E c) decoder, s)

/-- The pipeline with its recursion tied: `decoderOfType` whose synthesizers resolve nested
types by calling `decoderOfType` again. `fuel` bounds the nesting depth of those calls; a
compilation that would nest deeper ends in `outOfFuel`. -/
def decoderOfTypeFuel (G : TypeGraph) (E : Env) :
    Nat → ctx → Type2 → CompileState → Except Fault (ValDecoder × CompileState)
  | 0 => fun _ _ _ => .error .outOfFuel
  | fuel + 1 => decoderOfTypeWith G E (decoderOfTypeFuel G E fuel)

/-- The types of the graph that have no decoder registered in the context yet. -/
def unregisteredDecoders (G : TypeGraph) (s : CompileState) : Nat :=
  (G.types.filter (fun t => (Map.Load s.decoders t).isNone)).length

/-- What a decoder compilation does to the context, from the state `s` it starts in to the
state `s₁` it ends in: registrations are only added, every type stays registered at most
once and inside the graph, placeholders that existed are left as they were, every
placeholder created is bound, the encoder side is untouched, and as many placeholders were
created as registrations were added (one per run of structural synthesis). -/
def DecoderStep (G : TypeGraph) (s s₁ : CompileState) : Prop :=
  s.decoders <:+ s₁.decoders ∧
  ((s.decoders.map Prod.fst).Nodup → (s₁.decoders.map Prod.fst).Nodup) ∧
  ((∀ t ∈ s.decoders.map Prod.fst, t ∈ G.types) →
    ∀ t ∈ s₁.decoders.map Prod.fst, t ∈ G.types) ∧
  s.cells.decoderNext ≤ s₁.cells.decoderNext ∧
  (∀ a, a < s.cells.decoderNext → s₁.cells.decoder a = s.cells.decoder a) ∧
  (∀ a, s.cells.decoderNext ≤ a → a < s₁.cells.decoderNext → s₁.cells.decoder a ≠ none) ∧
  s₁.encoders = s.encoders ∧ s₁.cells.encoder = s.cells.encoder ∧
  s₁.cells.encoderNext = s.cells.encoderNext ∧
  s₁.decoders.length + s.cells.decoderNext = s.decoders.length + s₁.cells.decoderNext

/-- The first half of `createEncoderOfType` on a miss: allocate the placeholder with a nil
`encoder` field and register it under `typ` (`ctx.encoders[typ] = placeholder`). -/
def registerEncoderPlaceholder (s : CompileState) (typ : Type2) : CompileState :=
  { s with
    cells := { s.cells with
      encoder := Function.update s.cells.encoder s.cells.encoderNext none,
      encoderNext := s.cells.encoderNext + 1 },
    encoders := Map.Store s.encoders typ (.placeholderEncoder s.cells.encoderNext) }

/-- The last step of `createEncoderOfType` on a miss: `placeholder.encoder = encoder`. -/
def bindEncoderPlaceholder (s : CompileState) (placeholder : Nat) (encoder : ValEncoder) :
    CompileState :=
  { s with cells := { s.cells with
      encoder := Function.update s.cells.encoder placeholder (some encoder) } }

/-- Modelled from the spec: the encoder synthesizers resolve the codecs of the nested
types as the decoder ones do, through `encoderOfType`. -/
def resolveEncoders
    (resolve : ctx → Type2 → CompileState → Except Fault (ValEncoder × CompileState))
    (c : ctx) : List (String × Type2) → CompileState →
    Except Fault (List ValEncoder × CompileState)
  | [], s => .ok ([], s)
  | (label, typ) :: rest, s =>
    match resolve (c.append label) typ s with
    | .error f => .error f
    | .ok (encoder, s) =>
      match resolveEncoders resolve c rest s with
      | .error f => .error f
      | .ok (encoders, s) => .ok (encoder :: encoders, s)

/-- Modelled from the spec: `encoderOfStruct`, `encoderOfArray`, `encoderOfSlice`,
`encoderOfMap` and `encoderOfOptional`, missing from the three files: the codec of `typ` is
assembled from the recursively resolved codecs of the types it nests. -/
def synthesizeEncoder (G : TypeGraph)
    (resolve : ctx → Type2 → CompileState → Except Fault (ValEncoder × CompileState))
    (c : ctx) (typ : Type2) (s : CompileState) : Except Fault (ValEncoder × CompileState) :=
  match resolveEncoders resolve c (G.nested typ) s with
  | .error f => .error f
  | .ok (encoders, s) => .ok (G.assembleEncoder typ encoders, s)

/-- Go: `_createEncoderOfType`, with the synthesizers of the recursive kinds modelled by
`synthesizeEncoder`. -/
def _createEncoderOfTypeWith (G : TypeGraph) (E : Env)
    (resolve : ctx → Type2 → CompileState → Except Fault (ValEncoder × CompileState))
    (c : ctx) (typ : Type2) (s : CompileState) : Except Fault (ValEncoder × CompileState) :=
  match firstApplicable (encoderRecognisers E c typ) s with
  | (some encoder, s) => .ok (encoder, s)
  | (none, s) =>
    if recursiveKind typ.kind then synthesizeEncoder G resolve c typ s
    else .ok (encoderOfKind E c typ s)

/-- Go: `createEncoderOfType`, over `_createEncoderOfTypeWith`. -/
def createEncoderOfTypeWith (G : TypeGraph) (E : Env)
    (resolve : ctx → Type2 → CompileState → Except Fault (ValEncoder × CompileState))
    (c : ctx) (typ : Type2) (s : CompileState) : Except Fault (ValEncoder × CompileState) :=
  match Map.Load s.encoders typ with
  | some encoder => .ok (encoder, s)
  | none =>
    let placeholder := s.cells.encoderNext
    match _createEncoderOfTypeWith G E resolve c typ (registerEncoderPlaceholder s typ) with
    | .error f => .error f
    | .ok (encoder, s) => .ok (encoder, bindEncoderPlaceholder s placeholder encoder)

/-- Go: `encoderOfType`, over `createEncoderOfTypeWith`. -/
def encoderOfTypeWith (G : TypeGraph) (E : Env)
    (resolve : ctx → Type2 → CompileState → Except Fault (ValEncoder × CompileState))
    (c : ctx) (typ : Type2) (s : CompileState) : Except Fault (ValEncoder × CompileState) :=
  match E.getTypeEncoderFromExtension c typ with
  | some encoder => .ok (encoder, s)
  | none =>
    match createEncoderOfTypeWith G E resolve c typ s with
    | .error f => .error f
    | .ok (encoder, s) => .ok (decorateEncoderInOrder E typ (encoderChain E c) encoder, s)

/-- The pipeline with its recursion tied: `encoderOfType` whose synthesizers resolve nested
types by calling `encoderOfType` again. `fuel` bounds the nesting depth of those calls; a
compilation that would nest deeper ends in `outOfFuel`. -/
def encoderOfTypeFuel (G : TypeGraph) (E : Env) :
    Nat → ctx → Type2 → CompileState → Except Fault (ValEncoder × CompileState)
  | 0 => fun _ _ _ => .error .outOfFuel
  | fuel + 1 => encoderOfTypeWith G E (encoderOfTypeFuel G E fuel)

/-- The types of the graph that have no encoder registered in the context yet. -/
def unregisteredEncoders (G : TypeGraph) (s : CompileState) : Nat :=
  (G.types.filter (fun t => (Map.Load s.encoders t).isNone)).length

/-- What an encoder compilation does to the context, from the state `s` it starts in to the
state `s₁` it ends in: registrations are only added, every type stays registered at most
once and inside the graph, placeholders that existed are left as they were, every
placeholder created is bound, the decoder side is untouched, and as many placeholders were
created as registrations were added. -/
def EncoderStep (G : TypeGraph) (s s₁ : CompileState) : Prop :=
  s.encoders <:+ s₁.encoders ∧
  ((s.encoders.map Prod.fst).Nodup → (s₁.encoders.map Prod.fst).Nodup) ∧
  ((∀ t ∈ s.encoders.map Prod.fst, t ∈ G.types) →
    ∀ t ∈ s₁.encoders.map Prod.fst, t ∈ G.types) ∧
  s.cells.encoderNext ≤ s₁.cells.encoderNext ∧
  (∀ a, a < s.cells.encoderNext → s₁.cells.encoder a = s.cells.encoder a) ∧
  (∀ a, s.cells.encoderNext ≤ a → a < s₁.cells.encoderNext → s₁.cells.encoder a ≠ none) ∧
  s₁.decoders = s.decoders ∧ s₁.cells.decoder = s.cells.decoder ∧
  s₁.cells.decoderNext = s.cells.decoderNext ∧
  s₁.encoders.length + s.cells.encoderNext = s.encoders.length + s₁.cells.encoderNext

/-- The result of a nested compilation, or `fallback` in the state as it was when the
nesting budget did not suffice. -/
def withinBudget {α : Type} (r : Except Fault (α × CompileState)) (fallback : α)
    (s : CompileState) : α × CompileState :=
  match r with
  | .ok x => x
  | .error _ => (fallback, s)

/-- The environment `E` with its ten structural synthesizers replaced by the modelled ones,
which resolve nested types through the pipeline with nesting budget `fuel`. The embedded
`DecoderOf`, `decoderOfType`, `EncoderOf`, `encoderOfType` run in it unchanged. -/
def compiledEnv (G : TypeGraph) (E : Env) (fuel : Nat) : Env :=
  let decoderOf := fun c typ s =>
    withinBudget (synthesizeDecoder G (decoderOfTypeFuel G E fuel) c typ s) .efaceDecoder s
  let encoderOf := fun c typ s =>
    withinBudget (synthesizeEncoder G (encoderOfTypeFuel G E fuel) c typ s)
      (.dynamicEncoder typ) s
  { E with
    decoderOfStruct := decoderOf
    decoderOfArray := decoderOf
    decoderOfSlice := decoderOf
    decoderOfMap := decoderOf
    decoderOfOptional := decoderOf
    encoderOfStruct := encoderOf
    encoderOfArray := encoderOf
    encoderOfSlice := encoderOf
    encoderOfMap := encoderOf
    encoderOfOptional := encoderOf }

/-- Every placeholder object allocated so far has its forwarding target set. -/
def allPlaceholdersBound (cells : Placeholders) : Prop :=
  (∀ a, a < cells.decoderNext → cells.decoder a ≠ none) ∧
  (∀ a, a < cells.encoderNext → cells.encoder a ≠ none)

/-! ## Sample inputs -/

namespace Sample

/-- The descriptor of `complex128`. -/
def complex128Type : Type2 := ⟨1, "complex128", .Complex128, false, false, false⟩

/-- The descriptor of `*complex128`. -/
def ptrComplex128Type : Type2 := ⟨2, "*complex128", .Ptr, true, false, true⟩

/-- The descriptor of `chan int`: reflect2 wraps channel types, whose values are one
pointer word, in `UnsafePtrType`, and `LikePtr()` is true for them. -/
def chanIntType : Type2 := ⟨3, "chan int", .Chan, true, false, true⟩

/-- The descriptor of `int`. -/
def intType : Type2 := ⟨4, "int", .Int, false, false, false⟩

/-- The descriptor of `*chan int`. -/
def ptrChanIntType : Type2 := ⟨5, "*chan int", .Ptr, true, false, true⟩

/-- The descriptor of `func()`: reflect2 wraps func types in `UnsafePtrType` as it does
pointer and channel types. -/
def funcType : Type2 := ⟨6, "func()", .Func, true, false, true⟩

/-- Whether a byte is JSON whitespace. -/
def isSpace (b : Nat) : Bool := b = 32 || b = 10 || b = 9 || b = 13

/-- A scanner step: skip whitespace, hand out the next byte, 0 with `io.EOF` at the end. -/
def nextToken (iter : Iterator) : Nat × Iterator :=
  match (iter.buf.drop iter.head).dropWhile isSpace with
  | [] => (0, { iter with head := iter.buf.length,
                          Error := match iter.Error with
                            | some e => some e
                            | none => some GoError.EOF })
  | b :: rest => (b, { iter with head := iter.buf.length - rest.length })

/-- An environment with no extension and no special-case type: the native recogniser takes
the primitive kinds, structural synthesis returns codecs `other 10` to `other 14`. -/
def env : Env where
  extensions := []
  DecorateDecoder := fun _ _ decoder => decoder
  DecorateEncoder := fun _ _ encoder => encoder
  getTypeDecoderFromExtension := fun _ _ => none
  getTypeEncoderFromExtension := fun _ _ => none
  createDecoderOfJsonRawMessage := fun _ _ s => (none, s)
  createDecoderOfJsonNumber := fun _ _ s => (none, s)
  createDecoderOfMarshaler := fun _ _ s => (none, s)
  createDecoderOfAny := fun _ _ s => (none, s)
  createDecoderOfNative := fun _ typ s =>
    (if typ.kind = .Int || typ.kind = .String || typ.kind = .Bool || typ.kind = .Float64
      then some (.other typ.rtype) else none, s)
  decoderOfStruct := fun _ _ s => (.other 10, s)
  decoderOfArray := fun _ _ s => (.other 11, s)
  decoderOfSlice := fun _ _ s => (.other 12, s)
  decoderOfMap := fun _ _ s => (.other 13, s)
  decoderOfOptional := fun _ _ s => (.other 14, s)
  createEncoderOfJsonRawMessage := fun _ _ s => (none, s)
  createEncoderOfJsonNumber := fun _ _ s => (none, s)
  createEncoderOfMarshaler := fun _ _ s => (none, s)
  createEncoderOfAny := fun _ _ s => (none, s)
  createEncoderOfNative := fun _ typ s =>
    (if typ.kind = .Int || typ.kind = .String || typ.kind = .Bool || typ.kind = .Float64
      then some (.other typ.rtype) else none, s)
  encoderOfStruct := fun _ _ s => (.other 10, s)
  encoderOfArray := fun _ _ s => (.other 11, s)
  encoderOfSlice := fun _ _ s => (.other 12, s)
  encoderOfMap := fun _ _ s => (.other 13, s)
  encoderOfOptional := fun _ _ s => (.other 14, s)
  Elem := fun typ =>
    if typ = ptrComplex128Type then complex128Type
    else if typ = ptrChanIntType then chanIntType
    else intType
  float32Type := ⟨20, "float32", .Float32, false, false, false⟩
  float64Type := ⟨21, "float64", .Float64, false, false, false⟩
  stringType := ⟨22, "string", .String, false, false, false⟩
  jsonRawMessageType := ⟨23, "json.RawMessage", .Slice, false, false, false⟩
  rawMessageType := ⟨24, "jsoniter.RawMessage", .Slice, false, false, false⟩
  emptyInterfaceType := ⟨25, "interface {}", .Interface, false, false, false⟩
  BorrowIterator := fun cfg data => ⟨cfg, data, 0, data.length, none⟩
  nextToken := nextToken
  WhatIsNext := fun iter =>
    (if (nextToken iter).1 = 110 then ValueType.NilValue else ValueType.InvalidValue, iter)
  Skip := fun iter => { iter with head := iter.head + 4 }
  BorrowStream := fun cfg => ⟨cfg, "", none⟩
  decodeOther := fun _ _ iter mem => ({ iter with head := iter.buf.length }, mem)
  encodeOther := fun encoder _ stream =>
    match encoder with
    | .other 7 => stream.WriteRaw "\"constant\""
    | _ => stream.WriteRaw "0"
  isEmptyOther := fun _ _ => false

/-- The all-zero `Config`. -/
def zeroConfig : Config := ⟨0, false, false, false, false, false, "", false, false, false, false⟩

/-- The state of a process that has frozen nothing yet. -/
def emptyWorld : World where
  heap := fun _ => ⟨zeroConfig, false, 0, false, false, false, [], [],
    .EncoderExtension [], .DecoderExtension [], [], false⟩
  heapNext := 0
  cfgCache := []
  cells := ⟨fun _ => none, 0, fun _ => none, 0⟩

/-- An extension whose `DecorateEncoder` answers the constant encoder `other 7` for `int`
and leaves every other codec alone. -/
def constantExtension : Extension := .other 1

/-- The sample environment with the behaviour of `constantExtension` added. -/
def envWithConstant : Env :=
  { env with
    DecorateEncoder := fun extension typ encoder =>
      if extension = constantExtension ∧ typ = intType then .other 7 else encoder }

/-- The sample state after one `Froze()` of the all-zero `Config`. -/
def frozenOnce : Nat × World := zeroConfig.Froze env emptyWorld

/-- The sample state after a second, independent `Froze()` of the same `Config`. -/
def frozenTwice : Nat × World := zeroConfig.Froze env frozenOnce.2

/-- The unsupported-type error that the sample configuration reports for `chan int`. -/
def chanIntError : GoError := .errorf "chan int is unsupported type"

/-- The unsupported-type error that the sample configuration reports for `complex128`. -/
def complex128Error : GoError := .errorf "complex128 is unsupported type"

/-- A fresh stream: nothing written, no error. -/
def freshStream : Stream := ⟨0, "", none⟩

/-- A stream on which an earlier encode has already failed with `io.EOF`. -/
def failedStream : Stream := ⟨0, "", some .EOF⟩

/-- The sample state after `int` has been encoded once on the first frozen configuration
(its encoder is compiled and cached). -/
def intEncoded : World :=
  (frozenConfig.EncoderOf envWithConstant frozenOnce.2 frozenOnce.1 intType).2

/-- The sample state after `RegisterExtension(constantExtension)` on that configuration. -/
def registeredAfterEncode : World :=
  frozenConfig.RegisterExtension intEncoded frozenOnce.1 constantExtension

/-- An `int` value held in an interface, stored at address 1. -/
def intValue : EFace := ⟨intType, .addr 1⟩

/-- The sample state after `frozeWithCacheReuse` of the all-zero `Config` with no extra
extension. -/
def reusedPlain : Nat × World := zeroConfig.frozeWithCacheReuse env [] emptyWorld

/-- The result of a following `frozeWithCacheReuse` of the same `Config` with the extension
list `[constantExtension]`. -/
def reusedWithExtension : Nat × World :=
  zeroConfig.frozeWithCacheReuse env [constantExtension] reusedPlain.2

/-- An iterator of the first frozen sample configuration over the input `1`. -/
def iterOne : Iterator := ⟨0, [49], 0, 1, none⟩

/-- A pointer to a `complex128` stored at address 1, held in an interface. -/
def ptrComplex128Value : EFace := ⟨ptrComplex128Type, .addr 1⟩

/-- The sample state after the decoder of `*complex128` has been compiled and cached on the
first frozen configuration. -/
def complexDecoded : World :=
  match frozenConfig.DecoderOf env frozenOnce.2 frozenOnce.1 ptrComplex128Type with
  | .ok r => r.2
  | .error _ => frozenOnce.2

/-- An encoder writing to a fresh stream of the first frozen sample configuration. -/
def sampleEncoder : Encoder := ⟨freshStream⟩

/-- The sample scanner with a `Skip` that consumes one `null` after optional whitespace and
records an error on anything else. -/
def envSkipNull : Env :=
  { env with
    Skip := fun iter =>
      match (iter.buf.drop iter.head).dropWhile isSpace with
      | 110 :: 117 :: 108 :: 108 :: rest => { iter with head := iter.buf.length - rest.length }
      | _ => { iter with Error := some (.reported "Skip" "do not know how to skip") } }

/-- The bytes of `null x`: one JSON value followed by a stray token. -/
def nullThenGarbage : List Nat := [110, 117, 108, 108, 32, 120]

/-- The sample scanner with a look-ahead made of `nextToken` and `unreadByte`: when
`nextToken` has recorded an error (`io.EOF` at the end of the input) the iterator keeps it,
otherwise the byte is put back. -/
def envPeek : Env :=
  { env with
    WhatIsNext := fun iter =>
      let r := nextToken iter
      (if r.1 = 110 then ValueType.NilValue else ValueType.InvalidValue,
        match r.2.Error with
        | some _ => r.2
        | none => iter) }

/-- An iterator of the first frozen sample configuration over the empty input. -/
def iterEmpty : Iterator := ⟨0, [], 0, 0, none⟩

/-- The bytes of `null`, a NUL byte, and `x`: one JSON value followed by two more bytes. -/
def nullNulGarbage : List Nat := [110, 117, 108, 108, 0, 120]

/-- The descriptor of `Node`, declared as `type Node struct { Next *Node }`. -/
def nodeType : Type2 := ⟨30, "Node", .Struct, false, false, false⟩

/-- The descriptor of `*Node`. -/
def ptrNodeType : Type2 := ⟨31, "*Node", .Ptr, true, false, true⟩

/-- The type graph of `Node`: the struct nests its field `Next` of type `*Node`, the pointer
nests `Node`. Assembled codecs are named after the type they are for. -/
def nodeGraph : TypeGraph where
  types := [nodeType, ptrNodeType]
  nested := fun typ =>
    if typ = nodeType then [("Next", ptrNodeType)]
    else if typ = ptrNodeType then [("", nodeType)]
    else []
  assembleDecoder := fun typ _ => .other (100 + typ.rtype)
  assembleEncoder := fun typ _ => .other (100 + typ.rtype)

/-- The sample environment in which `Elem` of `*Node` is `Node`. -/
def nodeEnv : Env :=
  { env with Elem := fun typ => if typ = ptrNodeType then nodeType else env.Elem typ }

end Sample

/-! ## Lemmas on the maps, the registry and the caches -/

theorem Map.Load_Store {κ ν : Type} [DecidableEq κ] (m : List (κ × ν)) (key : κ) (value : ν) :
    Map.Load (Map.Store m key value) key = some value := by
  simp [Map.Load, Map.Store, List.lookup]

theorem registerAll_cfgCache (api : Nat) (xs : List Extension) (w : World) :
    (xs.foldl (fun w extension => frozenConfig.RegisterExtension w api extension) w).cfgCache
      = w.cfgCache := by
  induction xs generalizing w with
  | nil => rfl
  | cons x xs ih => simp only [List.foldl_cons]; rw [ih]; rfl

theorem frozeWithCacheReuse_hit (E : Env) (c : Config) (xs : List Extension) (w : World)
    (api : Nat) (h : getFrozenConfigFromCache w c = some api) :
    c.frozeWithCacheReuse E xs w = (api, w) := by
  simp [Config.frozeWithCacheReuse, h]

theorem frozeWithCacheReuse_registered (E : Env) (c : Config) (xs : List Extension)
    (w : World) :
    getFrozenConfigFromCache (c.frozeWithCacheReuse E xs w).2 c
      = some (c.frozeWithCacheReuse E xs w).1 := by
  unfold Config.frozeWithCacheReuse
  cases h : getFrozenConfigFromCache w c with
  | some api => simpa using h
  | none => simp [getFrozenConfigFromCache, addFrozenConfigToCache, Map.Load_Store]

theorem DecoderOf_hit (E : Env) (w : World) (cfg : Nat) (T : Type2) (d : ValDecoder)
    (h : frozenConfig.getDecoderFromCache w cfg T.rtype = some d) :
    frozenConfig.DecoderOf E w cfg T = .ok (d, w) := by
  simp [frozenConfig.DecoderOf, h]

theorem getDecoderFromCache_add (w : World) (cfg key : Nat) (d : ValDecoder) :
    frozenConfig.getDecoderFromCache (frozenConfig.addDecoderToCache w cfg key d) cfg key
      = some d := by
  simp [frozenConfig.getDecoderFromCache, frozenConfig.addDecoderToCache, Map.Load_Store]

theorem getEncoderFromCache_add (w : World) (cfg key : Nat) (e : ValEncoder) :
    frozenConfig.getEncoderFromCache (frozenConfig.addEncoderToCache w cfg key e) cfg key
      = some e := by
  simp [frozenConfig.getEncoderFromCache, frozenConfig.addEncoderToCache, Map.Load_Store]

theorem DecoderOf_miss (E : Env) (w : World) (cfg : Nat) (T : Type2)
    (h : frozenConfig.getDecoderFromCache w cfg T.rtype = none)
    (hT : T.isUnsafePtrType = true) (hel : hasElem T.kind = true) :
    frozenConfig.DecoderOf E w cfg T =
      .ok ((decoderOfType E (rootCtx w cfg) (E.Elem T) (rootState w)).1,
        frozenConfig.addDecoderToCache
          { w with cells := (decoderOfType E (rootCtx w cfg) (E.Elem T) (rootState w)).2.cells }
          cfg T.rtype (decoderOfType E (rootCtx w cfg) (E.Elem T) (rootState w)).1) := by
  simp [frozenConfig.DecoderOf, h, hT, hel, rootCtx, rootState]

theorem EncoderOf_miss (E : Env) (w : World) (cfg : Nat) (T : Type2)
    (h : frozenConfig.getEncoderFromCache w cfg T.rtype = none) :
    frozenConfig.EncoderOf E w cfg T =
      ((if T.likePtr then
          ValEncoder.onePtrEncoder (encoderOfType E (rootCtx w cfg) T (rootState w)).1
        else (encoderOfType E (rootCtx w cfg) T (rootState w)).1),
        frozenConfig.addEncoderToCache
          { w with cells := (encoderOfType E (rootCtx w cfg) T (rootState w)).2.cells }
          cfg T.rtype
          (if T.likePtr then
            ValEncoder.onePtrEncoder (encoderOfType E (rootCtx w cfg) T (rootState w)).1
          else (encoderOfType E (rootCtx w cfg) T (rootState w)).1)) := by
  simp [frozenConfig.EncoderOf, h, rootCtx, rootState]

theorem DecoderOf_total (E : Env) (w : World) (cfg : Nat) (T : Type2)
    (hT : T.isUnsafePtrType = true) (hel : hasElem T.kind = true) :
    ∃ d w', frozenConfig.DecoderOf E w cfg T = .ok (d, w') ∧ w'.cfgCache = w.cfgCache ∧
      frozenConfig.getDecoderFromCache w' cfg T.rtype = some d := by
  cases h : frozenConfig.getDecoderFromCache w cfg T.rtype with
  | some d => exact ⟨d, w, DecoderOf_hit E w cfg T d h, rfl, h⟩
  | none =>
    exact ⟨_, _, DecoderOf_miss E w cfg T h hT hel, rfl, getDecoderFromCache_add _ _ _ _⟩

theorem EncoderOf_hit (E : Env) (w : World) (cfg : Nat) (T : Type2) (e : ValEncoder)
    (h : frozenConfig.getEncoderFromCache w cfg T.rtype = some e) :
    frozenConfig.EncoderOf E w cfg T = (e, w) := by
  simp [frozenConfig.EncoderOf, h]

theorem EncoderOf_cached (E : Env) (w : World) (cfg : Nat) (T : Type2) :
    (frozenConfig.EncoderOf E w cfg T).2.cfgCache = w.cfgCache ∧
    frozenConfig.getEncoderFromCache (frozenConfig.EncoderOf E w cfg T).2 cfg T.rtype
      = some (frozenConfig.EncoderOf E w cfg T).1 := by
  cases h : frozenConfig.getEncoderFromCache w cfg T.rtype with
  | some e => rw [EncoderOf_hit E w cfg T e h]; exact ⟨rfl, h⟩
  | none =>
    rw [EncoderOf_miss E w cfg T h]
    exact ⟨rfl, getEncoderFromCache_add _ _ _ _⟩

/-! ## C1: configuration reuse -/

/-- C1, as stated, fails: two `Froze()` calls on the all-zero `Config` return two objects
with separate caches; the decoder of `*complex128` compiled and cached through the first is
found by the first's cache lookup and is absent from the second's. -/
theorem C1_Froze_twice_separate_caches :
    ∃ d w, frozenConfig.DecoderOf Sample.env Sample.frozenTwice.2 Sample.frozenOnce.1
        Sample.ptrComplex128Type = .ok (d, w) ∧
      frozenConfig.getDecoderFromCache w Sample.frozenOnce.1 Sample.ptrComplex128Type.rtype
        = some d ∧
      frozenConfig.getDecoderFromCache w Sample.frozenTwice.1 Sample.ptrComplex128Type.rtype
        = none := by
  refine ⟨_, _, rfl, ?_, ?_⟩
  · decide
  · decide

/-- C1 (amended): `Froze()` builds a new object with its own empty caches on every call and
leaves the registry alone, so two freezes never share a cache. The sharing goes through
`frozeWithCacheReuse`: called twice with equal `Config` records and the same extension list
it returns the same frozen instance, so a decoder or an encoder compiled and cached through
the first result is found by the cache lookup through the second. -/
theorem C1_reuse_through_registry (E : Env) (c₁ c₂ : Config) (xs : List Extension)
    (w : World) (T : Type2) (hc : c₁ = c₂) :
    ((c₂.Froze E (c₁.Froze E w).2).1 ≠ (c₁.Froze E w).1 ∧
      (c₁.Froze E w).2.cfgCache = w.cfgCache ∧
      ((c₁.Froze E w).2.heap (c₁.Froze E w).1).decoderCache = [] ∧
      ((c₁.Froze E w).2.heap (c₁.Froze E w).1).encoderCache = []) ∧
    (T.isUnsafePtrType = true → hasElem T.kind = true → ∃ d w₁,
      frozenConfig.DecoderOf E (c₁.frozeWithCacheReuse E xs w).2
        (c₁.frozeWithCacheReuse E xs w).1 T = .ok (d, w₁) ∧
      c₂.frozeWithCacheReuse E xs w₁ = ((c₁.frozeWithCacheReuse E xs w).1, w₁) ∧
      frozenConfig.getDecoderFromCache w₁ (c₂.frozeWithCacheReuse E xs w₁).1 T.rtype
        = some d) ∧
    (∃ e w₁,
      frozenConfig.EncoderOf E (c₁.frozeWithCacheReuse E xs w).2
        (c₁.frozeWithCacheReuse E xs w).1 T = (e, w₁) ∧
      c₂.frozeWithCacheReuse E xs w₁ = ((c₁.frozeWithCacheReuse E xs w).1, w₁) ∧
      frozenConfig.getEncoderFromCache w₁ (c₂.frozeWithCacheReuse E xs w₁).1 T.rtype
        = some e) := by
  subst hc
  refine ⟨⟨?_, rfl, ?_, ?_⟩, fun hT hel => ?_, ?_⟩
  · simp [Config.Froze]
  · simp [Config.Froze, frozenConfig.initCache]
  · simp [Config.Froze, frozenConfig.initCache]
  · obtain ⟨d, w₁, hd, hreg, hget⟩ :=
      DecoderOf_total E (c₁.frozeWithCacheReuse E xs w).2 (c₁.frozeWithCacheReuse E xs w).1 T hT
        hel
    have hhit : c₁.frozeWithCacheReuse E xs w₁ = ((c₁.frozeWithCacheReuse E xs w).1, w₁) := by
      apply frozeWithCacheReuse_hit
      have := frozeWithCacheReuse_registered E c₁ xs w
      simpa [getFrozenConfigFromCache, hreg] using this
    exact ⟨d, w₁, hd, hhit, by rw [hhit]; exact hget⟩
  · have hc := EncoderOf_cached E (c₁.frozeWithCacheReuse E xs w).2
      (c₁.frozeWithCacheReuse E xs w).1 T
    generalize frozenConfig.EncoderOf E (c₁.frozeWithCacheReuse E xs w).2
      (c₁.frozeWithCacheReuse E xs w).1 T = r at hc
    obtain ⟨e, w₁⟩ := r
    obtain ⟨hreg, hget⟩ := hc
    have hreg : w₁.cfgCache = (c₁.frozeWithCacheReuse E xs w).2.cfgCache := hreg
    have hhit : c₁.frozeWithCacheReuse E xs w₁ = ((c₁.frozeWithCacheReuse E xs w).1, w₁) := by
      apply frozeWithCacheReuse_hit
      have := frozeWithCacheReuse_registered E c₁ xs w
      simpa [getFrozenConfigFromCache, hreg] using this
    exact ⟨e, w₁, rfl, hhit, by rw [hhit]; exact hget⟩

/-- C1 (amended), at the all-zero `Config`, no extra extension, the empty process state and
`*complex128`. -/
theorem C1_reuse_through_registry_witness :
    Sample.zeroConfig = Sample.zeroConfig ∧ Sample.ptrComplex128Type.isUnsafePtrType = true ∧
    hasElem Sample.ptrComplex128Type.kind = true ∧
    ∃ d w₁,
      frozenConfig.DecoderOf Sample.env
        (Sample.zeroConfig.frozeWithCacheReuse Sample.env [] Sample.emptyWorld).2
        (Sample.zeroConfig.frozeWithCacheReuse Sample.env [] Sample.emptyWorld).1
        Sample.ptrComplex128Type = .ok (d, w₁) ∧
      Sample.zeroConfig.frozeWithCacheReuse Sample.env [] w₁
        = ((Sample.zeroConfig.frozeWithCacheReuse Sample.env [] Sample.emptyWorld).1, w₁) ∧
      frozenConfig.getDecoderFromCache w₁
        (Sample.zeroConfig.frozeWithCacheReuse Sample.env [] w₁).1
        Sample.ptrComplex128Type.rtype = some d :=
  ⟨rfl, rfl, rfl, (C1_reuse_through_registry Sample.env Sample.zeroConfig Sample.zeroConfig []
    Sample.emptyWorld Sample.ptrComplex128Type rfl).2.1 rfl rfl⟩

/-! ## C2: idempotent compilation -/

/-- C2: on every frozen configuration and for every pointer-type descriptor `T` (a
`*reflect2.UnsafePtrType` on which `Elem()` is defined), `DecoderOf(T)` returns a decoder, leaves it in the decoder cache under `T.RType()`, and a
second `DecoderOf(T)` returns that same decoder and changes nothing (no compilation: no
placeholder is allocated, no cache entry written); the same holds for `EncoderOf(T)` and
the encoder cache, for every `T`. -/
theorem C2_second_call_returns_cached (E : Env) (w : World) (cfg : Nat) (T : Type2) :
    (T.isUnsafePtrType = true → hasElem T.kind = true →
      ∃ d w₁, frozenConfig.DecoderOf E w cfg T = .ok (d, w₁) ∧
      frozenConfig.getDecoderFromCache w₁ cfg T.rtype = some d ∧
      frozenConfig.DecoderOf E w₁ cfg T = .ok (d, w₁)) ∧
    (∃ e w₁, frozenConfig.EncoderOf E w cfg T = (e, w₁) ∧
      frozenConfig.getEncoderFromCache w₁ cfg T.rtype = some e ∧
      frozenConfig.EncoderOf E w₁ cfg T = (e, w₁)) := by
  constructor
  · intro hT hel
    obtain ⟨d, w₁, hd, _, hget⟩ := DecoderOf_total E w cfg T hT hel
    exact ⟨d, w₁, hd, hget, DecoderOf_hit E w₁ cfg T d hget⟩
  · have hget := (EncoderOf_cached E w cfg T).2
    generalize frozenConfig.EncoderOf E w cfg T = r at hget
    obtain ⟨e, w₁⟩ := r
    exact ⟨e, w₁, rfl, hget, EncoderOf_hit E w₁ cfg T e hget⟩

/-- C2 at the first frozen sample configuration and `*complex128`. -/
theorem C2_second_call_returns_cached_witness :
    Sample.ptrComplex128Type.isUnsafePtrType = true ∧
    hasElem Sample.ptrComplex128Type.kind = true ∧
    ∃ d w₁, frozenConfig.DecoderOf Sample.env Sample.frozenOnce.2 Sample.frozenOnce.1
        Sample.ptrComplex128Type = .ok (d, w₁) ∧
      frozenConfig.getDecoderFromCache w₁ Sample.frozenOnce.1 Sample.ptrComplex128Type.rtype
        = some d ∧
      frozenConfig.DecoderOf Sample.env w₁ Sample.frozenOnce.1 Sample.ptrComplex128Type
        = .ok (d, w₁) :=
  ⟨rfl, rfl, (C2_second_call_returns_cached Sample.env Sample.frozenOnce.2
    Sample.frozenOnce.1 Sample.ptrComplex128Type).1 rfl rfl⟩

/-! ## C3: the decoration chain -/

theorem foldl_DecorateDecoder (E : Env) (typ : Type2) (chain : List Extension)
    (d : ValDecoder) :
    chain.foldl (fun decoder extension => E.DecorateDecoder extension typ decoder) d
      = decorateDecoderInOrder E typ chain d := by
  induction chain generalizing d with
  | nil => rfl
  | cons x xs ih => simp only [List.foldl_cons, decorateDecoderInOrder]; exact ih _

theorem foldl_DecorateEncoder (E : Env) (typ : Type2) (chain : List Extension)
    (e : ValEncoder) :
    chain.foldl (fun encoder extension => E.DecorateEncoder extension typ encoder) e
      = decorateEncoderInOrder E typ chain e := by
  induction chain generalizing e with
  | nil => rfl
  | cons x xs ih => simp only [List.foldl_cons, decorateEncoderInOrder]; exact ih _

theorem decorateDecoderInOrder_append (E : Env) (typ : Type2) (xs ys : List Extension)
    (d : ValDecoder) :
    decorateDecoderInOrder E typ (xs ++ ys) d
      = decorateDecoderInOrder E typ ys (decorateDecoderInOrder E typ xs d) := by
  induction xs generalizing d with
  | nil => rfl
  | cons x xs ih => simp only [List.cons_append, decorateDecoderInOrder]; exact ih _

theorem decorateEncoderInOrder_append (E : Env) (typ : Type2) (xs ys : List Extension)
    (e : ValEncoder) :
    decorateEncoderInOrder E typ (xs ++ ys) e
      = decorateEncoderInOrder E typ ys (decorateEncoderInOrder E typ xs e) := by
  induction xs generalizing e with
  | nil => rfl
  | cons x xs ih => simp only [List.cons_append, decorateEncoderInOrder]; exact ih _

theorem decoderOfType_eq_chain (E : Env) (c : ctx) (T : Type2) (s : CompileState)
    (hd : E.getTypeDecoderFromExtension c T = none) :
    decoderOfType E c T s =
      (decorateDecoderInOrder E T (decoderChain E c) (createDecoderOfType E c T s).1,
        (createDecoderOfType E c T s).2) := by
  simp only [decoderOfType, hd, foldl_DecorateDecoder, decoderChain,
    decorateDecoderInOrder_append, decorateDecoderInOrder]

theorem encoderOfType_eq_chain (E : Env) (c : ctx) (T : Type2) (s : CompileState)
    (he : E.getTypeEncoderFromExtension c T = none) :
    encoderOfType E c T s =
      (decorateEncoderInOrder E T (encoderChain E c) (createEncoderOfType E c T s).1,
        (createEncoderOfType E c T s).2) := by
  simp only [encoderOfType, he, foldl_DecorateEncoder, encoderChain,
    decorateEncoderInOrder_append, decorateEncoderInOrder]

/-- C3: when no type-level extension codec is found for `T`, `decoderOfType(ctx, T)` returns
the decoder of `createDecoderOfType` handed through `DecorateDecoder` of every global
extension in list order, then of the configuration-level decoder extension, then of every
extra extension in list order; `encoderOfType` does the same with `DecorateEncoder` and the
configuration-level encoder extension; and `RegisterExtension` puts a new extension last, so
the extras are in registration order. -/
theorem C3_decoration_order (E : Env) (c : ctx) (T : Type2) (s : CompileState) (w : World)
    (cfg : Nat) (x : Extension) :
    (E.getTypeDecoderFromExtension c T = none →
      decoderOfType E c T s =
        (decorateDecoderInOrder E T
          (E.extensions ++ c.frozenConfig.decoderExtension :: c.frozenConfig.extraExtensions)
          (createDecoderOfType E c T s).1, (createDecoderOfType E c T s).2)) ∧
    (E.getTypeEncoderFromExtension c T = none →
      encoderOfType E c T s =
        (decorateEncoderInOrder E T
          (E.extensions ++ c.frozenConfig.encoderExtension :: c.frozenConfig.extraExtensions)
          (createEncoderOfType E c T s).1, (createEncoderOfType E c T s).2)) ∧
    ((frozenConfig.RegisterExtension w cfg x).heap cfg).extraExtensions
      = (w.heap cfg).extraExtensions ++ [x] := by
  refine ⟨decoderOfType_eq_chain E c T s, encoderOfType_eq_chain E c T s, ?_⟩
  simp [frozenConfig.RegisterExtension]

/-- C3 at the sample environment with the constant extension registered on the first
frozen configuration, for `int`. -/
theorem C3_decoration_order_witness :
    Sample.envWithConstant.getTypeDecoderFromExtension
      (rootCtx (frozenConfig.RegisterExtension Sample.frozenOnce.2 0 Sample.constantExtension) 0)
      Sample.intType = none ∧
    Sample.envWithConstant.getTypeEncoderFromExtension
      (rootCtx (frozenConfig.RegisterExtension Sample.frozenOnce.2 0 Sample.constantExtension) 0)
      Sample.intType = none ∧
    (encoderOfType Sample.envWithConstant
      (rootCtx (frozenConfig.RegisterExtension Sample.frozenOnce.2 0 Sample.constantExtension) 0)
      Sample.intType (rootState Sample.frozenOnce.2)).1 = .other 7 :=
  ⟨rfl, rfl, by
    rw [(C3_decoration_order Sample.envWithConstant
      (rootCtx (frozenConfig.RegisterExtension Sample.frozenOnce.2 0 Sample.constantExtension) 0)
      Sample.intType (rootState Sample.frozenOnce.2) Sample.frozenOnce.2 0
      Sample.constantExtension).2.1 rfl]
    decide⟩

/-! ## C6: recogniser order, then kind dispatch -/

theorem _createDecoderOfType_eq (E : Env) (c : ctx) (T : Type2) (s : CompileState) :
    _createDecoderOfType E c T s =
      (match firstApplicable (decoderRecognisers E c T) s with
        | (some decoder, s₁) => (decoder, s₁)
        | (none, s₁) => decoderOfKind E c T s₁) := by
  unfold _createDecoderOfType decoderRecognisers
  simp only [firstApplicable]
  rcases E.createDecoderOfJsonRawMessage c T s with ⟨_ | d₁, s₁⟩ <;> simp only []
  rcases E.createDecoderOfJsonNumber c T s₁ with ⟨_ | d₂, s₂⟩ <;> simp only []
  rcases E.createDecoderOfMarshaler c T s₂ with ⟨_ | d₃, s₃⟩ <;> simp only []
  rcases E.createDecoderOfAny c T s₃ with ⟨_ | d₄, s₄⟩ <;> simp only []
  rcases E.createDecoderOfNative c T s₄ with ⟨_ | d₅, s₅⟩ <;> simp only []
  unfold decoderOfKind unsupportedTypeError
  cases T.kind <;> simp

theorem _createEncoderOfType_eq (E : Env) (c : ctx) (T : Type2) (s : CompileState) :
    _createEncoderOfType E c T s =
      (match firstApplicable (encoderRecognisers E c T) s with
        | (some encoder, s₁) => (encoder, s₁)
        | (none, s₁) => encoderOfKind E c T s₁) := by
  unfold _createEncoderOfType encoderRecognisers
  simp only [firstApplicable]
  rcases E.createEncoderOfJsonRawMessage c T s with ⟨_ | d₁, s₁⟩ <;> simp only []
  rcases E.createEncoderOfJsonNumber c T s₁ with ⟨_ | d₂, s₂⟩ <;> simp only []
  rcases E.createEncoderOfMarshaler c T s₂ with ⟨_ | d₃, s₃⟩ <;> simp only []
  rcases E.createEncoderOfAny c T s₃ with ⟨_ | d₄, s₄⟩ <;> simp only []
  rcases E.createEncoderOfNative c T s₄ with ⟨_ | d₅, s₅⟩ <;> simp only []
  unfold encoderOfKind unsupportedTypeError
  cases T.kind <;> simp

/-- C6: `_createDecoderOfType` returns the codec of the first applicable recogniser in the
order raw-message, JSON-number, marshaler, Any, native (later recognisers are not tried), and
dispatches on the kind only when all five report not-applicable; `_createEncoderOfType`
follows the same order and the same kinds. -/
theorem C6_recognisers_then_kind (E : Env) (c : ctx) (T : Type2) (s : CompileState) :
    _createDecoderOfType E c T s =
      (match firstApplicable
          [E.createDecoderOfJsonRawMessage c T, E.createDecoderOfJsonNumber c T,
           E.createDecoderOfMarshaler c T, E.createDecoderOfAny c T,
           E.createDecoderOfNative c T] s with
        | (some decoder, s₁) => (decoder, s₁)
        | (none, s₁) => decoderOfKind E c T s₁) ∧
    _createEncoderOfType E c T s =
      (match firstApplicable
          [E.createEncoderOfJsonRawMessage c T, E.createEncoderOfJsonNumber c T,
           E.createEncoderOfMarshaler c T, E.createEncoderOfAny c T,
           E.createEncoderOfNative c T] s with
        | (some encoder, s₁) => (encoder, s₁)
        | (none, s₁) => encoderOfKind E c T s₁) :=
  ⟨_createDecoderOfType_eq E c T s, _createEncoderOfType_eq E c T s⟩

/-! ## C7: compilation returns a codec; the error codec -/

theorem firstApplicable_none {α : Type}
    (rs : List (CompileState → Option α × CompileState))
    (h : ∀ r ∈ rs, ∀ s, r s = (none, s)) (s : CompileState) :
    firstApplicable rs s = (none, s) := by
  induction rs with
  | nil => rfl
  | cons r rs ih =>
    simp only [firstApplicable, h r (List.mem_cons_self r rs) s]
    exact ih (fun r' hr' => h r' (List.mem_cons_of_mem r hr'))

theorem decoderOfKind_unsupported (E : Env) (c : ctx) (T : Type2) (s : CompileState)
    (hk : structuralKind T.kind = false) :
    decoderOfKind E c T s = (.lazyErrorDecoder (unsupportedTypeError c T), s) := by
  unfold decoderOfKind
  revert hk
  cases T.kind <;> simp [structuralKind]

theorem encoderOfKind_unsupported (E : Env) (c : ctx) (T : Type2) (s : CompileState)
    (hk : structuralKind T.kind = false) :
    encoderOfKind E c T s = (.lazyErrorEncoder (unsupportedTypeError c T), s) := by
  unfold encoderOfKind
  revert hk
  cases T.kind <;> simp [structuralKind]

theorem _createDecoderOfType_unsupported (E : Env) (c : ctx) (T : Type2) (s : CompileState)
    (hr : noDecoderRecogniser E c T) (hk : structuralKind T.kind = false) :
    _createDecoderOfType E c T s = (.lazyErrorDecoder (unsupportedTypeError c T), s) := by
  rw [_createDecoderOfType_eq, firstApplicable_none _ hr]
  exact decoderOfKind_unsupported E c T s hk

theorem _createEncoderOfType_unsupported (E : Env) (c : ctx) (T : Type2) (s : CompileState)
    (hr : noEncoderRecogniser E c T) (hk : structuralKind T.kind = false) :
    _createEncoderOfType E c T s = (.lazyErrorEncoder (unsupportedTypeError c T), s) := by
  rw [_createEncoderOfType_eq, firstApplicable_none _ hr]
  exact encoderOfKind_unsupported E c T s hk

theorem decorateDecoderInOrder_id (E : Env) (T : Type2) (chain : List Extension)
    (h : ∀ x ∈ chain, ∀ d, E.DecorateDecoder x T d = d) (d : ValDecoder) :
    decorateDecoderInOrder E T chain d = d := by
  induction chain generalizing d with
  | nil => rfl
  | cons x xs ih =>
    simp only [decorateDecoderInOrder, h x (List.mem_cons_self x xs)]
    exact ih (fun y hy => h y (List.mem_cons_of_mem x hy)) d

theorem decorateEncoderInOrder_id (E : Env) (T : Type2) (chain : List Extension)
    (h : ∀ x ∈ chain, ∀ e, E.DecorateEncoder x T e = e) (e : ValEncoder) :
    decorateEncoderInOrder E T chain e = e := by
  induction chain generalizing e with
  | nil => rfl
  | cons x xs ih =>
    simp only [decorateEncoderInOrder, h x (List.mem_cons_self x xs)]
    exact ih (fun y hy => h y (List.mem_cons_of_mem x hy)) e

theorem decoderOfType_unsupported (E : Env) (c : ctx) (T : Type2) (s : CompileState)
    (hs : Map.Load s.decoders T = none)
    (hr : noDecoderRecogniser E c T) (hk : structuralKind T.kind = false)
    (hx : noDecoderExtension E c T) :
    (decoderOfType E c T s).1 = .lazyErrorDecoder (unsupportedTypeError c T) := by
  rw [decoderOfType_eq_chain E c T s hx.1, decorateDecoderInOrder_id E T _ hx.2]
  simp only [createDecoderOfType, hs, _createDecoderOfType_unsupported E c T _ hr hk]

theorem encoderOfType_unsupported (E : Env) (c : ctx) (T : Type2) (s : CompileState)
    (hs : Map.Load s.encoders T = none)
    (hr : noEncoderRecogniser E c T) (hk : structuralKind T.kind = false)
    (hx : noEncoderExtension E c T) :
    (encoderOfType E c T s).1 = .lazyErrorEncoder (unsupportedTypeError c T) := by
  rw [encoderOfType_eq_chain E c T s hx.1, decorateEncoderInOrder_id E T _ hx.2]
  simp only [createEncoderOfType, hs, _createEncoderOfType_unsupported E c T _ hr hk]

theorem Sample.env_noDecoderRecogniser (c : ctx) (T : Type2)
    (h : (Sample.env.createDecoderOfNative c T (rootState Sample.emptyWorld)).1 = none) :
    noDecoderRecogniser Sample.env c T := by
  intro r hr s
  simp only [decoderRecognisers, List.mem_cons, List.mem_singleton, List.not_mem_nil,
    or_false] at hr
  rcases hr with rfl | rfl | rfl | rfl | rfl
  · rfl
  · rfl
  · rfl
  · rfl
  · simp only [Sample.env] at h ⊢
    rw [h]

theorem Sample.env_noEncoderRecogniser (c : ctx) (T : Type2)
    (h : (Sample.env.createEncoderOfNative c T (rootState Sample.emptyWorld)).1 = none) :
    noEncoderRecogniser Sample.env c T := by
  intro r hr s
  simp only [encoderRecognisers, List.mem_cons, List.mem_singleton, List.not_mem_nil,
    or_false] at hr
  rcases hr with rfl | rfl | rfl | rfl | rfl
  · rfl
  · rfl
  · rfl
  · rfl
  · simp only [Sample.env] at h ⊢
    rw [h]

theorem EncoderOf_unsupported (E : Env) (w : World) (cfg : Nat) (T : Type2)
    (hmiss : frozenConfig.getEncoderFromCache w cfg T.rtype = none)
    (hr : noEncoderRecogniser E (rootCtx w cfg) T) (hk : structuralKind T.kind = false)
    (hx : noEncoderExtension E (rootCtx w cfg) T) :
    (frozenConfig.EncoderOf E w cfg T).1 =
      if T.likePtr then
        .onePtrEncoder (.lazyErrorEncoder (unsupportedTypeError (rootCtx w cfg) T))
      else .lazyErrorEncoder (unsupportedTypeError (rootCtx w cfg) T) := by
  rw [EncoderOf_miss E w cfg T hmiss,
    encoderOfType_unsupported E (rootCtx w cfg) T (rootState w) rfl hr hk hx]

theorem DecoderOf_ok_iff (E : Env) (w : World) (cfg : Nat) (T : Type2) :
    (∃ d w₁, frozenConfig.DecoderOf E w cfg T = .ok (d, w₁)) ↔
      (frozenConfig.getDecoderFromCache w cfg T.rtype ≠ none ∨
        (T.isUnsafePtrType = true ∧ hasElem T.kind = true)) := by
  constructor
  · rintro ⟨d, w₁, h⟩
    cases hc : frozenConfig.getDecoderFromCache w cfg T.rtype with
    | some d' => exact Or.inl (by simp)
    | none =>
      right
      cases hT : T.isUnsafePtrType with
      | false => simp [frozenConfig.DecoderOf, hc, hT] at h
      | true =>
        cases hel : hasElem T.kind with
        | false => simp [frozenConfig.DecoderOf, hc, hT, hel] at h
        | true => exact ⟨rfl, rfl⟩
  · rintro (h | ⟨hT, hel⟩)
    · cases hc : frozenConfig.getDecoderFromCache w cfg T.rtype with
      | some d' => exact ⟨d', w, DecoderOf_hit E w cfg T d' hc⟩
      | none => exact absurd hc h
    · obtain ⟨d, w₁, hd, _⟩ := DecoderOf_total E w cfg T hT hel
      exact ⟨d, w₁, hd⟩

/-- C7, as stated, fails: `DecoderOf` on the descriptor of `int`, not yet cached, panics in
the type assertion `typ.(*reflect2.UnsafePtrType)`; and on the descriptor of `func()`, which
passes the assertion, it panics in `ptrType.Elem()`. -/
theorem C7_DecoderOf_panics_on_int_and_func :
    frozenConfig.DecoderOf Sample.env Sample.frozenOnce.2 Sample.frozenOnce.1 Sample.intType
      = .error (.panic "interface conversion: reflect2.Type is not *reflect2.UnsafePtrType") ∧
    frozenConfig.DecoderOf Sample.env Sample.frozenOnce.2 Sample.frozenOnce.1 Sample.funcType
      = .error (.panic "reflect: Elem of invalid type func()") :=
  ⟨rfl, rfl⟩

/-- C7 (amended): `DecoderOf(T)` returns a codec exactly when a decoder of `T` is cached or
`T` is a `*reflect2.UnsafePtrType` descriptor on which `Elem()` is defined (a pointer or a
channel type), and then the codec is in the cache under `T.RType()`; on any other descriptor
it panics, in the type assertion or in `Elem()`. `EncoderOf(T)` returns for every `T` the
encoder it leaves cached under `T.RType()`: the cached one, else the compiled one, behind
`onePtrEncoder` when `T` is pointer-like. A type that matches no recogniser and whose kind
is none of interface, struct, array, slice, map, pointer gets `lazyErrorDecoder` /
`lazyErrorEncoder` with the message prefix ++ type name ++ " is unsupported type"; with no
extension stepping in that is what `DecoderOf` returns and caches for a pointer to such a
type, and what `EncoderOf` returns and caches for the type itself. -/
theorem C7_compilation_returns_codec (E : Env) (w : World) (cfg : Nat) (T : Type2)
    (c : ctx) (s : CompileState) :
    ((∃ d w₁, frozenConfig.DecoderOf E w cfg T = .ok (d, w₁)) ↔
      (frozenConfig.getDecoderFromCache w cfg T.rtype ≠ none ∨
        (T.isUnsafePtrType = true ∧ hasElem T.kind = true))) ∧
    (T.isUnsafePtrType = true → hasElem T.kind = true →
      ∃ d w₁, frozenConfig.DecoderOf E w cfg T = .ok (d, w₁) ∧
        frozenConfig.getDecoderFromCache w₁ cfg T.rtype = some d) ∧
    (frozenConfig.getDecoderFromCache w cfg T.rtype = none →
      (T.isUnsafePtrType = false → frozenConfig.DecoderOf E w cfg T = .error (.panic
        "interface conversion: reflect2.Type is not *reflect2.UnsafePtrType")) ∧
      (T.isUnsafePtrType = true → hasElem T.kind = false →
        frozenConfig.DecoderOf E w cfg T
          = .error (.panic ("reflect: Elem of invalid type " ++ T.name)))) ∧
    (∃ e w₁, frozenConfig.EncoderOf E w cfg T = (e, w₁) ∧
      frozenConfig.getEncoderFromCache w₁ cfg T.rtype = some e ∧
      (∀ cached, frozenConfig.getEncoderFromCache w cfg T.rtype = some cached →
        e = cached ∧ w₁ = w) ∧
      (frozenConfig.getEncoderFromCache w cfg T.rtype = none →
        e = if T.likePtr then
            ValEncoder.onePtrEncoder (encoderOfType E (rootCtx w cfg) T (rootState w)).1
          else (encoderOfType E (rootCtx w cfg) T (rootState w)).1)) ∧
    (noDecoderRecogniser E c T → structuralKind T.kind = false →
      _createDecoderOfType E c T s
        = (.lazyErrorDecoder (.errorf (c.pfx ++ T.name ++ " is unsupported type")), s)) ∧
    (noEncoderRecogniser E c T → structuralKind T.kind = false →
      _createEncoderOfType E c T s
        = (.lazyErrorEncoder (.errorf (c.pfx ++ T.name ++ " is unsupported type")), s)) ∧
    (T.isUnsafePtrType = true → hasElem T.kind = true →
      frozenConfig.getDecoderFromCache w cfg T.rtype = none →
      noDecoderRecogniser E (rootCtx w cfg) (E.Elem T) →
      structuralKind (E.Elem T).kind = false →
      noDecoderExtension E (rootCtx w cfg) (E.Elem T) →
      ∃ w₁, frozenConfig.DecoderOf E w cfg T
          = .ok (.lazyErrorDecoder (.errorf ("" ++ (E.Elem T).name ++ " is unsupported type")),
              w₁) ∧
        frozenConfig.getDecoderFromCache w₁ cfg T.rtype
          = some (.lazyErrorDecoder
              (.errorf ("" ++ (E.Elem T).name ++ " is unsupported type")))) ∧
    (frozenConfig.getEncoderFromCache w cfg T.rtype = none →
      noEncoderRecogniser E (rootCtx w cfg) T → structuralKind T.kind = false →
      noEncoderExtension E (rootCtx w cfg) T →
      (frozenConfig.EncoderOf E w cfg T).1
        = (if T.likePtr then
            ValEncoder.onePtrEncoder
              (.lazyErrorEncoder (.errorf ("" ++ T.name ++ " is unsupported type")))
          else .lazyErrorEncoder (.errorf ("" ++ T.name ++ " is unsupported type"))) ∧
      frozenConfig.getEncoderFromCache (frozenConfig.EncoderOf E w cfg T).2 cfg T.rtype
        = some (frozenConfig.EncoderOf E w cfg T).1) := by
  refine ⟨DecoderOf_ok_iff E w cfg T, fun hT hel => ?_, fun hmiss => ⟨fun hT => ?_,
    fun hT hel => ?_⟩, ?_, fun hr hk => ?_, fun hr hk => ?_,
    fun hT hel hmiss hr hk hx => ?_, fun hmiss hr hk hx => ⟨?_, ?_⟩⟩
  · obtain ⟨d, w₁, h, _, hget⟩ := DecoderOf_total E w cfg T hT hel
    exact ⟨d, w₁, h, hget⟩
  · simp [frozenConfig.DecoderOf, hmiss, hT]
  · simp [frozenConfig.DecoderOf, hmiss, hT, hel]
  · refine ⟨(frozenConfig.EncoderOf E w cfg T).1, (frozenConfig.EncoderOf E w cfg T).2, rfl,
      (EncoderOf_cached E w cfg T).2, fun cached hc => ?_, fun hc => ?_⟩
    · rw [EncoderOf_hit E w cfg T cached hc]
      exact ⟨rfl, rfl⟩
    · rw [EncoderOf_miss E w cfg T hc]
  · exact _createDecoderOfType_unsupported E c T s hr hk
  · exact _createEncoderOfType_unsupported E c T s hr hk
  · have h := decoderOfType_unsupported E (rootCtx w cfg) (E.Elem T) (rootState w) rfl hr hk hx
    have hm := DecoderOf_miss E w cfg T hmiss hT hel
    rw [h] at hm
    exact ⟨_, hm, getDecoderFromCache_add _ _ _ _⟩
  · exact EncoderOf_unsupported E w cfg T hmiss hr hk hx
  · exact (EncoderOf_cached E w cfg T).2

/-- C7 (amended) at the first frozen sample configuration and `*complex128`. -/
theorem C7_compilation_returns_codec_witness :
    ∃ w₁, frozenConfig.DecoderOf Sample.env Sample.frozenOnce.2 Sample.frozenOnce.1
        Sample.ptrComplex128Type
      = .ok (.lazyErrorDecoder (.errorf ("" ++ "complex128" ++ " is unsupported type")), w₁) :=
  have h := (C7_compilation_returns_codec Sample.env Sample.frozenOnce.2 Sample.frozenOnce.1
    Sample.ptrComplex128Type (rootCtx Sample.frozenOnce.2 Sample.frozenOnce.1)
    (rootState Sample.frozenOnce.2)).2.2.2.2.2.2.1 rfl rfl rfl
    (Sample.env_noDecoderRecogniser _ Sample.complex128Type rfl)
    rfl
    ⟨rfl, fun _ _ _ => rfl⟩
  ⟨h.choose, h.choose_spec.1⟩

/-! ## C8: encoding through the error codec -/

theorem Encode_lazyErrorEncoder (E : Env) (cells : Placeholders) (fuel : Nat) (err : GoError)
    (ptr : Pointer) (stream : Stream) :
    ValEncoder.Encode E cells fuel (.lazyErrorEncoder err) ptr stream =
      if ptr = Pointer.nil then .ok stream.WriteNil
      else if stream.Error = none then .ok { stream with Error := some err }
      else .ok stream := by
  cases fuel <;> simp [ValEncoder.Encode]

theorem Encode_onePtrEncoder (E : Env) (cells : Placeholders) (fuel : Nat) (e : ValEncoder)
    (ptr : Pointer) (stream : Stream) :
    ValEncoder.Encode E cells fuel (.onePtrEncoder e) ptr stream =
      ValEncoder.Encode E cells fuel e (.ref ptr) stream := by
  cases fuel <;> simp [ValEncoder.Encode]

theorem Encode_other (E : Env) (cells : Placeholders) (fuel : Nat) (id : Nat)
    (ptr : Pointer) (stream : Stream) :
    ValEncoder.Encode E cells fuel (.other id) ptr stream
      = .ok (E.encodeOther (.other id) ptr stream) := by
  cases fuel <;> simp [ValEncoder.Encode]

/-- C8, as stated, fails twice. `chan int` is unsupported and pointer-like, so `EncoderOf`
returns the error encoder behind `onePtrEncoder`; encoding a nil channel through it records
the unsupported-type error and writes nothing, where the claim has null and no error. And
encoding a non-nil `complex128` on a stream that already carries `io.EOF` leaves `io.EOF`
there, where the claim has the unsupported-type error. -/
theorem C8_nil_channel_and_earlier_error :
    ((frozenConfig.EncoderOf Sample.env Sample.frozenOnce.2 Sample.frozenOnce.1
        Sample.chanIntType).1 = .onePtrEncoder (.lazyErrorEncoder Sample.chanIntError) ∧
      ValEncoder.Encode Sample.env Sample.frozenOnce.2.cells 0
        (.onePtrEncoder (.lazyErrorEncoder Sample.chanIntError)) .nil Sample.freshStream
        = .ok ⟨0, "", some Sample.chanIntError⟩) ∧
    ((frozenConfig.EncoderOf Sample.env Sample.frozenOnce.2 Sample.frozenOnce.1
        Sample.complex128Type).1 = .lazyErrorEncoder Sample.complex128Error ∧
      ValEncoder.Encode Sample.env Sample.frozenOnce.2.cells 0
        (.lazyErrorEncoder Sample.complex128Error) (.addr 1) Sample.failedStream
        = .ok ⟨0, "", some .EOF⟩) := by
  refine ⟨⟨by decide, ?_⟩, ⟨by decide, ?_⟩⟩
  · rw [Encode_onePtrEncoder, Encode_lazyErrorEncoder]; rfl
  · rw [Encode_lazyErrorEncoder]; rfl

/-- C8 (amended): for an unsupported type `T` (no recogniser applies, the kind is not
structural, no extension steps in) and the encoder `e` that `EncoderOf(T)` compiles:
encoding a non-nil value through `e` leaves the unsupported-type error on a stream that
carried no error and leaves an earlier error in place; and when `T` is not pointer-like,
encoding a nil location through `e` writes null and sets no error. -/
theorem C8_error_encoder (E : Env) (w : World) (cfg : Nat) (T : Type2) (fuel : Nat)
    (ptr : Pointer) (stream : Stream)
    (hmiss : frozenConfig.getEncoderFromCache w cfg T.rtype = none)
    (hr : noEncoderRecogniser E (rootCtx w cfg) T) (hk : structuralKind T.kind = false)
    (hx : noEncoderExtension E (rootCtx w cfg) T) :
    (T.likePtr = false →
      (frozenConfig.EncoderOf E w cfg T).1.Encode E (frozenConfig.EncoderOf E w cfg T).2.cells
          fuel .nil stream
        = .ok { stream with out := stream.out ++ "null" }) ∧
    (ptr ≠ Pointer.nil → stream.Error = none →
      (frozenConfig.EncoderOf E w cfg T).1.Encode E (frozenConfig.EncoderOf E w cfg T).2.cells
          fuel ptr stream
        = .ok { stream with
            Error := some (.errorf ("" ++ T.name ++ " is unsupported type")) }) ∧
    (ptr ≠ Pointer.nil → stream.Error ≠ none →
      (frozenConfig.EncoderOf E w cfg T).1.Encode E (frozenConfig.EncoderOf E w cfg T).2.cells
          fuel ptr stream
        = .ok stream) := by
  rw [EncoderOf_unsupported E w cfg T hmiss hr hk hx]
  refine ⟨fun hl => ?_, fun hp he => ?_, fun hp he => ?_⟩
  · simp only [hl, Bool.false_eq_true, if_false, Encode_lazyErrorEncoder, if_true]
    rfl
  · cases hl : T.likePtr
    · simp only [Bool.false_eq_true, if_false, Encode_lazyErrorEncoder, hp, he, if_true]
      rfl
    · simp only [if_true, Encode_onePtrEncoder, Encode_lazyErrorEncoder, he]
      rfl
  · cases hl : T.likePtr
    · simp only [Bool.false_eq_true, if_false, Encode_lazyErrorEncoder, hp, he]
    · simp only [if_true, Encode_onePtrEncoder, Encode_lazyErrorEncoder, he]
      rfl

/-- C8 (amended) at the first frozen sample configuration, `complex128`, a value at
address 1 and a fresh stream. -/
theorem C8_error_encoder_witness :
    (frozenConfig.EncoderOf Sample.env Sample.frozenOnce.2 Sample.frozenOnce.1
        Sample.complex128Type).1.Encode Sample.env
      (frozenConfig.EncoderOf Sample.env Sample.frozenOnce.2 Sample.frozenOnce.1
        Sample.complex128Type).2.cells 0 (.addr 1) Sample.freshStream
      = .ok { Sample.freshStream with
          Error := some (.errorf ("" ++ "complex128" ++ " is unsupported type")) } :=
  (C8_error_encoder Sample.env Sample.frozenOnce.2 Sample.frozenOnce.1 Sample.complex128Type 0
    (.addr 1) Sample.freshStream rfl (Sample.env_noEncoderRecogniser _ _ rfl) rfl
    ⟨rfl, fun _ _ _ => rfl⟩).2.1 (by decide) rfl

/-! ## C4: an extension registered after freezing -/

theorem getEncoderFromCache_RegisterExtension (w : World) (cfg key : Nat) (x : Extension) :
    frozenConfig.getEncoderFromCache (frozenConfig.RegisterExtension w cfg x) cfg key
      = frozenConfig.getEncoderFromCache w cfg key := by
  simp [frozenConfig.getEncoderFromCache, frozenConfig.RegisterExtension]

theorem decorateEncoderInOrder_last (E : Env) (T : Type2) (chain : List Extension)
    (x : Extension) (k : ValEncoder) (hk : ∀ enc, E.DecorateEncoder x T enc = k)
    (e : ValEncoder) :
    decorateEncoderInOrder E T (chain ++ [x]) e = k := by
  rw [decorateEncoderInOrder_append]
  simp only [decorateEncoderInOrder, hk]

theorem encoderChain_RegisterExtension (E : Env) (w : World) (cfg : Nat) (x : Extension) :
    encoderChain E (rootCtx (frozenConfig.RegisterExtension w cfg x) cfg)
      = (E.extensions ++ (w.heap cfg).encoderExtension :: (w.heap cfg).extraExtensions)
          ++ [x] := by
  simp [encoderChain, rootCtx, frozenConfig.RegisterExtension]

theorem EncoderOf_after_RegisterExtension (E : Env) (w : World) (cfg : Nat) (T : Type2)
    (x : Extension) (k : ValEncoder)
    (hk : ∀ enc, E.DecorateEncoder x T enc = k)
    (hx : ∀ c, E.getTypeEncoderFromExtension c T = none)
    (hmiss : frozenConfig.getEncoderFromCache w cfg T.rtype = none) :
    (frozenConfig.EncoderOf E (frozenConfig.RegisterExtension w cfg x) cfg T).1
      = if T.likePtr then .onePtrEncoder k else k := by
  rw [EncoderOf_miss E _ cfg T
    (by rw [getEncoderFromCache_RegisterExtension]; exact hmiss)]
  rw [encoderOfType_eq_chain E _ T _ (hx _), encoderChain_RegisterExtension,
    decorateEncoderInOrder_last E T _ x k hk]

theorem WriteVal_cached (E : Env) (fuel : Nat) (w : World) (stream : Stream) (v : EFace)
    (e : ValEncoder)
    (h : frozenConfig.getEncoderFromCache w stream.cfg v.typ.rtype = some e) :
    Stream.WriteVal E fuel w stream (some v) =
      match e.Encode E w.cells fuel v.data stream with
      | .ok stream => .ok (stream, w)
      | .error f => .error f := by
  simp [Stream.WriteVal, RTypeOf, PtrOf, h]

/-- C4, as stated, fails: `int` is encoded once on the first frozen sample configuration,
then an extension answering the constant encoder `other 7` for `int` is registered; the next
`EncoderOf(int)` still returns the cached native encoder `other 4`, and `WriteVal` of an
`int` writes that encoder's output, not the constant. -/
theorem C4_cached_encoder_survives_registration :
    (∀ enc, Sample.envWithConstant.DecorateEncoder Sample.constantExtension Sample.intType enc
      = .other 7) ∧
    (frozenConfig.EncoderOf Sample.envWithConstant Sample.registeredAfterEncode
      Sample.frozenOnce.1 Sample.intType).1 = .other 4 ∧
    (Stream.WriteVal Sample.envWithConstant 0 Sample.registeredAfterEncode Sample.freshStream
      (some Sample.intValue)).map (fun r => r.1) = .ok ⟨0, "0", none⟩ := by
  refine ⟨fun enc => by simp [Sample.envWithConstant], by decide, ?_⟩
  have h : frozenConfig.getEncoderFromCache Sample.registeredAfterEncode
      Sample.freshStream.cfg Sample.intValue.typ.rtype = some (.other 4) := by decide
  rw [WriteVal_cached _ _ _ _ _ _ h, Encode_other]
  rfl

/-- C4 (amended): on a frozen configuration that has no encoder of `T` cached, and with no
type-level extension codec for `T`, after `RegisterExtension(e)` where `e.DecorateEncoder`
answers a fixed constant encoder for `T`, `EncoderOf(T)` compiles to that constant encoder
(behind `onePtrEncoder` when `T` is pointer-like), it writes the constant whatever the
value, the first `WriteVal` of a `T` and the following ones (now served from the cache) write
the constant; an encoder of `T` that was cached before the registration stays in use. -/
theorem C4_constant_encoder_after_registration (E : Env) (w : World) (cfg : Nat) (T : Type2)
    (x : Extension) (k : ValEncoder) (constant : String) (fuel : Nat) (v : EFace)
    (stream : Stream) (old : ValEncoder) :
    ((∀ enc, E.DecorateEncoder x T enc = k) →
      (∀ cells fuel ptr s, k.Encode E cells fuel ptr s = .ok (s.WriteRaw constant)) →
      (∀ c, E.getTypeEncoderFromExtension c T = none) →
      v.typ = T → stream.cfg = cfg →
      frozenConfig.getEncoderFromCache w cfg T.rtype = none →
      (frozenConfig.EncoderOf E (frozenConfig.RegisterExtension w cfg x) cfg T).1
          = (if T.likePtr then .onePtrEncoder k else k) ∧
      Stream.WriteVal E fuel (frozenConfig.RegisterExtension w cfg x) stream (some v)
          = .ok (stream.WriteRaw constant,
              (frozenConfig.EncoderOf E (frozenConfig.RegisterExtension w cfg x) cfg T).2) ∧
      Stream.WriteVal E fuel
          (frozenConfig.EncoderOf E (frozenConfig.RegisterExtension w cfg x) cfg T).2
          stream (some v)
          = .ok (stream.WriteRaw constant,
              (frozenConfig.EncoderOf E (frozenConfig.RegisterExtension w cfg x) cfg T).2)) ∧
    (frozenConfig.getEncoderFromCache w cfg T.rtype = some old →
      (frozenConfig.EncoderOf E (frozenConfig.RegisterExtension w cfg x) cfg T).1 = old) := by
  constructor
  · intro hk hconst hx hv hs hmiss
    subst hv hs
    have henc : ∀ cells fuel ptr s,
        ValEncoder.Encode E cells fuel (if v.typ.likePtr then .onePtrEncoder k else k) ptr s
          = .ok (s.WriteRaw constant) := by
      intro cells fuel ptr s
      cases v.typ.likePtr
      · simp only [Bool.false_eq_true, if_false]; exact hconst _ _ _ _
      · simp only [if_true, Encode_onePtrEncoder]; exact hconst _ _ _ _
    have h1 := EncoderOf_after_RegisterExtension E w stream.cfg v.typ x k hk hx hmiss
    have hmiss' : frozenConfig.getEncoderFromCache
        (frozenConfig.RegisterExtension w stream.cfg x) stream.cfg v.typ.rtype = none := by
      rw [getEncoderFromCache_RegisterExtension]; exact hmiss
    have hc := (EncoderOf_cached E (frozenConfig.RegisterExtension w stream.cfg x)
      stream.cfg v.typ).2
    refine ⟨h1, ?_, ?_⟩
    · simp only [Stream.WriteVal, RTypeOf, PtrOf, hmiss', h1, henc]
    · rw [WriteVal_cached E fuel _ stream v _ hc, h1, henc]
  · intro hhit
    rw [EncoderOf_hit E _ cfg T old
      (by rw [getEncoderFromCache_RegisterExtension]; exact hhit)]

/-- C4 (amended) at the first frozen sample configuration, before anything is encoded on
it. -/
theorem C4_constant_encoder_after_registration_witness :
    Stream.WriteVal Sample.envWithConstant 0
        (frozenConfig.RegisterExtension Sample.frozenOnce.2 0 Sample.constantExtension)
        Sample.freshStream (some Sample.intValue)
      = .ok (Sample.freshStream.WriteRaw "\"constant\"",
          (frozenConfig.EncoderOf Sample.envWithConstant
            (frozenConfig.RegisterExtension Sample.frozenOnce.2 0 Sample.constantExtension)
            0 Sample.intType).2) :=
  ((C4_constant_encoder_after_registration Sample.envWithConstant Sample.frozenOnce.2 0
    Sample.intType Sample.constantExtension (.other 7) "\"constant\"" 0 Sample.intValue
    Sample.freshStream (.other 0)).1
    (fun enc => by simp [Sample.envWithConstant])
    (fun cells fuel ptr s => by rw [Encode_other]; rfl)
    (fun _ => rfl) rfl rfl (by decide)).2.1

/-! ## C5: the registry and the extra-extension list -/

/-- C5, the code at the failing input: after `frozeWithCacheReuse` of the all-zero `Config`
with no extra extension, `frozeWithCacheReuse` of the same `Config` with the list
`[constantExtension]` returns the instance built first, whose extra extensions are still
empty: the registry is looked up by the `Config` alone and the hit returns before the
extensions are registered. -/
theorem C5_registry_hit_drops_extension_list :
    ([Sample.constantExtension] ≠ ([] : List Extension)) ∧
    Sample.reusedWithExtension.1 = Sample.reusedPlain.1 ∧
    (Sample.reusedWithExtension.2.heap Sample.reusedWithExtension.1).extraExtensions = [] := by
  decide

/-! ## C9: decoding through the error codec -/

theorem Decode_lazyErrorDecoder (E : Env) (cells : Placeholders) (fuel : Nat) (err : GoError)
    (ptr : Pointer) (iter : Iterator) (mem : Memory) :
    ValDecoder.Decode E cells fuel (.lazyErrorDecoder err) ptr iter mem =
      if (E.WhatIsNext iter).1 ≠ ValueType.NilValue then
        if (E.WhatIsNext iter).2.Error = none then
          .ok ({ (E.WhatIsNext iter).2 with Error := some err }, mem)
        else .ok ((E.WhatIsNext iter).2, mem)
      else .ok (E.Skip (E.WhatIsNext iter).2, mem) := by
  cases fuel <;> simp [ValDecoder.Decode]

/-- C9, as stated, fails: on the empty input the iterator carries no error and the next
value is not null, but the look at the next value records `io.EOF`, and `Decode`, which
tests the error after that look, keeps it: the iterator ends with `io.EOF`, not with the
codec's unsupported-type error. -/
theorem C9_end_of_input_keeps_EOF :
    Sample.iterEmpty.Error = none ∧
    (Sample.envPeek.WhatIsNext Sample.iterEmpty).1 ≠ ValueType.NilValue ∧
    ValDecoder.Decode Sample.envPeek Sample.emptyWorld.cells 0
        (.lazyErrorDecoder Sample.complex128Error) (.addr 1) Sample.iterEmpty []
      = .ok (⟨0, [], 0, 0, some .EOF⟩, []) :=
  ⟨rfl, by decide, rfl⟩

/-- C9 (amended): `lazyErrorDecoder.Decode` returns for every iterator state and never
writes the target memory. It first looks at the next value (`WhatIsNext`), which may record
an error of its own on the iterator. If the next value is null it only skips it: the result
is the scanner's `Skip` on the iterator as the look left it, and no error is set by the
codec. Otherwise the iterator keeps the error it carries after the look, and gets the
codec's unsupported-type error if it carries none; where the look records no error of its
own, that is the error carried on entry. -/
theorem C9_lazyErrorDecoder_Decode (E : Env) (cells : Placeholders) (fuel : Nat)
    (err : GoError) (ptr : Pointer) (iter : Iterator) (mem : Memory) :
    ((E.WhatIsNext iter).1 = ValueType.NilValue →
      ValDecoder.Decode E cells fuel (.lazyErrorDecoder err) ptr iter mem
        = .ok (E.Skip (E.WhatIsNext iter).2, mem)) ∧
    ((E.WhatIsNext iter).1 ≠ ValueType.NilValue →
      ∃ iter₁, ValDecoder.Decode E cells fuel (.lazyErrorDecoder err) ptr iter mem
          = .ok (iter₁, mem) ∧
        iter₁.Error = (match (E.WhatIsNext iter).2.Error with
          | some carried => some carried
          | none => some err) ∧
        ((E.WhatIsNext iter).2.Error = iter.Error →
          iter₁.Error = (match iter.Error with
            | some carried => some carried
            | none => some err)) ∧
        iter₁.cfg = (E.WhatIsNext iter).2.cfg ∧ iter₁.buf = (E.WhatIsNext iter).2.buf ∧
        iter₁.head = (E.WhatIsNext iter).2.head ∧ iter₁.tail = (E.WhatIsNext iter).2.tail) ∧
    (∃ iter₁, ValDecoder.Decode E cells fuel (.lazyErrorDecoder err) ptr iter mem
      = .ok (iter₁, mem)) := by
  rw [Decode_lazyErrorDecoder]
  by_cases hnil : (E.WhatIsNext iter).1 = ValueType.NilValue
  · simp [hnil]
  · cases herr : (E.WhatIsNext iter).2.Error with
    | none =>
      simp only [ne_eq, hnil, not_false_eq_true, if_true, false_implies, true_implies,
        true_and]
      refine ⟨⟨_, rfl, rfl, fun h => ?_, rfl, rfl, rfl, rfl⟩, _, rfl⟩
      rw [← h]
    | some carried =>
      simp only [ne_eq, hnil, not_false_eq_true, if_true, false_implies, true_implies,
        true_and, reduceCtorEq, if_false]
      refine ⟨⟨_, rfl, herr, fun h => ?_, rfl, rfl, rfl, rfl⟩, _, rfl⟩
      rw [← h, herr]

/-- C9 at the sample scanner on the input `1`: the next value is not null and the iterator
carries no error, so it ends with the codec's error. -/
theorem C9_lazyErrorDecoder_Decode_witness :
    (Sample.env.WhatIsNext Sample.iterOne).1 ≠ ValueType.NilValue ∧
    ∃ iter₁, ValDecoder.Decode Sample.env Sample.emptyWorld.cells 0
        (.lazyErrorDecoder Sample.complex128Error) (.addr 1) Sample.iterOne []
        = .ok (iter₁, []) ∧ iter₁.Error = some Sample.complex128Error :=
  have hne : (Sample.env.WhatIsNext Sample.iterOne).1 ≠ ValueType.NilValue := by decide
  have h := (C9_lazyErrorDecoder_Decode Sample.env Sample.emptyWorld.cells 0
    Sample.complex128Error (.addr 1) Sample.iterOne []).2.1 hne
  ⟨hne, h.choose, h.choose_spec.1, h.choose_spec.2.1⟩

/-! ## C10: trailing input and end of input in Unmarshal -/

theorem Decode_returns (E : Env) (cells : Placeholders) (fuel : Nat) (d : ValDecoder)
    (ptr : Pointer) (iter : Iterator) (mem : Memory)
    (hd : ∀ cell, d ≠ .placeholderDecoder cell) :
    ∃ r, ValDecoder.Decode E cells fuel d ptr iter mem = .ok r := by
  cases d with
  | lazyErrorDecoder err =>
    rw [Decode_lazyErrorDecoder]
    split
    · split
      · exact ⟨_, rfl⟩
      · exact ⟨_, rfl⟩
    · exact ⟨_, rfl⟩
  | placeholderDecoder cell => exact absurd rfl (hd cell)
  | ifaceDecoder valType => cases fuel <;> exact ⟨_, rfl⟩
  | efaceDecoder => cases fuel <;> exact ⟨_, rfl⟩
  | funcDecoder owner => cases fuel <;> exact ⟨_, rfl⟩
  | other id => cases fuel <;> exact ⟨_, rfl⟩

theorem ReadVal_returns (E : Env) (fuel : Nat) (w : World) (iter : Iterator) (mem : Memory)
    (x : EFace) (d : ValDecoder) (w₁ : World)
    (hd : frozenConfig.DecoderOf E w iter.cfg x.typ = .ok (d, w₁))
    (hp : ∀ cell, d ≠ .placeholderDecoder cell) :
    ∃ r, Iterator.ReadVal E fuel w iter mem (some x) = .ok r := by
  cases hc : frozenConfig.getDecoderFromCache w iter.cfg x.typ.rtype with
  | some d' =>
    rw [DecoderOf_hit E w iter.cfg x.typ d' hc] at hd
    injection hd with hd
    injection hd with h1 h2
    subst h1 h2
    simp only [Iterator.ReadVal, RTypeOf, hc, PtrOf]
    by_cases hnil : x.data = Pointer.nil
    · simp [hnil]
    · obtain ⟨r, hr⟩ := Decode_returns E w.cells fuel d' x.data iter mem hp
      simp only [hnil, if_false, hr]
      exact ⟨_, rfl⟩
  | none =>
    simp only [Iterator.ReadVal, RTypeOf, hc, TypeOf, Option.map_some', PtrOf]
    by_cases hk : x.typ.kind = Kind.Ptr
    · simp only [hk, ne_eq, not_true_eq_false, if_false, hd]
      by_cases hnil : x.data = Pointer.nil
      · simp [hnil]
      · obtain ⟨r, hr⟩ := Decode_returns E w₁.cells fuel d x.data iter mem hp
        simp only [hnil, if_false, hr]
        exact ⟨_, rfl⟩
    · simp only [ne_eq, hk, not_false_eq_true, if_true]
      exact ⟨_, rfl⟩

theorem Unmarshal_after_ReadVal (E : Env) (fuel : Nat) (w : World) (cfg : Nat) (mem : Memory)
    (data : List Nat) (v : Option EFace) (iter₁ : Iterator) (mem₁ : Memory) (w₁ : World)
    (hscan : E.nextToken = Sample.nextToken)
    (hread : Iterator.ReadVal E fuel w (E.BorrowIterator cfg data) mem v
      = .ok (iter₁, mem₁, w₁)) :
    frozenConfig.Unmarshal E fuel w cfg mem data v
      = .ok ((match (iter₁.buf.drop iter₁.head).dropWhile Sample.isSpace with
          | [] =>
            (match iter₁.Error with
              | none => none
              | some .EOF => none
              | some recorded => some recorded)
          | 0 :: _ =>
            (match iter₁.Error with
              | some .EOF => none
              | recorded => recorded)
          | _ :: _ =>
            some (match iter₁.Error with
              | some first => first
              | none => .reported "Unmarshal" "there are bytes left after unmarshal")),
        mem₁, w₁) := by
  simp only [frozenConfig.Unmarshal, hread, hscan, Sample.nextToken]
  rcases hrest : (iter₁.buf.drop iter₁.head).dropWhile Sample.isSpace with _ | ⟨b, rest⟩
  · rcases herr : iter₁.Error with _ | recorded
    · simp
    · cases recorded <;> simp
  · rcases b with _ | b
    · rcases herr : iter₁.Error with _ | recorded
      · simp [herr]
      · cases recorded <;> simp [herr]
    · rcases herr : iter₁.Error with _ | recorded
      · simp [Iterator.ReportError, herr]
      · simp [Iterator.ReportError, herr]

/-- C10, the code at the failing input: `Unmarshal([]byte("null\x00x"), &c)` with `c` a
`complex128` returns nil although two bytes are left after the value, the second one the
non-whitespace `x`. `ReadVal` consumes `null` and leaves no error; `nextToken` hands out the
NUL byte as `c == 0`, which `Unmarshal` reads as the end of the input, and with no error
recorded the result is nil. `UnmarshalFromString` does the same on the string. On `null x`
the same call returns "there are bytes left after unmarshal". In general, with a scanner
whose `nextToken` skips whitespace and hands out the next byte (0 and `io.EOF` at the end),
the result is decided by what follows the value: nothing left gives nil, or the recorded
error if it is not `io.EOF`; a byte other than NUL gives the first recorded error, else
"there are bytes left after unmarshal"; a NUL byte gives the recorded error, nil if there is
none, whatever follows it. -/
theorem C10_Unmarshal_NUL_byte_hides_trailing_input :
    Iterator.ReadVal Sample.env 0 Sample.frozenOnce.2
        (Sample.env.BorrowIterator Sample.frozenOnce.1 Sample.nullNulGarbage) []
        (some Sample.ptrComplex128Value)
      = .ok (⟨0, Sample.nullNulGarbage, 4, 6, none⟩, [], Sample.complexDecoded) ∧
    Sample.nullNulGarbage.drop 4 = [0, 120] ∧ Sample.isSpace 120 = false ∧
    frozenConfig.Unmarshal Sample.env 0 Sample.frozenOnce.2 Sample.frozenOnce.1 []
        Sample.nullNulGarbage (some Sample.ptrComplex128Value)
      = .ok (none, [], Sample.complexDecoded) ∧
    frozenConfig.UnmarshalFromString Sample.env 0 Sample.frozenOnce.2 Sample.frozenOnce.1 []
        "null\x00x" (some Sample.ptrComplex128Value)
      = .ok (none, [], Sample.complexDecoded) ∧
    frozenConfig.Unmarshal Sample.env 0 Sample.frozenOnce.2 Sample.frozenOnce.1 []
        Sample.nullThenGarbage (some Sample.ptrComplex128Value)
      = .ok (some (.reported "Unmarshal" "there are bytes left after unmarshal"), [],
          Sample.complexDecoded) ∧
    (∀ (E : Env) (fuel : Nat) (w : World) (cfg : Nat) (mem : Memory) (data : List Nat)
        (v : Option EFace) (iter₁ : Iterator) (mem₁ : Memory) (w₁ : World),
      E.nextToken = Sample.nextToken →
      Iterator.ReadVal E fuel w (E.BorrowIterator cfg data) mem v = .ok (iter₁, mem₁, w₁) →
      frozenConfig.Unmarshal E fuel w cfg mem data v
        = .ok ((match (iter₁.buf.drop iter₁.head).dropWhile Sample.isSpace with
            | [] =>
              (match iter₁.Error with
                | none => none
                | some .EOF => none
                | some recorded => some recorded)
            | 0 :: _ =>
              (match iter₁.Error with
                | some .EOF => none
                | recorded => recorded)
            | _ :: _ =>
              some (match iter₁.Error with
                | some first => first
                | none => .reported "Unmarshal" "there are bytes left after unmarshal")),
          mem₁, w₁)) ∧
    (∀ (E : Env) (w : World) (iter : Iterator) (mem : Memory) (x : EFace),
      x.typ.isUnsafePtrType = true → hasElem x.typ.kind = true →
      ∃ d w₂, frozenConfig.DecoderOf E w iter.cfg x.typ = .ok (d, w₂) ∧
        ((∀ cell, d ≠ .placeholderDecoder cell) →
          ∀ fuel, ∃ r, Iterator.ReadVal E fuel w iter mem (some x) = .ok r)) := by
  refine ⟨rfl, rfl, rfl, rfl, ?_, rfl,
    fun E fuel w cfg mem data v iter₁ mem₁ w₁ hscan hread =>
      Unmarshal_after_ReadVal E fuel w cfg mem data v iter₁ mem₁ w₁ hscan hread,
    fun E w iter mem x hT hel => ?_⟩
  · have hbytes : bytesOfString "null\x00x" = Sample.nullNulGarbage := by decide
    unfold frozenConfig.UnmarshalFromString
    rw [hbytes]
    rfl
  · obtain ⟨d, w₂, hd, _⟩ := DecoderOf_total E w iter.cfg x.typ hT hel
    exact ⟨d, w₂, hd, fun hp fuel => ReadVal_returns E fuel w iter mem x d w₂ hd hp⟩

/-! ## C11: MarshalIndent -/

theorem hasNonSpace_iff (l : List Char) : hasNonSpace l = true ↔ ∃ r ∈ l, r ≠ ' ' := by
  induction l with
  | nil => simp [hasNonSpace]
  | cons r rest ih =>
    by_cases h : r = ' '
    · simp [hasNonSpace, h, ih]
    · simp [hasNonSpace, h]

theorem utf8ByteSize_go_spaces (l : List Char) (h : ∀ r ∈ l, r = ' ') :
    String.utf8ByteSize.go l = l.length := by
  induction l with
  | nil => rfl
  | cons r rest ih =>
    have hr : r = ' ' := h r (List.mem_cons_self r rest)
    subst hr
    simp only [String.utf8ByteSize.go, List.length_cons]
    rw [ih (fun x hx => h x (List.mem_cons_of_mem _ hx))]
    rfl

theorem utf8ByteSize_spaces (indent : String) (h : ∀ r ∈ indent.toList, r = ' ') :
    indent.utf8ByteSize = indent.length := by
  cases indent with
  | mk l => exact utf8ByteSize_go_spaces l h

theorem registerAll_heap (api : Nat) (xs : List Extension) (w : World) :
    ∀ a, (xs.foldl (fun w x => frozenConfig.RegisterExtension w api x) w).heap a =
      if a = api then
        { (w.heap api) with extraExtensions := (w.heap api).extraExtensions ++ xs }
      else w.heap a := by
  induction xs generalizing w with
  | nil => intro a; by_cases h : a = api <;> simp [h]
  | cons x xs ih =>
    intro a
    simp only [List.foldl_cons]
    rw [ih]
    by_cases h : a = api
    · simp [h, frozenConfig.RegisterExtension]
    · simp [h, frozenConfig.RegisterExtension]

theorem registerAll_heapNext (api : Nat) (xs : List Extension) (w : World) :
    (xs.foldl (fun w x => frozenConfig.RegisterExtension w api x) w).heapNext = w.heapNext := by
  induction xs generalizing w with
  | nil => rfl
  | cons x xs ih => simp only [List.foldl_cons]; rw [ih]; rfl

theorem Froze_frozenFor (E : Env) (c : Config) (w : World) :
    (c.Froze E w).1 = w.heapNext ∧ (c.Froze E w).2.heapNext = w.heapNext + 1 ∧
    (c.Froze E w).2.cfgCache = w.cfgCache ∧
    frozenFor c ((c.Froze E w).2.heap w.heapNext) ∧
    ∀ a, a ≠ w.heapNext → (c.Froze E w).2.heap a = w.heap a := by
  refine ⟨rfl, rfl, rfl, ?_, fun a ha => ?_⟩
  · simp [Config.Froze, frozenConfig.initCache, frozenFor]
  · simp [Config.Froze, ha]

theorem frozeWithCacheReuse_RegistryOk (E : Env) (c : Config) (xs : List Extension)
    (w : World) (h : RegistryOk w) :
    RegistryOk (c.frozeWithCacheReuse E xs w).2 ∧
    frozenFor c ((c.frozeWithCacheReuse E xs w).2.heap (c.frozeWithCacheReuse E xs w).1) := by
  cases hc : getFrozenConfigFromCache w c with
  | some api =>
    rw [frozeWithCacheReuse_hit E c xs w api hc]
    exact ⟨h, (h c api hc).2⟩
  | none =>
    obtain ⟨h1, h2, h3, h4, h5⟩ := Froze_frozenFor E c w
    have hnew : frozenFor c
        ((xs.foldl (fun w₁ x => frozenConfig.RegisterExtension w₁ w.heapNext x)
          (c.Froze E w).2).heap w.heapNext) := by
      rw [registerAll_heap]
      simpa [frozenFor] using h4
    simp only [Config.frozeWithCacheReuse, hc, h1]
    refine ⟨fun c' a' hl => ?_, hnew⟩
    simp only [addFrozenConfigToCache, Map.Load, Map.Store, List.lookup_cons] at hl
    by_cases hcc : c' = c
    · subst hcc
      simp only [beq_self_eq_true, Option.some.injEq] at hl
      subst hl
      refine ⟨?_, hnew⟩
      simp [addFrozenConfigToCache, registerAll_heapNext, h2]
    · have hne : (c' == c) = false := by simpa using hcc
      simp only [hne] at hl
      rw [registerAll_cfgCache, h3] at hl
      obtain ⟨hlt, hf⟩ := h c' a' hl
      refine ⟨?_, ?_⟩
      · simp only [addFrozenConfigToCache, registerAll_heapNext, h2]; omega
      · simp only [addFrozenConfigToCache]
        rw [registerAll_heap, if_neg (by omega), h5 a' (by omega)]
        exact hf

theorem Encode_error (E : Env) (cells : Placeholders) (fuel : Nat) :
    ∀ (e : ValEncoder) (ptr : Pointer) (s : Stream) (f : Fault),
      ValEncoder.Encode E cells fuel e ptr s = .error f →
      f = .outOfFuel ∨ f = .panic "invalid memory address or nil pointer dereference" := by
  induction fuel with
  | zero =>
    intro e
    induction e with
    | lazyErrorEncoder err =>
      intro ptr s f h
      rw [Encode_lazyErrorEncoder] at h
      split at h
      · cases h
      · split at h <;> cases h
    | onePtrEncoder e ih =>
      intro ptr s f h
      rw [Encode_onePtrEncoder] at h
      exact ih _ _ _ h
    | placeholderEncoder cell =>
      intro ptr s f h
      simp only [ValEncoder.Encode] at h
      cases h
      exact Or.inl rfl
    | _ => intro ptr s f h; simp [ValEncoder.Encode] at h
  | succ n ihn =>
    intro e
    induction e with
    | lazyErrorEncoder err =>
      intro ptr s f h
      rw [Encode_lazyErrorEncoder] at h
      split at h
      · cases h
      · split at h <;> cases h
    | onePtrEncoder e ih =>
      intro ptr s f h
      rw [Encode_onePtrEncoder] at h
      exact ih _ _ _ h
    | placeholderEncoder cell =>
      intro ptr s f h
      simp only [ValEncoder.Encode] at h
      split at h
      · exact ihn _ _ _ _ h
      · cases h
        exact Or.inr rfl
    | _ => intro ptr s f h; simp [ValEncoder.Encode] at h

theorem Marshal_error (E : Env) (fuel : Nat) (w : World) (cfg : Nat) (v : Option EFace)
    (f : Fault) (h : frozenConfig.Marshal E fuel w cfg v = .error f) :
    f = .outOfFuel ∨ f = .panic "invalid memory address or nil pointer dereference" := by
  simp only [frozenConfig.Marshal] at h
  split at h
  · rename_i f' hw
    cases h
    cases v with
    | none => simp [Stream.WriteVal] at hw
    | some x =>
      simp only [Stream.WriteVal] at hw
      split at hw
      · cases hw
      · rename_i f'' he
        cases hw
        exact Encode_error E _ fuel _ _ _ _ he
  · split at h <;> cases h

/-- C11: `MarshalIndent(v, prefix, indent)` raises one of its two fatal configuration
errors if and only if `prefix` is non-empty or `indent` holds a rune other than a space.
Otherwise `frozeWithCacheReuse` hands back a frozen configuration that carries the
receiver's flags with `IndentionStep` replaced by the length of `indent` (the registry stays
sound), and the result is exactly what `Marshal(v)` returns on it. The package function
forwards to the default configuration. -/
theorem C11_MarshalIndent (E : Env) (fuel : Nat) (w : World) (cfg : Nat) (v : Option EFace)
    (pfx indent : String) (hreg : RegistryOk w) :
    ((frozenConfig.MarshalIndent E fuel w cfg v pfx indent
          = .error (.panic "prefix is not supported") ∨
        frozenConfig.MarshalIndent E fuel w cfg v pfx indent
          = .error (.panic "indent can only be space"))
      ↔ (pfx ≠ "" ∨ ∃ r ∈ indent.toList, r ≠ ' ')) ∧
    (pfx = "" → (∀ r ∈ indent.toList, r = ' ') →
      ∃ a w₁,
        (withIndentionStep (w.heap cfg).configBeforeFrozen indent.length).frozeWithCacheReuse E
          (w.heap cfg).extraExtensions w = (a, w₁) ∧
        frozenFor (withIndentionStep (w.heap cfg).configBeforeFrozen indent.length)
          (w₁.heap a) ∧
        (w₁.heap a).indentionStep = indent.length ∧
        RegistryOk w₁ ∧
        frozenConfig.MarshalIndent E fuel w cfg v pfx indent
          = frozenConfig.Marshal E fuel w₁ a v) ∧
    MarshalIndent E fuel w cfg v pfx indent
      = frozenConfig.MarshalIndent E fuel w cfg v pfx indent := by
  have hvalid : pfx = "" → (∀ r ∈ indent.toList, r = ' ') →
      frozenConfig.MarshalIndent E fuel w cfg v pfx indent
        = frozenConfig.Marshal E fuel
            ((withIndentionStep (w.heap cfg).configBeforeFrozen
              indent.length).frozeWithCacheReuse E (w.heap cfg).extraExtensions w).2
            ((withIndentionStep (w.heap cfg).configBeforeFrozen
              indent.length).frozeWithCacheReuse E (w.heap cfg).extraExtensions w).1 v := by
    intro hp hi
    have hn : hasNonSpace indent.toList = false := by
      cases hh : hasNonSpace indent.toList with
      | false => rfl
      | true =>
        obtain ⟨r, hr, hne⟩ := (hasNonSpace_iff _).1 hh
        exact absurd (hi r hr) hne
    simp only [frozenConfig.MarshalIndent, hp, ne_eq, not_true_eq_false, if_false, hn,
      Bool.false_eq_true, utf8ByteSize_spaces indent hi, withIndentionStep]
  refine ⟨⟨fun h => ?_, fun h => ?_⟩, fun hp hi => ?_, rfl⟩
  · by_contra hcon
    simp only [not_or, ne_eq, not_not, not_exists, not_and] at hcon
    have hm := hvalid hcon.1 (fun r hr => hcon.2 r hr)
    rw [hm] at h
    rcases h with h | h
    · rcases Marshal_error E fuel _ _ v _ h with h' | h' <;> exact absurd h' (by decide)
    · rcases Marshal_error E fuel _ _ v _ h with h' | h' <;> exact absurd h' (by decide)
  · by_cases hp : pfx = ""
    · have hi : ∃ r ∈ indent.toList, r ≠ ' ' := by
        rcases h with h | h
        · exact absurd hp h
        · exact h
      right
      unfold frozenConfig.MarshalIndent
      rw [if_neg (not_not.mpr hp), if_pos ((hasNonSpace_iff _).2 hi)]
    · left
      unfold frozenConfig.MarshalIndent
      rw [if_pos hp]
  · obtain ⟨hok, hfor⟩ := frozeWithCacheReuse_RegistryOk E
      (withIndentionStep (w.heap cfg).configBeforeFrozen indent.length)
      (w.heap cfg).extraExtensions w hreg
    exact ⟨_, _, rfl, hfor, hfor.2.1, hok, hvalid hp hi⟩

/-- C11 at the first frozen sample configuration: an empty prefix and a one-space indent. -/
theorem C11_MarshalIndent_witness :
    RegistryOk Sample.frozenOnce.2 ∧
    ¬ (frozenConfig.MarshalIndent Sample.env 0 Sample.frozenOnce.2 Sample.frozenOnce.1
          (some Sample.intValue) "" " " = .error (.panic "prefix is not supported") ∨
        frozenConfig.MarshalIndent Sample.env 0 Sample.frozenOnce.2 Sample.frozenOnce.1
          (some Sample.intValue) "" " " = .error (.panic "indent can only be space")) :=
  have hreg : RegistryOk Sample.frozenOnce.2 := fun c a h => by
    simp [Sample.frozenOnce, Config.Froze, Sample.emptyWorld, Map.Load] at h
  ⟨hreg, fun h => by
    have := (C11_MarshalIndent Sample.env 0 Sample.frozenOnce.2 Sample.frozenOnce.1
      (some Sample.intValue) "" " " hreg).1.1 h
    revert this
    decide⟩

/-! ## C12: Encoder.SetIndent -/

/-- C12, the code at the failing input: `SetIndent("x", "\t\t")`, a non-empty prefix and an
indent of two tabs, returns normally and points the encoder's stream at a frozen
configuration with an indention step of 2. In general `SetIndent` never looks at `prefix`
or at the runes of `indent`: whatever they are, it installs `len(indent)`. -/
theorem C12_SetIndent_installs_any_indent :
    ((Encoder.SetIndent Sample.env Sample.frozenOnce.2 Sample.sampleEncoder "x" "\t\t").2.heap
      (Encoder.SetIndent Sample.env Sample.frozenOnce.2 Sample.sampleEncoder "x"
        "\t\t").1.stream.cfg).indentionStep = 2 ∧
    (Sample.frozenOnce.2.heap Sample.sampleEncoder.stream.cfg).indentionStep = 0 ∧
    ∀ (E : Env) (w : World) (adapter : Encoder) (pfx indent : String), RegistryOk w →
      ((Encoder.SetIndent E w adapter pfx indent).2.heap
        (Encoder.SetIndent E w adapter pfx indent).1.stream.cfg).indentionStep
        = indent.utf8ByteSize := by
  refine ⟨by decide, by decide, fun E w adapter pfx indent hreg => ?_⟩
  exact (frozeWithCacheReuse_RegistryOk E _ _ w hreg).2.2.1

/-! ## C13: Unmarshal into nil or into a non-pointer -/

/-- C13, the code at the failing input: `Unmarshal(data, nil)` panics. The nil interface
has type word 0 and no descriptor, the cache holds nothing under 0, and `typ.Kind()` is
called on the nil descriptor. The two guards that `ReadVal` does have work as the claim
says: a typed non-pointer value with nothing cached under its type gets "can only unmarshal
into pointer", a nil pointer gets "can not read into nil pointer", and no decoder runs. -/
theorem C13_Unmarshal_nil_interface_panics :
    Unmarshal Sample.env 0 Sample.frozenOnce.2 Sample.frozenOnce.1 [] [49] none
      = .error (.panic "invalid memory address or nil pointer dereference") ∧
    (∀ (E : Env) (fuel : Nat) (w : World) (iter : Iterator) (mem : Memory),
      frozenConfig.getDecoderFromCache w iter.cfg 0 = none →
      Iterator.ReadVal E fuel w iter mem none
        = .error (.panic "invalid memory address or nil pointer dereference")) ∧
    (∀ (E : Env) (fuel : Nat) (w : World) (iter : Iterator) (mem : Memory) (x : EFace),
      frozenConfig.getDecoderFromCache w iter.cfg x.typ.rtype = none →
      x.typ.kind ≠ Kind.Ptr →
      Iterator.ReadVal E fuel w iter mem (some x)
        = .ok (iter.ReportError "ReadVal" "can only unmarshal into pointer", mem, w)) ∧
    (∀ (E : Env) (fuel : Nat) (w : World) (iter : Iterator) (mem : Memory) (x : EFace),
      x.typ.kind = Kind.Ptr → x.typ.isUnsafePtrType = true → x.data = Pointer.nil →
      ∃ w₁, Iterator.ReadVal E fuel w iter mem (some x)
        = .ok (iter.ReportError "ReadVal" "can not read into nil pointer", mem, w₁)) := by
  refine ⟨rfl, fun E fuel w iter mem h => ?_, fun E fuel w iter mem x h hk => ?_,
    fun E fuel w iter mem x hk hT hnil => ?_⟩
  · simp [Iterator.ReadVal, RTypeOf, TypeOf, h]
  · simp [Iterator.ReadVal, RTypeOf, TypeOf, h, hk]
  · cases hc : frozenConfig.getDecoderFromCache w iter.cfg x.typ.rtype with
    | some d => exact ⟨w, by simp [Iterator.ReadVal, RTypeOf, PtrOf, hc, hnil]⟩
    | none =>
      obtain ⟨d, w₁, hd, _⟩ := DecoderOf_total E w iter.cfg x.typ hT (by rw [hk]; rfl)
      exact ⟨w₁, by simp [Iterator.ReadVal, RTypeOf, TypeOf, PtrOf, hc, hk, hd, hnil]⟩

/-! ## C14: Valid -/

/-- C14, the code at the failing input: `Valid` is the error state after one `Skip`, and
nothing looks at what follows the value. On `null x` the sample scanner's `Skip` consumes
`null` without error, so `Valid` answers true, while `nextToken` still finds the byte
`x`. -/
theorem C14_Valid_ignores_trailing_input :
    (∀ (E : Env) (cfg : Nat) (data : List Nat),
      frozenConfig.Valid E cfg data = true
        ↔ (E.Skip (E.BorrowIterator cfg data)).Error = none) ∧
    Valid Sample.envSkipNull Sample.frozenOnce.1 Sample.nullThenGarbage = true ∧
    (Sample.envSkipNull.nextToken
      (Sample.envSkipNull.Skip
        (Sample.envSkipNull.BorrowIterator Sample.frozenOnce.1 Sample.nullThenGarbage))).1
      = 120 := by
  refine ⟨fun E cfg data => by simp [frozenConfig.Valid], by decide, by decide⟩

/-! ## C15 and C16: the recursion through the compilation context -/

theorem DecoderStep_refl (G : TypeGraph) (s : CompileState) : DecoderStep G s s :=
  ⟨List.suffix_refl _, id, id, Nat.le_refl _, fun _ _ => rfl,
    fun _ h₁ h₂ => absurd h₂ (by omega), rfl, rfl, rfl, rfl⟩

theorem DecoderStep_trans {G : TypeGraph} {s s₁ s₂ : CompileState}
    (h₁ : DecoderStep G s s₁) (h₂ : DecoderStep G s₁ s₂) : DecoderStep G s s₂ := by
  obtain ⟨a₁, b₁, c₁, d₁, e₁, f₁, g₁, i₁, j₁, k₁⟩ := h₁
  obtain ⟨a₂, b₂, c₂, d₂, e₂, f₂, g₂, i₂, j₂, k₂⟩ := h₂
  refine ⟨a₁.trans a₂, fun h => b₂ (b₁ h), fun h => c₂ (c₁ h), Nat.le_trans d₁ d₂,
    fun a ha => ?_, fun a h₁ h₂ => ?_, g₂.trans g₁, i₂.trans i₁, j₂.trans j₁, by omega⟩
  · rw [e₂ a (by omega), e₁ a ha]
  · by_cases h : a < s₁.cells.decoderNext
    · rw [e₂ a h]; exact f₁ a h₁ h
    · exact f₂ a (by omega) h₂

theorem filter_length_lt {α : Type} (p q : α → Bool) (h : ∀ a, p a = true → q a = true)
    (x : α) (hq : q x = true) (hp : p x = false) :
    ∀ l : List α, x ∈ l → (l.filter p).length < (l.filter q).length := by
  intro l
  induction l with
  | nil => intro hx; cases hx
  | cons a l ih =>
    intro hx
    have hle : (l.filter p).length ≤ (l.filter q).length :=
      (List.monotone_filter_right l h).length_le
    by_cases hax : a = x
    · subst hax
      simp only [List.filter_cons, hp, hq, if_true, List.length_cons, Bool.false_eq_true,
        if_false]
      omega
    · have hx' : x ∈ l := by
        rcases List.mem_cons.1 hx with h' | h'
        · exact absurd h'.symm hax
        · exact h'
      have ih' := ih hx'
      cases hpa : p a
      · cases hqa : q a
        · simp only [List.filter_cons, hpa, hqa, Bool.false_eq_true, if_false]; exact ih'
        · simp only [List.filter_cons, hpa, hqa, Bool.false_eq_true, if_false, if_true,
            List.length_cons]
          omega
      · have hqa := h a hpa
        simp only [List.filter_cons, hpa, hqa, if_true, List.length_cons]
        omega

theorem Load_of_suffix {κ ν : Type} [DecidableEq κ] {m m₁ : List (κ × ν)} (h : m <:+ m₁)
    (k : κ) (hk : Map.Load m₁ k = none) : Map.Load m k = none := by
  obtain ⟨pre, rfl⟩ := h
  simp only [Map.Load, List.lookup_append, Option.or_eq_none] at hk
  exact hk.2

theorem Load_none_not_mem {κ ν : Type} [DecidableEq κ] {m : List (κ × ν)} {k : κ}
    (h : Map.Load m k = none) : k ∉ m.map Prod.fst := by
  intro hmem
  obtain ⟨p, hp, rfl⟩ := List.mem_map.1 hmem
  simp only [Map.Load, List.lookup_eq_none_iff] at h
  have := h p hp
  simp at this

theorem unregisteredDecoders_le {G : TypeGraph} {s s₁ : CompileState}
    (h : s.decoders <:+ s₁.decoders) :
    unregisteredDecoders G s₁ ≤ unregisteredDecoders G s := by
  unfold unregisteredDecoders
  apply List.Sublist.length_le
  apply List.monotone_filter_right
  intro t ht
  have hn : Map.Load s₁.decoders t = none := by
    cases hl : Map.Load s₁.decoders t with
    | none => rfl
    | some d => rw [hl] at ht; cases ht
  rw [Load_of_suffix h t hn]
  rfl

theorem unregisteredDecoders_register {G : TypeGraph} {s : CompileState} {typ : Type2}
    (hl : Map.Load s.decoders typ = none) (ht : typ ∈ G.types) :
    unregisteredDecoders G (registerDecoderPlaceholder s typ) < unregisteredDecoders G s := by
  unfold unregisteredDecoders
  refine filter_length_lt _ _ (fun t h => ?_) typ (by rw [hl]; rfl) ?_ G.types ht
  · have hn : Map.Load (registerDecoderPlaceholder s typ).decoders t = none := by
      cases hl' : Map.Load (registerDecoderPlaceholder s typ).decoders t with
      | none => rfl
      | some d => rw [hl'] at h; cases h
    have hsuf : s.decoders <:+ (registerDecoderPlaceholder s typ).decoders :=
      ⟨[(typ, .placeholderDecoder s.cells.decoderNext)], rfl⟩
    rw [Load_of_suffix hsuf t hn]
    rfl
  · simp only [registerDecoderPlaceholder, Map.Load_Store]
    rfl

theorem DecoderStep_of_create {G : TypeGraph} {s s₂ : CompileState} {typ : Type2}
    (d : ValDecoder) (hl : Map.Load s.decoders typ = none) (ht : typ ∈ G.types)
    (h : DecoderStep G (registerDecoderPlaceholder s typ) s₂) :
    DecoderStep G s (bindDecoderPlaceholder s₂ s.cells.decoderNext d) := by
  obtain ⟨a₁, b₁, c₁, d₁, e₁, f₁, g₁, i₁, j₁, k₁⟩ := h
  have hsuf : s.decoders <:+ (registerDecoderPlaceholder s typ).decoders :=
    ⟨[(typ, .placeholderDecoder s.cells.decoderNext)], rfl⟩
  have hnext : (registerDecoderPlaceholder s typ).cells.decoderNext
      = s.cells.decoderNext + 1 := rfl
  have hlen : (registerDecoderPlaceholder s typ).decoders.length
      = s.decoders.length + 1 := rfl
  refine ⟨hsuf.trans a₁, fun hn => b₁ ?_, fun hs => c₁ ?_, ?_, fun a ha => ?_,
    fun a h₁ h₂ => ?_, g₁, i₁, j₁, ?_⟩
  · simp only [registerDecoderPlaceholder, Map.Store, List.map_cons, List.nodup_cons]
    exact ⟨Load_none_not_mem hl, hn⟩
  · intro t htm
    simp only [registerDecoderPlaceholder, Map.Store, List.map_cons, List.mem_cons] at htm
    rcases htm with rfl | htm
    · exact ht
    · exact hs t htm
  · simp only [bindDecoderPlaceholder]
    omega
  · have hne : a ≠ s.cells.decoderNext := by omega
    simp only [bindDecoderPlaceholder, Function.update_noteq hne]
    rw [e₁ a (by omega)]
    simp only [registerDecoderPlaceholder, Function.update_noteq hne]
  · by_cases hap : a = s.cells.decoderNext
    · subst hap
      simp [bindDecoderPlaceholder]
    · simp only [bindDecoderPlaceholder, Function.update_noteq hap]
      exact f₁ a (by omega) h₂
  · simp only [bindDecoderPlaceholder]
    omega

theorem firstApplicable_state {α : Type}
    (rs : List (CompileState → Option α × CompileState))
    (h : ∀ r ∈ rs, ∀ s, (r s).2 = s) (s : CompileState) :
    (firstApplicable rs s).2 = s := by
  induction rs with
  | nil => rfl
  | cons r rs ih =>
    have hr := h r (List.mem_cons_self r rs) s
    rcases hrs : r s with ⟨o, s₁⟩
    rw [hrs] at hr
    simp only at hr
    subst hr
    cases o with
    | some codec => simp only [firstApplicable, hrs]
    | none =>
      simp only [firstApplicable, hrs]
      exact ih (fun r' hr' => h r' (List.mem_cons_of_mem r hr'))

theorem decoderOfKind_state (E : Env) (c : ctx) (typ : Type2) (s : CompileState)
    (h : recursiveKind typ.kind = false) : (decoderOfKind E c typ s).2 = s := by
  unfold decoderOfKind
  revert h
  cases typ.kind <;> simp [recursiveKind]
  split <;> rfl

theorem resolveDecoders_returns (G : TypeGraph)
    (resolve : ctx → Type2 → CompileState → Except Fault (ValDecoder × CompileState))
    (n : Nat)
    (hres : ∀ c t s, t ∈ G.types → unregisteredDecoders G s < n →
      ∃ d s₁, resolve c t s = .ok (d, s₁) ∧ DecoderStep G s s₁)
    (c : ctx) :
    ∀ (l : List (String × Type2)) (s : CompileState), (∀ p ∈ l, p.2 ∈ G.types) →
      unregisteredDecoders G s < n →
      ∃ ds s₁, resolveDecoders resolve c l s = .ok (ds, s₁) ∧ DecoderStep G s s₁ := by
  intro l
  induction l with
  | nil => intro s _ _; exact ⟨[], s, rfl, DecoderStep_refl G s⟩
  | cons p rest ih =>
    intro s hl hm
    obtain ⟨label, t⟩ := p
    obtain ⟨d, s₁, hd, hstep⟩ := hres (c.append label) t s
      (hl (label, t) (List.mem_cons_self _ _)) hm
    have hm₁ : unregisteredDecoders G s₁ < n :=
      Nat.lt_of_le_of_lt (unregisteredDecoders_le hstep.1) hm
    obtain ⟨ds, s₂, hds, hstep₂⟩ := ih s₁
      (fun q hq => hl q (List.mem_cons_of_mem _ hq)) hm₁
    exact ⟨d :: ds, s₂, by simp only [resolveDecoders, hd, hds], DecoderStep_trans hstep hstep₂⟩

theorem decoderOfTypeWith_returns (G : TypeGraph) (E : Env) (hG : G.closed)
    (hE : recognisersKeepState E)
    (resolve : ctx → Type2 → CompileState → Except Fault (ValDecoder × CompileState))
    (n : Nat)
    (hres : ∀ c t s, t ∈ G.types → unregisteredDecoders G s < n →
      ∃ d s₁, resolve c t s = .ok (d, s₁) ∧ DecoderStep G s s₁)
    (c : ctx) (typ : Type2) (s : CompileState) (ht : typ ∈ G.types)
    (hm : unregisteredDecoders G s < n + 1) :
    ∃ d s₁, decoderOfTypeWith G E resolve c typ s = .ok (d, s₁) ∧ DecoderStep G s s₁ := by
  unfold decoderOfTypeWith
  cases E.getTypeDecoderFromExtension c typ with
  | some d => exact ⟨d, s, rfl, DecoderStep_refl G s⟩
  | none =>
    simp only
    unfold createDecoderOfTypeWith
    cases hl : Map.Load s.decoders typ with
    | some d => exact ⟨_, s, rfl, DecoderStep_refl G s⟩
    | none =>
      simp only
      have hm₁ : unregisteredDecoders G (registerDecoderPlaceholder s typ) < n := by
        have := unregisteredDecoders_register (G := G) hl ht
        omega
      have hcreate : ∃ d s₂, _createDecoderOfTypeWith G E resolve c typ
          (registerDecoderPlaceholder s typ) = .ok (d, s₂) ∧
          DecoderStep G (registerDecoderPlaceholder s typ) s₂ := by
        unfold _createDecoderOfTypeWith
        have hfa := firstApplicable_state (decoderRecognisers E c typ) (hE.1 c typ)
          (registerDecoderPlaceholder s typ)
        rcases hfa' : firstApplicable (decoderRecognisers E c typ)
          (registerDecoderPlaceholder s typ) with ⟨o, s₁⟩
        rw [hfa'] at hfa
        simp only at hfa
        subst hfa
        cases o with
        | some d => exact ⟨d, _, rfl, DecoderStep_refl G _⟩
        | none =>
          simp only
          cases hk : recursiveKind typ.kind with
          | true =>
            simp only [if_true]
            obtain ⟨ds, s₂, hds, hstep⟩ := resolveDecoders_returns G resolve n hres c
              (G.nested typ) _ (hG typ ht) hm₁
            exact ⟨G.assembleDecoder typ ds, s₂, by simp only [synthesizeDecoder, hds], hstep⟩
          | false =>
            simp only [Bool.false_eq_true, if_false]
            refine ⟨(decoderOfKind E c typ (registerDecoderPlaceholder s typ)).1,
              (decoderOfKind E c typ (registerDecoderPlaceholder s typ)).2, rfl, ?_⟩
            rw [decoderOfKind_state E c typ _ hk]
            exact DecoderStep_refl G _
      obtain ⟨d, s₂, hd, hstep⟩ := hcreate
      rw [hd]
      exact ⟨_, _, rfl, DecoderStep_of_create d hl ht hstep⟩

theorem decoderOfTypeFuel_returns (G : TypeGraph) (E : Env) (hG : G.closed)
    (hE : recognisersKeepState E) :
    ∀ (fuel : Nat) (c : ctx) (typ : Type2) (s : CompileState), typ ∈ G.types →
      unregisteredDecoders G s < fuel →
      ∃ d s₁, decoderOfTypeFuel G E fuel c typ s = .ok (d, s₁) ∧ DecoderStep G s s₁ := by
  intro fuel
  induction fuel with
  | zero => intro c typ s _ h; exact absurd h (Nat.not_lt_zero _)
  | succ n ih =>
    intro c typ s ht hm
    exact decoderOfTypeWith_returns G E hG hE (decoderOfTypeFuel G E n) n ih c typ s ht hm

theorem decorateDecoderInOrder_compiledEnv (G : TypeGraph) (E : Env) (n : Nat) (typ : Type2) :
    ∀ (chain : List Extension) (d : ValDecoder),
      decorateDecoderInOrder (compiledEnv G E n) typ chain d
        = decorateDecoderInOrder E typ chain d := by
  intro chain
  induction chain with
  | nil => intro d; rfl
  | cons x xs ih => intro d; simp only [decorateDecoderInOrder]; exact ih _

theorem decoderOfKind_compiledEnv (G : TypeGraph) (E : Env) (n : Nat) (c : ctx) (typ : Type2)
    (s : CompileState) :
    decoderOfKind (compiledEnv G E n) c typ s =
      if recursiveKind typ.kind then
        withinBudget (synthesizeDecoder G (decoderOfTypeFuel G E n) c typ s) .efaceDecoder s
      else decoderOfKind E c typ s := by
  simp only [decoderOfKind, compiledEnv, recursiveKind]
  cases typ.kind <;> simp

theorem _createDecoderOfType_compiledEnv (G : TypeGraph) (E : Env) (n : Nat) (c : ctx)
    (typ : Type2) (s : CompileState) (r : ValDecoder × CompileState)
    (h : _createDecoderOfTypeWith G E (decoderOfTypeFuel G E n) c typ s = .ok r) :
    _createDecoderOfType (compiledEnv G E n) c typ s = r := by
  rw [_createDecoderOfType_eq]
  have hrec : decoderRecognisers (compiledEnv G E n) c typ = decoderRecognisers E c typ := rfl
  rw [hrec]
  unfold _createDecoderOfTypeWith at h
  rcases hfa : firstApplicable (decoderRecognisers E c typ) s with ⟨_ | d, s₁⟩
  · rw [hfa] at h
    simp only at h ⊢
    rw [decoderOfKind_compiledEnv]
    cases hk : recursiveKind typ.kind with
    | true =>
      simp only [hk, if_true] at h ⊢
      rw [h]
      rfl
    | false =>
      simp only [hk, Bool.false_eq_true, if_false] at h ⊢
      injection h
  · rw [hfa] at h
    simp only at h ⊢
    injection h

theorem createDecoderOfType_eq (E : Env) (c : ctx) (typ : Type2) (s : CompileState) :
    createDecoderOfType E c typ s =
      match Map.Load s.decoders typ with
      | some decoder => (decoder, s)
      | none =>
        ((_createDecoderOfType E c typ (registerDecoderPlaceholder s typ)).1,
          bindDecoderPlaceholder
            (_createDecoderOfType E c typ (registerDecoderPlaceholder s typ)).2
            s.cells.decoderNext
            (_createDecoderOfType E c typ (registerDecoderPlaceholder s typ)).1) := by
  unfold createDecoderOfType
  cases Map.Load s.decoders typ <;> rfl

theorem createDecoderOfType_compiledEnv (G : TypeGraph) (E : Env) (n : Nat) (c : ctx)
    (typ : Type2) (s : CompileState) (r : ValDecoder × CompileState)
    (h : createDecoderOfTypeWith G E (decoderOfTypeFuel G E n) c typ s = .ok r) :
    createDecoderOfType (compiledEnv G E n) c typ s = r := by
  rw [createDecoderOfType_eq]
  unfold createDecoderOfTypeWith at h
  cases hl : Map.Load s.decoders typ with
  | some d =>
    simp only [hl] at h ⊢
    injection h
  | none =>
    simp only [hl] at h ⊢
    cases hc : _createDecoderOfTypeWith G E (decoderOfTypeFuel G E n) c typ
        (registerDecoderPlaceholder s typ) with
    | error f => rw [hc] at h; cases h
    | ok r₁ =>
      rw [hc] at h
      rw [_createDecoderOfType_compiledEnv G E n c typ _ r₁ hc]
      obtain ⟨d, s₁⟩ := r₁
      simp only at h
      injection h

theorem decoderOfType_compiledEnv (G : TypeGraph) (E : Env) (n : Nat) (c : ctx)
    (typ : Type2) (s : CompileState) (r : ValDecoder × CompileState)
    (h : decoderOfTypeFuel G E (n + 1) c typ s = .ok r) :
    decoderOfType (compiledEnv G E n) c typ s = r := by
  simp only [decoderOfTypeFuel, decoderOfTypeWith] at h
  cases hx : E.getTypeDecoderFromExtension c typ with
  | some d =>
    simp only [hx] at h
    injection h with h
    subst h
    have hx' : (compiledEnv G E n).getTypeDecoderFromExtension c typ = some d := hx
    simp only [decoderOfType, hx']
  | none =>
    simp only [hx] at h
    have hx' : (compiledEnv G E n).getTypeDecoderFromExtension c typ = none := hx
    rw [decoderOfType_eq_chain _ c typ s hx']
    cases hc : createDecoderOfTypeWith G E (decoderOfTypeFuel G E n) c typ s with
    | error f => rw [hc] at h; cases h
    | ok r₁ =>
      rw [hc] at h
      rw [createDecoderOfType_compiledEnv G E n c typ s r₁ hc,
        decorateDecoderInOrder_compiledEnv]
      obtain ⟨d, s₁⟩ := r₁
      simp only at h
      injection h

theorem unregisteredDecoders_le_length (G : TypeGraph) (s : CompileState) :
    unregisteredDecoders G s ≤ G.types.length :=
  List.length_filter_le _ _

theorem DecoderOf_compiledEnv (G : TypeGraph) (E : Env) (hG : G.closed)
    (hE : recognisersKeepState E) (n : Nat) (w : World) (cfg : Nat) (T : Type2)
    (hT : T.isUnsafePtrType = true) (hel : hasElem T.kind = true)
    (hmem : E.Elem T ∈ G.types)
    (hn : G.types.length ≤ n) :
    ∃ d w₁, frozenConfig.DecoderOf (compiledEnv G E n) w cfg T = .ok (d, w₁) ∧
      frozenConfig.getDecoderFromCache w₁ cfg T.rtype = some d ∧
      (allPlaceholdersBound w.cells → allPlaceholdersBound w₁.cells) ∧
      (∀ a, a < w.cells.decoderNext → w₁.cells.decoder a = w.cells.decoder a) ∧
      (frozenConfig.getDecoderFromCache w cfg T.rtype = none →
        ∃ s₁, decoderOfTypeFuel G E (n + 1) (rootCtx w cfg) (E.Elem T) (rootState w)
            = .ok (d, s₁) ∧ w₁.cells = s₁.cells ∧ DecoderStep G (rootState w) s₁) := by
  cases hc : frozenConfig.getDecoderFromCache w cfg T.rtype with
  | some d =>
    exact ⟨d, w, DecoderOf_hit _ w cfg T d hc, hc, id, fun _ _ => rfl, fun h => by cases h⟩
  | none =>
    obtain ⟨d, s₁, hd, hstep⟩ := decoderOfTypeFuel_returns G E hG hE (n + 1) (rootCtx w cfg)
      (E.Elem T) (rootState w) hmem
      (Nat.lt_succ_of_le (Nat.le_trans (unregisteredDecoders_le_length G _) hn))
    have hagree := decoderOfType_compiledEnv G E n _ _ _ _ hd
    have hm := DecoderOf_miss (compiledEnv G E n) w cfg T hc hT hel
    have helem : (compiledEnv G E n).Elem T = E.Elem T := rfl
    rw [helem, hagree] at hm
    have hstep₁ := hstep
    obtain ⟨_, _, _, d₁, e₁, f₁, _, i₁, j₁, _⟩ := hstep
    refine ⟨d, _, hm, getDecoderFromCache_add _ _ _ _,
      fun hb => ⟨fun a ha => ?_, fun a ha => ?_⟩,
      fun a ha => e₁ a ha, fun _ => ⟨s₁, hd, rfl, hstep₁⟩⟩
    · by_cases hlt : a < w.cells.decoderNext
      · have := e₁ a hlt
        simp only [frozenConfig.addDecoderToCache]
        rw [this]
        exact hb.1 a hlt
      · exact f₁ a (by simpa [rootState] using Nat.le_of_not_lt hlt) ha
    · have hnext : s₁.cells.encoderNext = w.cells.encoderNext := j₁
      have henc : s₁.cells.encoder = w.cells.encoder := i₁
      simp only [frozenConfig.addDecoderToCache] at ha ⊢
      rw [henc]
      exact hb.2 a (by rw [← hnext]; exact ha)

theorem EncoderStep_refl (G : TypeGraph) (s : CompileState) : EncoderStep G s s :=
  ⟨List.suffix_refl _, id, id, Nat.le_refl _, fun _ _ => rfl,
    fun _ h₁ h₂ => absurd h₂ (by omega), rfl, rfl, rfl, rfl⟩

theorem EncoderStep_trans {G : TypeGraph} {s s₁ s₂ : CompileState}
    (h₁ : EncoderStep G s s₁) (h₂ : EncoderStep G s₁ s₂) : EncoderStep G s s₂ := by
  obtain ⟨a₁, b₁, c₁, d₁, e₁, f₁, g₁, i₁, j₁, k₁⟩ := h₁
  obtain ⟨a₂, b₂, c₂, d₂, e₂, f₂, g₂, i₂, j₂, k₂⟩ := h₂
  refine ⟨a₁.trans a₂, fun h => b₂ (b₁ h), fun h => c₂ (c₁ h), Nat.le_trans d₁ d₂,
    fun a ha => ?_, fun a h₁ h₂ => ?_, g₂.trans g₁, i₂.trans i₁, j₂.trans j₁, by omega⟩
  · rw [e₂ a (by omega), e₁ a ha]
  · by_cases h : a < s₁.cells.encoderNext
    · rw [e₂ a h]; exact f₁ a h₁ h
    · exact f₂ a (by omega) h₂

theorem unregisteredEncoders_le {G : TypeGraph} {s s₁ : CompileState}
    (h : s.encoders <:+ s₁.encoders) :
    unregisteredEncoders G s₁ ≤ unregisteredEncoders G s := by
  unfold unregisteredEncoders
  apply List.Sublist.length_le
  apply List.monotone_filter_right
  intro t ht
  have hn : Map.Load s₁.encoders t = none := by
    cases hl : Map.Load s₁.encoders t with
    | none => rfl
    | some d => rw [hl] at ht; cases ht
  rw [Load_of_suffix h t hn]
  rfl

theorem unregisteredEncoders_register {G : TypeGraph} {s : CompileState} {typ : Type2}
    (hl : Map.Load s.encoders typ = none) (ht : typ ∈ G.types) :
    unregisteredEncoders G (registerEncoderPlaceholder s typ) < unregisteredEncoders G s := by
  unfold unregisteredEncoders
  refine filter_length_lt _ _ (fun t h => ?_) typ (by rw [hl]; rfl) ?_ G.types ht
  · have hn : Map.Load (registerEncoderPlaceholder s typ).encoders t = none := by
      cases hl' : Map.Load (registerEncoderPlaceholder s typ).encoders t with
      | none => rfl
      | some d => rw [hl'] at h; cases h
    have hsuf : s.encoders <:+ (registerEncoderPlaceholder s typ).encoders :=
      ⟨[(typ, .placeholderEncoder s.cells.encoderNext)], rfl⟩
    rw [Load_of_suffix hsuf t hn]
    rfl
  · simp only [registerEncoderPlaceholder, Map.Load_Store]
    rfl

theorem EncoderStep_of_create {G : TypeGraph} {s s₂ : CompileState} {typ : Type2}
    (d : ValEncoder) (hl : Map.Load s.encoders typ = none) (ht : typ ∈ G.types)
    (h : EncoderStep G (registerEncoderPlaceholder s typ) s₂) :
    EncoderStep G s (bindEncoderPlaceholder s₂ s.cells.encoderNext d) := by
  obtain ⟨a₁, b₁, c₁, d₁, e₁, f₁, g₁, i₁, j₁, k₁⟩ := h
  have hsuf : s.encoders <:+ (registerEncoderPlaceholder s typ).encoders :=
    ⟨[(typ, .placeholderEncoder s.cells.encoderNext)], rfl⟩
  have hnext : (registerEncoderPlaceholder s typ).cells.encoderNext
      = s.cells.encoderNext + 1 := rfl
  have hlen : (registerEncoderPlaceholder s typ).encoders.length
      = s.encoders.length + 1 := rfl
  refine ⟨hsuf.trans a₁, fun hn => b₁ ?_, fun hs => c₁ ?_, ?_, fun a ha => ?_,
    fun a h₁ h₂ => ?_, g₁, i₁, j₁, ?_⟩
  · simp only [registerEncoderPlaceholder, Map.Store, List.map_cons, List.nodup_cons]
    exact ⟨Load_none_not_mem hl, hn⟩
  · intro t htm
    simp only [registerEncoderPlaceholder, Map.Store, List.map_cons, List.mem_cons] at htm
    rcases htm with rfl | htm
    · exact ht
    · exact hs t htm
  · simp only [bindEncoderPlaceholder]
    omega
  · have hne : a ≠ s.cells.encoderNext := by omega
    simp only [bindEncoderPlaceholder, Function.update_noteq hne]
    rw [e₁ a (by omega)]
    simp only [registerEncoderPlaceholder, Function.update_noteq hne]
  · by_cases hap : a = s.cells.encoderNext
    · subst hap
      simp [bindEncoderPlaceholder]
    · simp only [bindEncoderPlaceholder, Function.update_noteq hap]
      exact f₁ a (by omega) h₂
  · simp only [bindEncoderPlaceholder]
    omega

theorem encoderOfKind_state (E : Env) (c : ctx) (typ : Type2) (s : CompileState)
    (h : recursiveKind typ.kind = false) : (encoderOfKind E c typ s).2 = s := by
  unfold encoderOfKind
  revert h
  cases typ.kind <;> simp [recursiveKind]

theorem resolveEncoders_returns (G : TypeGraph)
    (resolve : ctx → Type2 → CompileState → Except Fault (ValEncoder × CompileState))
    (n : Nat)
    (hres : ∀ c t s, t ∈ G.types → unregisteredEncoders G s < n →
      ∃ d s₁, resolve c t s = .ok (d, s₁) ∧ EncoderStep G s s₁)
    (c : ctx) :
    ∀ (l : List (String × Type2)) (s : CompileState), (∀ p ∈ l, p.2 ∈ G.types) →
      unregisteredEncoders G s < n →
      ∃ ds s₁, resolveEncoders resolve c l s = .ok (ds, s₁) ∧ EncoderStep G s s₁ := by
  intro l
  induction l with
  | nil => intro s _ _; exact ⟨[], s, rfl, EncoderStep_refl G s⟩
  | cons p rest ih =>
    intro s hl hm
    obtain ⟨label, t⟩ := p
    obtain ⟨d, s₁, hd, hstep⟩ := hres (c.append label) t s
      (hl (label, t) (List.mem_cons_self _ _)) hm
    have hm₁ : unregisteredEncoders G s₁ < n :=
      Nat.lt_of_le_of_lt (unregisteredEncoders_le hstep.1) hm
    obtain ⟨ds, s₂, hds, hstep₂⟩ := ih s₁
      (fun q hq => hl q (List.mem_cons_of_mem _ hq)) hm₁
    exact ⟨d :: ds, s₂, by simp only [resolveEncoders, hd, hds], EncoderStep_trans hstep hstep₂⟩

theorem encoderOfTypeWith_returns (G : TypeGraph) (E : Env) (hG : G.closed)
    (hE : recognisersKeepState E)
    (resolve : ctx → Type2 → CompileState → Except Fault (ValEncoder × CompileState))
    (n : Nat)
    (hres : ∀ c t s, t ∈ G.types → unregisteredEncoders G s < n →
      ∃ d s₁, resolve c t s = .ok (d, s₁) ∧ EncoderStep G s s₁)
    (c : ctx) (typ : Type2) (s : CompileState) (ht : typ ∈ G.types)
    (hm : unregisteredEncoders G s < n + 1) :
    ∃ d s₁, encoderOfTypeWith G E resolve c typ s = .ok (d, s₁) ∧ EncoderStep G s s₁ := by
  unfold encoderOfTypeWith
  cases E.getTypeEncoderFromExtension c typ with
  | some d => exact ⟨d, s, rfl, EncoderStep_refl G s⟩
  | none =>
    simp only
    unfold createEncoderOfTypeWith
    cases hl : Map.Load s.encoders typ with
    | some d => exact ⟨_, s, rfl, EncoderStep_refl G s⟩
    | none =>
      simp only
      have hm₁ : unregisteredEncoders G (registerEncoderPlaceholder s typ) < n := by
        have := unregisteredEncoders_register (G := G) hl ht
        omega
      have hcreate : ∃ d s₂, _createEncoderOfTypeWith G E resolve c typ
          (registerEncoderPlaceholder s typ) = .ok (d, s₂) ∧
          EncoderStep G (registerEncoderPlaceholder s typ) s₂ := by
        unfold _createEncoderOfTypeWith
        have hfa := firstApplicable_state (encoderRecognisers E c typ) (hE.2 c typ)
          (registerEncoderPlaceholder s typ)
        rcases hfa' : firstApplicable (encoderRecognisers E c typ)
          (registerEncoderPlaceholder s typ) with ⟨o, s₁⟩
        rw [hfa'] at hfa
        simp only at hfa
        subst hfa
        cases o with
        | some d => exact ⟨d, _, rfl, EncoderStep_refl G _⟩
        | none =>
          simp only
          cases hk : recursiveKind typ.kind with
          | true =>
            simp only [if_true]
            obtain ⟨ds, s₂, hds, hstep⟩ := resolveEncoders_returns G resolve n hres c
              (G.nested typ) _ (hG typ ht) hm₁
            exact ⟨G.assembleEncoder typ ds, s₂, by simp only [synthesizeEncoder, hds], hstep⟩
          | false =>
            simp only [Bool.false_eq_true, if_false]
            refine ⟨(encoderOfKind E c typ (registerEncoderPlaceholder s typ)).1,
              (encoderOfKind E c typ (registerEncoderPlaceholder s typ)).2, rfl, ?_⟩
            rw [encoderOfKind_state E c typ _ hk]
            exact EncoderStep_refl G _
      obtain ⟨d, s₂, hd, hstep⟩ := hcreate
      rw [hd]
      exact ⟨_, _, rfl, EncoderStep_of_create d hl ht hstep⟩

theorem encoderOfTypeFuel_returns (G : TypeGraph) (E : Env) (hG : G.closed)
    (hE : recognisersKeepState E) :
    ∀ (fuel : Nat) (c : ctx) (typ : Type2) (s : CompileState), typ ∈ G.types →
      unregisteredEncoders G s < fuel →
      ∃ d s₁, encoderOfTypeFuel G E fuel c typ s = .ok (d, s₁) ∧ EncoderStep G s s₁ := by
  intro fuel
  induction fuel with
  | zero => intro c typ s _ h; exact absurd h (Nat.not_lt_zero _)
  | succ n ih =>
    intro c typ s ht hm
    exact encoderOfTypeWith_returns G E hG hE (encoderOfTypeFuel G E n) n ih c typ s ht hm

theorem decorateEncoderInOrder_compiledEnv (G : TypeGraph) (E : Env) (n : Nat) (typ : Type2) :
    ∀ (chain : List Extension) (d : ValEncoder),
      decorateEncoderInOrder (compiledEnv G E n) typ chain d
        = decorateEncoderInOrder E typ chain d := by
  intro chain
  induction chain with
  | nil => intro d; rfl
  | cons x xs ih => intro d; simp only [decorateEncoderInOrder]; exact ih _

theorem encoderOfKind_compiledEnv (G : TypeGraph) (E : Env) (n : Nat) (c : ctx) (typ : Type2)
    (s : CompileState) :
    encoderOfKind (compiledEnv G E n) c typ s =
      if recursiveKind typ.kind then
        withinBudget (synthesizeEncoder G (encoderOfTypeFuel G E n) c typ s) (.dynamicEncoder typ) s
      else encoderOfKind E c typ s := by
  simp only [encoderOfKind, compiledEnv, recursiveKind]
  cases typ.kind <;> simp

theorem _createEncoderOfType_compiledEnv (G : TypeGraph) (E : Env) (n : Nat) (c : ctx)
    (typ : Type2) (s : CompileState) (r : ValEncoder × CompileState)
    (h : _createEncoderOfTypeWith G E (encoderOfTypeFuel G E n) c typ s = .ok r) :
    _createEncoderOfType (compiledEnv G E n) c typ s = r := by
  rw [_createEncoderOfType_eq]
  have hrec : encoderRecognisers (compiledEnv G E n) c typ = encoderRecognisers E c typ := rfl
  rw [hrec]
  unfold _createEncoderOfTypeWith at h
  rcases hfa : firstApplicable (encoderRecognisers E c typ) s with ⟨_ | d, s₁⟩
  · rw [hfa] at h
    simp only at h ⊢
    rw [encoderOfKind_compiledEnv]
    cases hk : recursiveKind typ.kind with
    | true =>
      simp only [hk, if_true] at h ⊢
      rw [h]
      rfl
    | false =>
      simp only [hk, Bool.false_eq_true, if_false] at h ⊢
      injection h
  · rw [hfa] at h
    simp only at h ⊢
    injection h

theorem createEncoderOfType_eq (E : Env) (c : ctx) (typ : Type2) (s : CompileState) :
    createEncoderOfType E c typ s =
      match Map.Load s.encoders typ with
      | some encoder => (encoder, s)
      | none =>
        ((_createEncoderOfType E c typ (registerEncoderPlaceholder s typ)).1,
          bindEncoderPlaceholder
            (_createEncoderOfType E c typ (registerEncoderPlaceholder s typ)).2
            s.cells.encoderNext
            (_createEncoderOfType E c typ (registerEncoderPlaceholder s typ)).1) := by
  unfold createEncoderOfType
  cases Map.Load s.encoders typ <;> rfl

theorem createEncoderOfType_compiledEnv (G : TypeGraph) (E : Env) (n : Nat) (c : ctx)
    (typ : Type2) (s : CompileState) (r : ValEncoder × CompileState)
    (h : createEncoderOfTypeWith G E (encoderOfTypeFuel G E n) c typ s = .ok r) :
    createEncoderOfType (compiledEnv G E n) c typ s = r := by
  rw [createEncoderOfType_eq]
  unfold createEncoderOfTypeWith at h
  cases hl : Map.Load s.encoders typ with
  | some d =>
    simp only [hl] at h ⊢
    injection h
  | none =>
    simp only [hl] at h ⊢
    cases hc : _createEncoderOfTypeWith G E (encoderOfTypeFuel G E n) c typ
        (registerEncoderPlaceholder s typ) with
    | error f => rw [hc] at h; cases h
    | ok r₁ =>
      rw [hc] at h
      rw [_createEncoderOfType_compiledEnv G E n c typ _ r₁ hc]
      obtain ⟨d, s₁⟩ := r₁
      simp only at h
      injection h

theorem encoderOfType_compiledEnv (G : TypeGraph) (E : Env) (n : Nat) (c : ctx)
    (typ : Type2) (s : CompileState) (r : ValEncoder × CompileState)
    (h : encoderOfTypeFuel G E (n + 1) c typ s = .ok r) :
    encoderOfType (compiledEnv G E n) c typ s = r := by
  simp only [encoderOfTypeFuel, encoderOfTypeWith] at h
  cases hx : E.getTypeEncoderFromExtension c typ with
  | some d =>
    simp only [hx] at h
    injection h with h
    subst h
    have hx' : (compiledEnv G E n).getTypeEncoderFromExtension c typ = some d := hx
    simp only [encoderOfType, hx']
  | none =>
    simp only [hx] at h
    have hx' : (compiledEnv G E n).getTypeEncoderFromExtension c typ = none := hx
    rw [encoderOfType_eq_chain _ c typ s hx']
    cases hc : createEncoderOfTypeWith G E (encoderOfTypeFuel G E n) c typ s with
    | error f => rw [hc] at h; cases h
    | ok r₁ =>
      rw [hc] at h
      rw [createEncoderOfType_compiledEnv G E n c typ s r₁ hc,
        decorateEncoderInOrder_compiledEnv]
      obtain ⟨d, s₁⟩ := r₁
      simp only at h
      injection h

theorem unregisteredEncoders_le_length (G : TypeGraph) (s : CompileState) :
    unregisteredEncoders G s ≤ G.types.length :=
  List.length_filter_le _ _

theorem EncoderOf_compiledEnv (G : TypeGraph) (E : Env) (hG : G.closed)
    (hE : recognisersKeepState E) (n : Nat) (w : World) (cfg : Nat) (T : Type2)
    (hmem : T ∈ G.types) (hn : G.types.length ≤ n) :
    ∃ e w₁, frozenConfig.EncoderOf (compiledEnv G E n) w cfg T = (e, w₁) ∧
      frozenConfig.getEncoderFromCache w₁ cfg T.rtype = some e ∧
      (allPlaceholdersBound w.cells → allPlaceholdersBound w₁.cells) ∧
      (∀ a, a < w.cells.encoderNext → w₁.cells.encoder a = w.cells.encoder a) ∧
      (frozenConfig.getEncoderFromCache w cfg T.rtype = none →
        ∃ e₀ s₁, encoderOfTypeFuel G E (n + 1) (rootCtx w cfg) T (rootState w)
            = .ok (e₀, s₁) ∧
          e = (if T.likePtr then ValEncoder.onePtrEncoder e₀ else e₀) ∧
          w₁.cells = s₁.cells ∧ EncoderStep G (rootState w) s₁) := by
  cases hc : frozenConfig.getEncoderFromCache w cfg T.rtype with
  | some e =>
    exact ⟨e, w, EncoderOf_hit _ w cfg T e hc, hc, id, fun _ _ => rfl, fun h => by cases h⟩
  | none =>
    obtain ⟨e₀, s₁, hd, hstep⟩ := encoderOfTypeFuel_returns G E hG hE (n + 1) (rootCtx w cfg)
      T (rootState w) hmem
      (Nat.lt_succ_of_le (Nat.le_trans (unregisteredEncoders_le_length G _) hn))
    have hagree := encoderOfType_compiledEnv G E n _ _ _ _ hd
    have hm := EncoderOf_miss (compiledEnv G E n) w cfg T hc
    rw [hagree] at hm
    have hstep₁ := hstep
    obtain ⟨_, _, _, d₁, e₁, f₁, _, i₁, j₁, _⟩ := hstep
    refine ⟨_, _, hm, getEncoderFromCache_add _ _ _ _,
      fun hb => ⟨fun a ha => ?_, fun a ha => ?_⟩,
      fun a ha => e₁ a ha, fun _ => ⟨e₀, s₁, hd, rfl, rfl, hstep₁⟩⟩
    · have hnext : s₁.cells.decoderNext = w.cells.decoderNext := j₁
      have hdec : s₁.cells.decoder = w.cells.decoder := i₁
      simp only [frozenConfig.addEncoderToCache] at ha ⊢
      rw [hdec]
      exact hb.1 a (by rw [← hnext]; exact ha)
    · by_cases hlt : a < w.cells.encoderNext
      · have := e₁ a hlt
        simp only [frozenConfig.addEncoderToCache]
        rw [this]
        exact hb.2 a hlt
      · exact f₁ a (by simpa [rootState] using Nat.le_of_not_lt hlt) ha

theorem Decode_placeholderDecoder (E : Env) (cells : Placeholders) (fuel cell : Nat)
    (bound : ValDecoder) (h : cells.decoder cell = some bound) (ptr : Pointer)
    (iter : Iterator) (mem : Memory) :
    ValDecoder.Decode E cells (fuel + 1) (.placeholderDecoder cell) ptr iter mem
      = ValDecoder.Decode E cells fuel bound ptr iter mem := by
  simp only [ValDecoder.Decode, h]

theorem Encode_placeholderEncoder (E : Env) (cells : Placeholders) (fuel cell : Nat)
    (bound : ValEncoder) (h : cells.encoder cell = some bound) (ptr : Pointer)
    (stream : Stream) :
    ValEncoder.Encode E cells (fuel + 1) (.placeholderEncoder cell) ptr stream
      = ValEncoder.Encode E cells fuel bound ptr stream := by
  simp only [ValEncoder.Encode, h]

theorem IsEmpty_placeholderEncoder (E : Env) (cells : Placeholders) (fuel cell : Nat)
    (bound : ValEncoder) (h : cells.encoder cell = some bound) (ptr : Pointer) :
    ValEncoder.IsEmpty E cells (fuel + 1) (.placeholderEncoder cell) ptr
      = ValEncoder.IsEmpty E cells fuel bound ptr := by
  simp only [ValEncoder.IsEmpty, h]

theorem registered_length_le (G : TypeGraph) {κ : Type} (m : List (Type2 × κ))
    (hn : (m.map Prod.fst).Nodup) (hs : ∀ t ∈ m.map Prod.fst, t ∈ G.types) :
    m.length ≤ G.types.length := by
  have h := (List.Nodup.subperm hn (fun t ht => hs t ht)).length_le
  simpa using h

theorem Sample.nodeEnv_recognisersKeepState : recognisersKeepState Sample.nodeEnv := by
  constructor
  · intro c typ r hr s
    simp only [decoderRecognisers, List.mem_cons, List.mem_singleton, List.not_mem_nil,
      or_false] at hr
    rcases hr with rfl | rfl | rfl | rfl | rfl <;> rfl
  · intro c typ r hr s
    simp only [encoderRecognisers, List.mem_cons, List.mem_singleton, List.not_mem_nil,
      or_false] at hr
    rcases hr with rfl | rfl | rfl | rfl | rfl <;> rfl

theorem Sample.nodeGraph_closed : Sample.nodeGraph.closed := by
  intro t ht p hp
  simp only [Sample.nodeGraph, List.mem_cons, List.mem_singleton, List.not_mem_nil,
    or_false] at ht
  rcases ht with rfl | rfl
  · simp only [Sample.nodeGraph] at hp ⊢
    simp at hp
    subst hp
    simp
  · have hne : Sample.ptrNodeType ≠ Sample.nodeType := by decide
    simp only [Sample.nodeGraph, if_neg hne] at hp ⊢
    simp at hp
    subst hp
    simp

/-- C15: for every finite, closed type graph, compiling a type of the graph returns, and
the nesting depth of `decoderOfType` / `encoderOfType` calls never exceeds the number of
types of the graph plus one: that much `fuel` is enough, whatever the graph, a
self-referential struct included. Within one compilation context a type is registered at
most once, each run of structural synthesis registers its type first (one placeholder per
run, so at most as many runs as the graph has types), and a request for a type already
registered returns the registered codec with the context unchanged, without synthesizing.
The source's `decoderOfType` / `encoderOfType`, run with synthesizers that recurse this way,
return the same result. -/
theorem C15_compilation_terminates (G : TypeGraph) (E : Env) (c : ctx) (typ : Type2)
    (s : CompileState) (fuel : Nat) (hG : G.closed) (hE : recognisersKeepState E)
    (ht : typ ∈ G.types) (hfuel : G.types.length < fuel) :
    (∃ d s₁, decoderOfTypeFuel G E fuel c typ s = .ok (d, s₁) ∧
      decoderOfType (compiledEnv G E (fuel - 1)) c typ s = (d, s₁) ∧
      s.decoders <:+ s₁.decoders ∧
      ((s.decoders.map Prod.fst).Nodup → (s₁.decoders.map Prod.fst).Nodup) ∧
      s₁.decoders.length + s.cells.decoderNext = s.decoders.length + s₁.cells.decoderNext ∧
      (s.decoders = [] → s₁.cells.decoderNext - s.cells.decoderNext ≤ G.types.length)) ∧
    (∃ e s₁, encoderOfTypeFuel G E fuel c typ s = .ok (e, s₁) ∧
      encoderOfType (compiledEnv G E (fuel - 1)) c typ s = (e, s₁) ∧
      s.encoders <:+ s₁.encoders ∧
      ((s.encoders.map Prod.fst).Nodup → (s₁.encoders.map Prod.fst).Nodup) ∧
      s₁.encoders.length + s.cells.encoderNext = s.encoders.length + s₁.cells.encoderNext ∧
      (s.encoders = [] → s₁.cells.encoderNext - s.cells.encoderNext ≤ G.types.length)) ∧
    (∀ (E₀ : Env) d, Map.Load s.decoders typ = some d →
      createDecoderOfType E₀ c typ s = (d, s)) ∧
    (∀ (E₀ : Env) e, Map.Load s.encoders typ = some e →
      createEncoderOfType E₀ c typ s = (e, s)) ∧
    (∀ (E₀ : Env), Map.Load s.decoders typ = none →
      Map.Load (registerDecoderPlaceholder s typ).decoders typ
        = some (.placeholderDecoder s.cells.decoderNext) ∧
      (createDecoderOfType E₀ c typ s).1
        = (_createDecoderOfType E₀ c typ (registerDecoderPlaceholder s typ)).1) ∧
    (∀ (E₀ : Env), Map.Load s.encoders typ = none →
      Map.Load (registerEncoderPlaceholder s typ).encoders typ
        = some (.placeholderEncoder s.cells.encoderNext) ∧
      (createEncoderOfType E₀ c typ s).1
        = (_createEncoderOfType E₀ c typ (registerEncoderPlaceholder s typ)).1) := by
  obtain ⟨k, rfl⟩ : ∃ k, fuel = k + 1 := ⟨fuel - 1, by omega⟩
  have hd₀ := Nat.lt_of_le_of_lt (unregisteredDecoders_le_length G s) hfuel
  have he₀ := Nat.lt_of_le_of_lt (unregisteredEncoders_le_length G s) hfuel
  refine ⟨?_, ?_, fun E₀ d h => ?_, fun E₀ e h => ?_, fun E₀ h => ⟨?_, ?_⟩,
    fun E₀ h => ⟨?_, ?_⟩⟩
  · obtain ⟨d, s₁, hd, hstep⟩ := decoderOfTypeFuel_returns G E hG hE (k + 1) c typ s ht hd₀
    refine ⟨d, s₁, hd, decoderOfType_compiledEnv G E k c typ s _ hd, hstep.1, hstep.2.1,
      hstep.2.2.2.2.2.2.2.2.2, fun hnil => ?_⟩
    have hlen := registered_length_le G s₁.decoders
      (hstep.2.1 (by rw [hnil]; exact List.nodup_nil))
      (hstep.2.2.1 (by rw [hnil]; intro t ht'; cases ht'))
    have hcount := hstep.2.2.2.2.2.2.2.2.2
    rw [hnil] at hcount
    simp only [List.length_nil] at hcount
    omega
  · obtain ⟨e, s₁, hd, hstep⟩ := encoderOfTypeFuel_returns G E hG hE (k + 1) c typ s ht he₀
    refine ⟨e, s₁, hd, encoderOfType_compiledEnv G E k c typ s _ hd, hstep.1, hstep.2.1,
      hstep.2.2.2.2.2.2.2.2.2, fun hnil => ?_⟩
    have hlen := registered_length_le G s₁.encoders
      (hstep.2.1 (by rw [hnil]; exact List.nodup_nil))
      (hstep.2.2.1 (by rw [hnil]; intro t ht'; cases ht'))
    have hcount := hstep.2.2.2.2.2.2.2.2.2
    rw [hnil] at hcount
    simp only [List.length_nil] at hcount
    omega
  · rw [createDecoderOfType_eq, h]
  · rw [createEncoderOfType_eq, h]
  · simp only [registerDecoderPlaceholder, Map.Load_Store]
  · rw [createDecoderOfType_eq, h]
  · simp only [registerEncoderPlaceholder, Map.Load_Store]
  · rw [createEncoderOfType_eq, h]

/-- C15 on `type Node struct { Next *Node }`: the graph has two types and a nesting budget
of three compiles `Node`. -/
theorem C15_compilation_terminates_witness :
    Sample.nodeGraph.closed ∧ recognisersKeepState Sample.nodeEnv ∧
    Sample.nodeType ∈ Sample.nodeGraph.types ∧ Sample.nodeGraph.types.length < 3 ∧
    ∃ d s₁, decoderOfTypeFuel Sample.nodeGraph Sample.nodeEnv 3
        (rootCtx Sample.frozenOnce.2 Sample.frozenOnce.1) Sample.nodeType
        (rootState Sample.frozenOnce.2) = .ok (d, s₁) ∧
      decoderOfType (compiledEnv Sample.nodeGraph Sample.nodeEnv (3 - 1))
        (rootCtx Sample.frozenOnce.2 Sample.frozenOnce.1) Sample.nodeType
        (rootState Sample.frozenOnce.2) = (d, s₁) :=
  have h := (C15_compilation_terminates Sample.nodeGraph Sample.nodeEnv
    (rootCtx Sample.frozenOnce.2 Sample.frozenOnce.1) Sample.nodeType
    (rootState Sample.frozenOnce.2) 3 Sample.nodeGraph_closed
    Sample.nodeEnv_recognisersKeepState (by decide) (by decide)).1
  ⟨Sample.nodeGraph_closed, Sample.nodeEnv_recognisersKeepState, by decide, by decide,
    h.choose, h.choose_spec.choose, h.choose_spec.choose_spec.1,
    h.choose_spec.choose_spec.2.1⟩

/-- C16: in `createDecoderOfType` / `createEncoderOfType` a placeholder is created unbound,
registered, and bound on return to the codec that `_createDecoderOfType` /
`_createEncoderOfType` produced for its type. A compilation leaves the placeholders that
existed before it as they were and returns with every placeholder it created bound, so each
is bound once, by the call that created it. Hence when `DecoderOf` / `EncoderOf` has stored
its result in the cache, every placeholder that exists is bound (none reachable from a cache
entry is unbound); and `Decode`, `Encode` and `IsEmpty` of a bound placeholder are those of
the codec it is bound to. -/
theorem C16_placeholders_bound_before_caching (G : TypeGraph) (E : Env) (n : Nat)
    (w : World) (cfg : Nat) (T : Type2) (hG : G.closed) (hE : recognisersKeepState E)
    (hn : G.types.length ≤ n) (hb : allPlaceholdersBound w.cells) :
    (∀ (E₀ : Env) c typ s, Map.Load s.decoders typ = none →
      (registerDecoderPlaceholder s typ).cells.decoder s.cells.decoderNext = none ∧
      (createDecoderOfType E₀ c typ s).1
        = (_createDecoderOfType E₀ c typ (registerDecoderPlaceholder s typ)).1 ∧
      (createDecoderOfType E₀ c typ s).2.cells.decoder s.cells.decoderNext
        = some (createDecoderOfType E₀ c typ s).1) ∧
    (∀ (E₀ : Env) c typ s, Map.Load s.encoders typ = none →
      (registerEncoderPlaceholder s typ).cells.encoder s.cells.encoderNext = none ∧
      (createEncoderOfType E₀ c typ s).1
        = (_createEncoderOfType E₀ c typ (registerEncoderPlaceholder s typ)).1 ∧
      (createEncoderOfType E₀ c typ s).2.cells.encoder s.cells.encoderNext
        = some (createEncoderOfType E₀ c typ s).1) ∧
    (T.isUnsafePtrType = true → hasElem T.kind = true → E.Elem T ∈ G.types →
      ∃ d w₁, frozenConfig.DecoderOf (compiledEnv G E n) w cfg T = .ok (d, w₁) ∧
        frozenConfig.getDecoderFromCache w₁ cfg T.rtype = some d ∧
        allPlaceholdersBound w₁.cells ∧
        (∀ a, a < w.cells.decoderNext → w₁.cells.decoder a = w.cells.decoder a) ∧
        (frozenConfig.getDecoderFromCache w cfg T.rtype = none →
          ∃ s₁, decoderOfTypeFuel G E (n + 1) (rootCtx w cfg) (E.Elem T) (rootState w)
              = .ok (d, s₁) ∧ w₁.cells = s₁.cells ∧ DecoderStep G (rootState w) s₁)) ∧
    (T ∈ G.types →
      ∃ e w₁, frozenConfig.EncoderOf (compiledEnv G E n) w cfg T = (e, w₁) ∧
        frozenConfig.getEncoderFromCache w₁ cfg T.rtype = some e ∧
        allPlaceholdersBound w₁.cells ∧
        (∀ a, a < w.cells.encoderNext → w₁.cells.encoder a = w.cells.encoder a) ∧
        (frozenConfig.getEncoderFromCache w cfg T.rtype = none →
          ∃ e₀ s₁, encoderOfTypeFuel G E (n + 1) (rootCtx w cfg) T (rootState w)
              = .ok (e₀, s₁) ∧
            e = (if T.likePtr then ValEncoder.onePtrEncoder e₀ else e₀) ∧
            w₁.cells = s₁.cells ∧ EncoderStep G (rootState w) s₁)) ∧
    (∀ (cells : Placeholders) (cell : Nat) (bound : ValDecoder),
      cells.decoder cell = some bound → ∀ fuel ptr iter mem,
        ValDecoder.Decode E cells (fuel + 1) (.placeholderDecoder cell) ptr iter mem
          = ValDecoder.Decode E cells fuel bound ptr iter mem) ∧
    (∀ (cells : Placeholders) (cell : Nat) (bound : ValEncoder),
      cells.encoder cell = some bound → ∀ fuel ptr,
        (∀ stream, ValEncoder.Encode E cells (fuel + 1) (.placeholderEncoder cell) ptr stream
          = ValEncoder.Encode E cells fuel bound ptr stream) ∧
        ValEncoder.IsEmpty E cells (fuel + 1) (.placeholderEncoder cell) ptr
          = ValEncoder.IsEmpty E cells fuel bound ptr) := by
  refine ⟨fun E₀ c typ s h => ⟨?_, ?_, ?_⟩, fun E₀ c typ s h => ⟨?_, ?_, ?_⟩,
    fun hT hel hmem => ?_, fun hmem => ?_,
    fun cells cell bound h fuel ptr iter mem =>
      Decode_placeholderDecoder E cells fuel cell bound h ptr iter mem,
    fun cells cell bound h fuel ptr =>
      ⟨fun stream => Encode_placeholderEncoder E cells fuel cell bound h ptr stream,
        IsEmpty_placeholderEncoder E cells fuel cell bound h ptr⟩⟩
  · simp [registerDecoderPlaceholder]
  · rw [createDecoderOfType_eq, h]
  · rw [createDecoderOfType_eq, h]
    simp [bindDecoderPlaceholder]
  · simp [registerEncoderPlaceholder]
  · rw [createEncoderOfType_eq, h]
  · rw [createEncoderOfType_eq, h]
    simp [bindEncoderPlaceholder]
  · obtain ⟨d, w₁, h₁, h₂, h₃, h₄, h₅⟩ :=
      DecoderOf_compiledEnv G E hG hE n w cfg T hT hel hmem hn
    exact ⟨d, w₁, h₁, h₂, h₃ hb, h₄, h₅⟩
  · obtain ⟨e, w₁, h₁, h₂, h₃, h₄, h₅⟩ := EncoderOf_compiledEnv G E hG hE n w cfg T hmem hn
    exact ⟨e, w₁, h₁, h₂, h₃ hb, h₄, h₅⟩

/-- C16 on `type Node struct { Next *Node }`: after `DecoderOf(*Node)` on the first frozen
sample configuration, the placeholders of `Node` and `*Node` are bound. -/
theorem C16_placeholders_bound_before_caching_witness :
    Sample.nodeGraph.closed ∧ recognisersKeepState Sample.nodeEnv ∧
    Sample.nodeGraph.types.length ≤ 2 ∧ allPlaceholdersBound Sample.frozenOnce.2.cells ∧
    ∃ d w₁, frozenConfig.DecoderOf (compiledEnv Sample.nodeGraph Sample.nodeEnv 2)
        Sample.frozenOnce.2 Sample.frozenOnce.1 Sample.ptrNodeType = .ok (d, w₁) ∧
      frozenConfig.getDecoderFromCache w₁ Sample.frozenOnce.1 Sample.ptrNodeType.rtype
        = some d ∧
      allPlaceholdersBound w₁.cells :=
  have hb : allPlaceholdersBound Sample.frozenOnce.2.cells :=
    ⟨fun a ha => absurd ha (Nat.not_lt_zero a), fun a ha => absurd ha (Nat.not_lt_zero a)⟩
  have h := (C16_placeholders_bound_before_caching Sample.nodeGraph Sample.nodeEnv 2
    Sample.frozenOnce.2 Sample.frozenOnce.1 Sample.ptrNodeType Sample.nodeGraph_closed
    Sample.nodeEnv_recognisersKeepState (by decide) hb).2.2.1 rfl rfl (by decide)
  ⟨Sample.nodeGraph_closed, Sample.nodeEnv_recognisersKeepState, by decide, hb,
    h.choose, h.choose_spec.choose, h.choose_spec.choose_spec.1,
    h.choose_spec.choose_spec.2.1, h.choose_spec.choose_spec.2.2.1⟩

end jsoniter
